import Mathlib

/-!
# OLSR wire codec (`olsr-header.cc`): a shallow embedding and its properties

The byte buffer of `ns3::Buffer` is a `List Nat`; the cell `n` stands for the
byte `n % 256`.  A `Buffer::Iterator` positioned somewhere in the buffer is the
list of the bytes from that position on.  Unsigned machine integers are
naturals, reduced `% 2^w` wherever the C++ code converts or can wrap.  A
`double` is carried as its 64-bit pattern (a natural below `2^64`).

A call either returns or aborts; `Outcome` records which.  A call aborts when
an `NS_ASSERT` is false, when the iterator is moved past the last byte of the
buffer, or when an `int` shift leaves the range of `int`.
-/

namespace Olsr

/-! ## Outcomes -/

/-- Reasons for which a call aborts instead of returning. -/
inductive Fault where
  /-- An `NS_ASSERT` condition evaluated to false. -/
  | assertion
  /-- A read moved the iterator past the last byte of the buffer. -/
  | bufferEnd
  /-- An `int` shift `1 << b` left the range of `int`. -/
  | shiftRange
  deriving DecidableEq, Repr

/-- The outcome of a call: a returned value, or an abort. -/
inductive Outcome (α : Type) where
  | ok (a : α)
  | fail (f : Fault)
  deriving DecidableEq, Repr

/-- Sequencing of calls: the first abort ends the computation. -/
def Outcome.bind {α β : Type} : Outcome α → (α → Outcome β) → Outcome β
  | .ok a, f => f a
  | .fail e, _ => .fail e

instance : Monad Outcome where
  pure := Outcome.ok
  bind := Outcome.bind

/-- The macro `NS_ASSERT(c)`: the call goes on when `c` holds and aborts otherwise. -/
def NS_ASSERT (c : Bool) : Outcome Unit :=
  if c then .ok () else .fail .assertion

/-! ## `uint32_t` arithmetic -/

/-- Conversion of a value to `uint32_t`. -/
def u32 (x : Nat) : Nat := x % 4294967296

/-- The `uint32_t` difference `a - b` of two `uint32_t` values, which wraps below zero. -/
def sub32 (a b : Nat) : Nat := (a + 4294967296 - b) % 4294967296

/-! ## Sizes (`#define`s of `olsr-header.cc`) -/

abbrev IPV4_ADDRESS_SIZE : Nat := 4
abbrev OLSR_MSG_HEADER_SIZE : Nat := 12
abbrev OLSR_PKT_HEADER_SIZE : Nat := 4

/-! ## `Buffer::Iterator` primitives

`WriteHtonU16/32/64` put the most significant byte first, `WriteU16/64` the
least significant byte first; the `Read` functions are their inverses. -/

def WriteU8 (v : Nat) : List Nat := [v % 256]

def WriteU16 (v : Nat) : List Nat := [v % 256, v / 256 % 256]

def WriteHtonU16 (v : Nat) : List Nat := [v / 256 % 256, v % 256]

def WriteHtonU32 (v : Nat) : List Nat :=
  [v / 16777216 % 256, v / 65536 % 256, v / 256 % 256, v % 256]

def WriteHtonU64 (v : Nat) : List Nat :=
  [v / 72057594037927936 % 256, v / 281474976710656 % 256, v / 1099511627776 % 256,
   v / 4294967296 % 256, v / 16777216 % 256, v / 65536 % 256, v / 256 % 256, v % 256]

def WriteU64 (v : Nat) : List Nat :=
  [v % 256, v / 256 % 256, v / 65536 % 256, v / 16777216 % 256, v / 4294967296 % 256,
   v / 1099511627776 % 256, v / 281474976710656 % 256, v / 72057594037927936 % 256]

def ReadU8 : List Nat → Outcome (Nat × List Nat)
  | b :: r => .ok (b % 256, r)
  | _ => .fail .bufferEnd

def ReadNtohU16 : List Nat → Outcome (Nat × List Nat)
  | b0 :: b1 :: r => .ok (b0 % 256 * 256 + b1 % 256, r)
  | _ => .fail .bufferEnd

def ReadNtohU32 : List Nat → Outcome (Nat × List Nat)
  | b0 :: b1 :: b2 :: b3 :: r =>
    .ok (b0 % 256 * 16777216 + b1 % 256 * 65536 + b2 % 256 * 256 + b3 % 256, r)
  | _ => .fail .bufferEnd

def ReadNtohU64 : List Nat → Outcome (Nat × List Nat)
  | b0 :: b1 :: b2 :: b3 :: b4 :: b5 :: b6 :: b7 :: r =>
    .ok (b0 % 256 * 72057594037927936 + b1 % 256 * 281474976710656
          + b2 % 256 * 1099511627776 + b3 % 256 * 4294967296
          + b4 % 256 * 16777216 + b5 % 256 * 65536 + b6 % 256 * 256 + b7 % 256, r)
  | _ => .fail .bufferEnd

def ReadU64 : List Nat → Outcome (Nat × List Nat)
  | b0 :: b1 :: b2 :: b3 :: b4 :: b5 :: b6 :: b7 :: r =>
    .ok (b0 % 256 + b1 % 256 * 256 + b2 % 256 * 65536 + b3 % 256 * 16777216
          + b4 % 256 * 4294967296 + b5 % 256 * 1099511627776
          + b6 % 256 * 281474976710656 + b7 % 256 * 72057594037927936, r)
  | _ => .fail .bufferEnd

/-- Modelled from the spec: `DoubleToUint64` is declared in `olsr-header.h`, which is
not among the sources; the position and interval fields "are raw 64-bit patterns, not
scaled integers", so a `double` is carried as its bit pattern and the conversion keeps
the 64 bits. -/
def DoubleToUint64 (d : Nat) : Nat := d % 18446744073709551616

/-- Modelled from the spec: `Uint64ToDouble` is declared in `olsr-header.h`, which is
not among the sources; it is the inverse reinterpretation of `DoubleToUint64`. -/
def Uint64ToDouble (u : Nat) : Nat := u % 18446744073709551616

/-! ## Data model -/

/-- A `Vector` of three `double`s, each as its 64-bit pattern. -/
structure Vector where
  x : Nat
  y : Nat
  z : Nat
  deriving DecidableEq, Repr

/-- The body `MessageHeader::Mid`. -/
structure Mid where
  interfaceAddresses : List Nat
  deriving DecidableEq, Repr

/-- The block `MessageHeader::Hello::LinkMessage`. -/
structure LinkMessage where
  linkCode : Nat
  neighborInterfaceAddresses : List Nat
  deriving DecidableEq, Repr

/-- The body `MessageHeader::Hello`; `willingness` is the `uint8_t` under `enum Willingness`. -/
structure Hello where
  hTime : Nat
  willingness : Nat
  linkMessages : List LinkMessage
  position : Vector
  deriving DecidableEq, Repr

/-- The body `MessageHeader::Tc`. -/
structure Tc where
  neighborAddresses : List Nat
  ansn : Nat
  position : Vector
  helloInterval : Nat
  deriving DecidableEq, Repr

/-- The pair `MessageHeader::Hna::Association`. -/
structure Association where
  address : Nat
  mask : Nat
  deriving DecidableEq, Repr

/-- The body `MessageHeader::Hna`. -/
structure Hna where
  associations : List Association
  deriving DecidableEq, Repr

/-- The member `m_message` of `MessageHeader`: one body object of each kind. -/
structure MessageBodies where
  mid : Mid
  hello : Hello
  tc : Tc
  hna : Hna
  deriving DecidableEq, Repr

/-- The class `MessageHeader`; `m_messageType` is the integer under `enum MessageType`. -/
structure MessageHeader where
  m_messageType : Nat
  m_vTime : Nat
  m_timeToLive : Nat
  m_originatorAddress : Nat
  m_hopCount : Nat
  m_messageSequenceNumber : Nat
  m_messageSize : Nat
  m_message : MessageBodies
  deriving DecidableEq, Repr

/-- The class `PacketHeader`. -/
structure PacketHeader where
  m_packetLength : Nat
  m_packetSequenceNumber : Nat
  deriving DecidableEq, Repr

/-- Modelled from the spec: the enumerators of `MessageHeader::MessageType` are declared
in `olsr-header.h`, which is not among the sources; they are the four defined kinds
HELLO, TC, MID, HNA, numbered 1 to 4 as in RFC 3626, so that the range assertion
`HELLO_MESSAGE <= type <= HNA_MESSAGE` admits exactly the four of them. -/
abbrev HELLO_MESSAGE : Nat := 1

/-- Modelled from the spec: see `HELLO_MESSAGE`. -/
abbrev TC_MESSAGE : Nat := 2

/-- Modelled from the spec: see `HELLO_MESSAGE`. -/
abbrev MID_MESSAGE : Nat := 3

/-- Modelled from the spec: see `HELLO_MESSAGE`. -/
abbrev HNA_MESSAGE : Nat := 4

/-- The enumerators of `Willingness` (`olsr-repositories.h`). -/
abbrev Willingness.NEVER : Nat := 0
abbrev Willingness.LOW : Nat := 1
abbrev Willingness.DEFAULT : Nat := 3
abbrev Willingness.HIGH : Nat := 6
abbrev Willingness.ALWAYS : Nat := 7

/-! ## Address loops shared by the bodies -/

/-- The loop `for (iter ...) i.WriteHtonU32(iter->Get())`. -/
def writeAddresses : List Nat → List Nat
  | [] => []
  | a :: rest => WriteHtonU32 a ++ writeAddresses rest

/-- The loop `for (n = 0; n < count; ++n) v.push_back(i.ReadNtohU32())`, started with
the vector `v` and the iterator at `buf`. -/
def readAddresses : Nat → List Nat → List Nat → Outcome (List Nat × List Nat)
  | 0, v, buf => .ok (v, buf)
  | n + 1, v, buf => do
    let (a, i) ← ReadNtohU32 buf
    readAddresses n (v ++ [a]) i

/-! ## MID -/

def Mid.GetSerializedSize (m : Mid) : Nat :=
  u32 (m.interfaceAddresses.length * IPV4_ADDRESS_SIZE)

def Mid.Serialize (m : Mid) : List Nat :=
  writeAddresses m.interfaceAddresses

/-- The call `Mid::Deserialize(start, messageSize)`: the new body, the returned size and
the bytes left after the iterator. -/
def Mid.Deserialize (_m : Mid) (buf : List Nat) (messageSize : Nat) :
    Outcome (Mid × Nat × List Nat) := do
  NS_ASSERT (messageSize % IPV4_ADDRESS_SIZE == 0)
  let numAddresses := messageSize / IPV4_ADDRESS_SIZE
  let (v, i) ← readAddresses numAddresses [] buf
  pure (⟨v⟩, Mid.GetSerializedSize ⟨v⟩, i)

/-! ## HNA -/

def Hna.GetSerializedSize (m : Hna) : Nat :=
  u32 (2 * m.associations.length * IPV4_ADDRESS_SIZE)

/-- The loop of `Hna::Serialize`. -/
def writeAssociations : List Association → List Nat
  | [] => []
  | a :: rest => WriteHtonU32 a.address ++ WriteHtonU32 a.mask ++ writeAssociations rest

def Hna.Serialize (m : Hna) : List Nat :=
  writeAssociations m.associations

/-- The loop of `Hna::Deserialize`, started with the vector `v`. -/
def readAssociations : Nat → List Association → List Nat →
    Outcome (List Association × List Nat)
  | 0, v, buf => .ok (v, buf)
  | n + 1, v, buf => do
    let (address, i) ← ReadNtohU32 buf
    let (mask, i) ← ReadNtohU32 i
    readAssociations n (v ++ [⟨address, mask⟩]) i

/-- The call `Hna::Deserialize(start, messageSize)`: the new body, the returned size and
the bytes left after the iterator. -/
def Hna.Deserialize (_m : Hna) (buf : List Nat) (messageSize : Nat) :
    Outcome (Hna × Nat × List Nat) := do
  NS_ASSERT (messageSize % (IPV4_ADDRESS_SIZE * 2) == 0)
  let numAddresses := messageSize / IPV4_ADDRESS_SIZE / 2
  let (v, i) ← readAssociations numAddresses [] buf
  pure (⟨v⟩, messageSize, i)

/-! ## TC -/

def Tc.GetSerializedSize (m : Tc) : Nat :=
  u32 (4 + m.neighborAddresses.length * IPV4_ADDRESS_SIZE + 4 * 8)

def Tc.Serialize (m : Tc) : List Nat :=
  WriteHtonU16 m.ansn ++ WriteHtonU16 0 ++ writeAddresses m.neighborAddresses
    ++ WriteU64 (DoubleToUint64 m.position.x) ++ WriteU64 (DoubleToUint64 m.position.y)
    ++ WriteU64 (DoubleToUint64 m.position.z) ++ WriteU64 (DoubleToUint64 m.helloInterval)

/-- The call `Tc::Deserialize(start, messageSize)`: the new body, the returned size and
the bytes left after the iterator.  `GetSerializedSize()` is taken on the body whose
address vector was just cleared; on the size test failing the call returns 0 with the
body as it stands then. -/
def Tc.Deserialize (m : Tc) (buf : List Nat) (messageSize : Nat) :
    Outcome (Tc × Nat × List Nat) := do
  let m : Tc := { m with neighborAddresses := [] }
  NS_ASSERT (decide (messageSize ≥ 4))
  let (ansn, i) ← ReadNtohU16 buf
  let m : Tc := { m with ansn := ansn }
  let (_, i) ← ReadNtohU16 i
  let size := sub32 messageSize m.GetSerializedSize
  if size % 4 ≠ 0 then
    pure (m, 0, i)
  else do
    let numberOfAddresses := size / 4
    let (v, i) ← readAddresses numberOfAddresses [] i
    let (px, i) ← ReadU64 i
    let (py, i) ← ReadU64 i
    let (pz, i) ← ReadU64 i
    let (hi, i) ← ReadU64 i
    pure ({ neighborAddresses := v, ansn := ansn,
            position := ⟨Uint64ToDouble px, Uint64ToDouble py, Uint64ToDouble pz⟩,
            helloInterval := Uint64ToDouble hi }, messageSize, i)

/-! ## HELLO -/

/-- The loop of `Hello::GetSerializedSize`, on the `uint32_t` accumulator `size`. -/
def Hello.sizeLoop : List LinkMessage → Nat → Nat
  | [], size => size
  | lm :: rest, size =>
    let size := u32 (size + 4)
    let size := u32 (size + IPV4_ADDRESS_SIZE * lm.neighborInterfaceAddresses.length)
    Hello.sizeLoop rest size

def Hello.GetSerializedSize (m : Hello) : Nat :=
  Hello.sizeLoop m.linkMessages 4

/-- The link-message loop of `Hello::Serialize`. -/
def writeLinkMessages : List LinkMessage → List Nat
  | [] => []
  | lm :: rest =>
    WriteU8 lm.linkCode ++ WriteU8 0
      ++ WriteHtonU16 (4 + lm.neighborInterfaceAddresses.length * IPV4_ADDRESS_SIZE)
      ++ writeAddresses lm.neighborInterfaceAddresses ++ writeLinkMessages rest

def Hello.Serialize (m : Hello) : List Nat :=
  WriteU16 0 ++ WriteU8 m.hTime ++ WriteU8 m.willingness ++ writeLinkMessages m.linkMessages
    ++ WriteHtonU64 (DoubleToUint64 m.position.x) ++ WriteHtonU64 (DoubleToUint64 m.position.y)
    ++ WriteHtonU64 (DoubleToUint64 m.position.z)

/-- The loop `while (remainingSize > 0)` of `Hello::Deserialize`, started with the
vector `linkMessages` and the iterator at `buf`.  Every iteration reads at least four
bytes, so the loop runs at most once per byte of the buffer: `fuel` counts the
iterations still allowed and is started at the length of the buffer, where a further
iteration could only run past the end of the buffer (`readLinkMessages_fuel`: more fuel
gives the same outcome).  The address count `(lmSize - 4) / IPV4_ADDRESS_SIZE` is an `int`
division, which truncates towards zero; `remainingSize -= lmSize` wraps below zero. -/
def Hello.readLinkMessages : Nat → Nat → List LinkMessage → List Nat →
    Outcome (List LinkMessage × List Nat)
  | 0, remainingSize, linkMessages, buf =>
    if remainingSize > 0 then .fail .bufferEnd else .ok (linkMessages, buf)
  | fuel + 1, remainingSize, linkMessages, buf =>
    if remainingSize > 0 then do
      let (linkCode, i) ← ReadU8 buf
      let (_, i) ← ReadU8 i
      let (lmSize, i) ← ReadNtohU16 i
      let count := Int.toNat (Int.tdiv ((lmSize : Int) - 4) (IPV4_ADDRESS_SIZE : Int))
      let (v, i) ← readAddresses count [] i
      let remainingSize := sub32 remainingSize lmSize
      Hello.readLinkMessages fuel remainingSize (linkMessages ++ [⟨linkCode, v⟩]) i
    else .ok (linkMessages, buf)

/-- The call `Hello::Deserialize(start, messageSize)`: the new body, the returned size
and the bytes left after the iterator. -/
def Hello.Deserialize (_m : Hello) (buf : List Nat) (messageSize : Nat) :
    Outcome (Hello × Nat × List Nat) := do
  NS_ASSERT (decide (messageSize ≥ 4))
  let (_, i) ← ReadNtohU16 buf
  let (hTime, i) ← ReadU8 i
  let (willingness, i) ← ReadU8 i
  let remainingSize := messageSize - 4
  let (linkMessages, i) ← Hello.readLinkMessages i.length remainingSize [] i
  let (px, i) ← ReadNtohU64 i
  let (py, i) ← ReadNtohU64 i
  let (pz, i) ← ReadNtohU64 i
  pure ({ hTime := hTime, willingness := willingness, linkMessages := linkMessages,
          position := ⟨Uint64ToDouble px, Uint64ToDouble py, Uint64ToDouble pz⟩ },
        messageSize, i)

/-! ## Packet header -/

def PacketHeader.GetSerializedSize (_p : PacketHeader) : Nat := OLSR_PKT_HEADER_SIZE

def PacketHeader.Serialize (p : PacketHeader) : List Nat :=
  WriteHtonU16 p.m_packetLength ++ WriteHtonU16 p.m_packetSequenceNumber

/-- The call `PacketHeader::Deserialize(start)`: the new header, the returned size and
the bytes left after the iterator. -/
def PacketHeader.Deserialize (_p : PacketHeader) (buf : List Nat) :
    Outcome (PacketHeader × Nat × List Nat) := do
  let (len, i) ← ReadNtohU16 buf
  let (seq, i) ← ReadNtohU16 i
  let p : PacketHeader := ⟨len, seq⟩
  pure (p, p.GetSerializedSize, i)

/-! ## Message header -/

def MessageHeader.GetSerializedSize (m : MessageHeader) : Outcome Nat :=
  let size := OLSR_MSG_HEADER_SIZE
  if m.m_messageType = MID_MESSAGE then
    .ok (u32 (size + m.m_message.mid.GetSerializedSize))
  else if m.m_messageType = HELLO_MESSAGE then
    .ok (u32 (size + m.m_message.hello.GetSerializedSize))
  else if m.m_messageType = TC_MESSAGE then
    .ok (u32 (size + m.m_message.tc.GetSerializedSize))
  else if m.m_messageType = HNA_MESSAGE then
    .ok (u32 (size + m.m_message.hna.GetSerializedSize))
  else .fail .assertion

/-- The call `MessageHeader::Serialize(start)`: all the bytes written from `start` on,
the header fields first and then the body of the kind `m_messageType`. -/
def MessageHeader.Serialize (m : MessageHeader) : Outcome (List Nat) := do
  let size ← m.GetSerializedSize
  let head := WriteU8 m.m_messageType ++ WriteU8 m.m_vTime ++ WriteHtonU16 size
    ++ WriteHtonU32 m.m_originatorAddress ++ WriteU8 m.m_timeToLive ++ WriteU8 m.m_hopCount
    ++ WriteHtonU16 m.m_messageSequenceNumber
  if m.m_messageType = MID_MESSAGE then
    pure (head ++ m.m_message.mid.Serialize)
  else if m.m_messageType = HELLO_MESSAGE then
    pure (head ++ m.m_message.hello.Serialize)
  else if m.m_messageType = TC_MESSAGE then
    pure (head ++ m.m_message.tc.Serialize)
  else if m.m_messageType = HNA_MESSAGE then
    pure (head ++ m.m_message.hna.Serialize)
  else .fail .assertion

/-- The call `MessageHeader::Deserialize(start)`: the new message object, the returned
size and the bytes left after the iterator of the body decoder.  The body length handed
down is `m_messageSize - OLSR_MSG_HEADER_SIZE` converted to `uint32_t`. -/
def MessageHeader.Deserialize (m : MessageHeader) (buf : List Nat) :
    Outcome (MessageHeader × Nat × List Nat) := do
  let (messageType, i) ← ReadU8 buf
  NS_ASSERT (decide (messageType ≥ HELLO_MESSAGE) && decide (messageType ≤ HNA_MESSAGE))
  let (vTime, i) ← ReadU8 i
  let (messageSize, i) ← ReadNtohU16 i
  let (originatorAddress, i) ← ReadNtohU32 i
  let (timeToLive, i) ← ReadU8 i
  let (hopCount, i) ← ReadU8 i
  let (messageSequenceNumber, i) ← ReadNtohU16 i
  let m : MessageHeader :=
    { m with m_messageType := messageType, m_vTime := vTime, m_messageSize := messageSize,
             m_originatorAddress := originatorAddress, m_timeToLive := timeToLive,
             m_hopCount := hopCount, m_messageSequenceNumber := messageSequenceNumber }
  let size := OLSR_MSG_HEADER_SIZE
  let bodySize := sub32 messageSize OLSR_MSG_HEADER_SIZE
  if messageType = MID_MESSAGE then do
    let (mid, n, i) ← m.m_message.mid.Deserialize i bodySize
    pure ({ m with m_message := { m.m_message with mid := mid } }, u32 (size + n), i)
  else if messageType = HELLO_MESSAGE then do
    let (hello, n, i) ← m.m_message.hello.Deserialize i bodySize
    pure ({ m with m_message := { m.m_message with hello := hello } },
          u32 (size + n), i)
  else if messageType = TC_MESSAGE then do
    let (tc, n, i) ← m.m_message.tc.Deserialize i bodySize
    pure ({ m with m_message := { m.m_message with tc := tc } }, u32 (size + n), i)
  else if messageType = HNA_MESSAGE then do
    let (hna, n, i) ← m.m_message.hna.Deserialize i bodySize
    pure ({ m with m_message := { m.m_message with hna := hna } }, u32 (size + n), i)
  else .fail .assertion

/-! ## Ranges of the C++ field types -/

/-- Every address of the list is a 32-bit value. -/
def AddressesInRange (l : List Nat) : Prop := ∀ a ∈ l, a < 4294967296

/-- The fields of a link message hold values of their C++ types. -/
def LinkMessage.InRange (lm : LinkMessage) : Prop :=
  lm.linkCode < 256 ∧ AddressesInRange lm.neighborInterfaceAddresses

/-- The fields of a position hold 64-bit patterns. -/
def Vector.InRange (v : Vector) : Prop :=
  v.x < 18446744073709551616 ∧ v.y < 18446744073709551616 ∧ v.z < 18446744073709551616

/-- The fields of a HELLO body hold values of their C++ types. -/
def Hello.InRange (m : Hello) : Prop :=
  m.hTime < 256 ∧ m.willingness < 256 ∧ (∀ lm ∈ m.linkMessages, lm.InRange)
    ∧ m.position.InRange

/-- The fields of a TC body hold values of their C++ types. -/
def Tc.InRange (m : Tc) : Prop :=
  m.ansn < 65536 ∧ AddressesInRange m.neighborAddresses ∧ m.position.InRange
    ∧ m.helloInterval < 18446744073709551616

/-- The header fields of a message hold values of their C++ types. -/
def MessageHeader.InRange (m : MessageHeader) : Prop :=
  m.m_vTime < 256 ∧ m.m_originatorAddress < 4294967296 ∧ m.m_timeToLive < 256
    ∧ m.m_hopCount < 256 ∧ m.m_messageSequenceNumber < 65536

instance (l : List Nat) : Decidable (AddressesInRange l) := by
  unfold AddressesInRange; infer_instance

instance (lm : LinkMessage) : Decidable lm.InRange := by
  unfold LinkMessage.InRange; infer_instance

instance (v : Vector) : Decidable v.InRange := by
  unfold Vector.InRange; infer_instance

instance (m : Hello) : Decidable m.InRange := by
  unfold Hello.InRange; infer_instance

instance (m : Tc) : Decidable m.InRange := by
  unfold Tc.InRange; infer_instance

instance (m : MessageHeader) : Decidable m.InRange := by
  unfold MessageHeader.InRange; infer_instance

/-- Bytes between the first link message and the position of a HELLO body: the sum of
`4 + 4 * n` over the link messages, without wrap-around. -/
def linkMessagesBytes : List LinkMessage → Nat
  | [] => 0
  | lm :: rest => 4 + 4 * lm.neighborInterfaceAddresses.length + linkMessagesBytes rest

/-- The twelve header bytes `MessageHeader::Serialize` writes before the body, for the
size value `size` passed to `WriteHtonU16`. -/
def MessageHeader.headerBytes (m : MessageHeader) (size : Nat) : List Nat :=
  WriteU8 m.m_messageType ++ WriteU8 m.m_vTime ++ WriteHtonU16 size
    ++ WriteHtonU32 m.m_originatorAddress ++ WriteU8 m.m_timeToLive ++ WriteU8 m.m_hopCount
    ++ WriteHtonU16 m.m_messageSequenceNumber

/-! ## Time encoding

`seconds` ranges over the finite `double`s, read as rationals: the quotients by powers
of two, the subtractions and the product by 16 of `SecondsToEmf` and `EmfToSeconds` are
exact on them. -/

/-- Scaling factor `OLSR_C` of RFC 3626. -/
def OLSR_C : ℚ := 1 / 16

/-- The `int` expression `1 << b`, defined while the result is an `int`. -/
def shiftOne (b : Nat) : Outcome Int :=
  if b < 31 then .ok (2 ^ b) else .fail .shiftRange

/-- The loop `for (b = 1; (seconds / OLSR_C) >= (1 << b); ++b)` from the value `b` on:
the value of `b` at the exit.  The shift leaves the range of `int` at `b = 31`, so no
more than `31` tests are made from `b = 1`; `fuel` counts the tests still allowed. -/
def SecondsToEmf.search (seconds : ℚ) : Nat → Nat → Outcome Nat
  | 0, _ => .fail .shiftRange
  | fuel + 1, b => do
    let p ← shiftOne b
    if seconds / OLSR_C ≥ (p : ℚ) then SecondsToEmf.search seconds fuel (b + 1) else pure b

def SecondsToEmf (seconds : ℚ) : Outcome Nat := do
  let seconds := if seconds < OLSR_C then OLSR_C else seconds
  let b ← SecondsToEmf.search seconds 31 1
  let p ← shiftOne b
  NS_ASSERT (decide (seconds / OLSR_C < (p : ℚ)))
  let b := b - 1
  let p ← shiftOne b
  NS_ASSERT (decide (seconds / OLSR_C ≥ (p : ℚ)))
  let tmp : ℚ := 16 * (seconds / (OLSR_C * (p : ℚ)) - 1)
  let a : Int := ⌈tmp - 1 / 2⌉
  let (a, b) := if a = 16 then ((0 : Int), b + 1) else (a, b)
  NS_ASSERT (decide (a ≥ 0) && decide (a < 16))
  NS_ASSERT (decide (b < 16))
  pure ((a.toNat <<< 4 ||| b) % 256)

def EmfToSeconds (olsrFormat : Nat) : ℚ :=
  let a := olsrFormat >>> 4
  let b := olsrFormat &&& 15
  OLSR_C * (1 + (a : ℚ) / 16) * (2 ^ b : ℚ)

/-! ## Sample values -/

/-- The bit patterns of the `double`s 1.0, 2.0, 3.0, 10.0 and 20.0. -/
def double_1 : Nat := 0x3FF0000000000000
def double_2 : Nat := 0x4000000000000000
def double_3 : Nat := 0x4008000000000000
def double_10 : Nat := 0x4024000000000000
def double_20 : Nat := 0x4034000000000000

/-- An IPv4 address `a.b.c.d` as a 32-bit value. -/
def ipv4 (a b c d : Nat) : Nat := a * 16777216 + b * 65536 + c * 256 + d

/-- A message object as left by the constructor `MessageHeader()`, with empty bodies. -/
def freshMessage : MessageHeader :=
  { m_messageType := 0, m_vTime := 0, m_timeToLive := 0, m_originatorAddress := 0,
    m_hopCount := 0, m_messageSequenceNumber := 0, m_messageSize := 0,
    m_message := { mid := ⟨[]⟩, hello := ⟨0, 0, [], ⟨0, 0, 0⟩⟩,
                   tc := ⟨[], 0, ⟨0, 0, 0⟩, 0⟩, hna := ⟨[]⟩ } }

/-- The HELLO of the end-to-end scenario: willingness DEFAULT, hTime `0x05`, which is
`SecondsToEmf(2.0)`, two link messages with two neighbor addresses each, sent by
10.0.0.1 from the position (10.0, 20.0, 0.0). -/
def scenarioHello : MessageHeader :=
  { freshMessage with
    m_messageType := HELLO_MESSAGE, m_vTime := 0x66, m_timeToLive := 1,
    m_originatorAddress := ipv4 10 0 0 1, m_hopCount := 0, m_messageSequenceNumber := 7,
    m_message := { freshMessage.m_message with
      hello := { hTime := 5, willingness := Willingness.DEFAULT,
                 linkMessages := [⟨6, [ipv4 10 0 0 2, ipv4 10 0 0 3]⟩,
                                  ⟨10, [ipv4 10 0 0 4, ipv4 10 0 0 5]⟩],
                 position := ⟨double_10, double_20, 0⟩ } } }

/-- The TC of the end-to-end scenario: ansn 5, three neighbor addresses, position
(1.0, 2.0, 3.0), helloInterval 2.0. -/
def scenarioTc : MessageHeader :=
  { freshMessage with
    m_messageType := TC_MESSAGE, m_vTime := 0x86, m_timeToLive := 255,
    m_originatorAddress := ipv4 10 0 0 1, m_hopCount := 0, m_messageSequenceNumber := 8,
    m_message := { freshMessage.m_message with
      tc := { neighborAddresses := [ipv4 10 0 0 2, ipv4 10 0 0 3, ipv4 10 0 0 4], ansn := 5,
              position := ⟨double_1, double_2, double_3⟩, helloInterval := double_2 } } }

/-- The bytes of a message, or no byte when `Serialize` aborts. -/
def MessageHeader.bytes (m : MessageHeader) : List Nat :=
  match m.Serialize with
  | .ok b => b
  | .fail _ => []

/-- The packet of the end-to-end scenario: the packet header, the HELLO, the TC. -/
def scenarioPacket : List Nat :=
  PacketHeader.Serialize ⟨128, 1⟩ ++ scenarioHello.bytes ++ scenarioTc.bytes

/-- A HELLO body without link messages, at the position (1.0, 2.0, 3.0). -/
def helloNoLinks : Hello :=
  { hTime := 5, willingness := Willingness.DEFAULT, linkMessages := [],
    position := ⟨double_1, double_2, double_3⟩ }

/-- The 28 bytes `reserved, hTime, willingness, posX, posY, posZ` of `helloNoLinks`. -/
def helloNoLinksBytes : List Nat :=
  [0, 0, 5, 3] ++ WriteHtonU64 double_1 ++ WriteHtonU64 double_2 ++ WriteHtonU64 double_3

/-- A TC body without neighbor addresses, at the position (1.0, 2.0, 3.0). -/
def tcNoNeighbors : Tc :=
  { neighborAddresses := [], ansn := 5, position := ⟨double_1, double_2, double_3⟩,
    helloInterval := double_2 }

/-- A TC message whose size field is 49: the body length 37 leaves a neighbor-address
region of one byte.  The ansn on the wire is 77. -/
def malformedTcBytes : List Nat :=
  [2, 0x86, 0, 49, 10, 0, 0, 9, 3, 1, 0, 9] ++ [0, 77, 0, 0] ++ List.replicate 33 0

/-- An HNA body of two associations, 10.1.0.0/16 and 10.2.3.0/24. -/
def hnaTwoBytes : List Nat :=
  [10, 1, 0, 0, 255, 255, 0, 0, 10, 2, 3, 0, 255, 255, 255, 0]

/-! ## Ranges of the MID and HNA bodies -/

/-- Every interface address of a MID body is a 32-bit value. -/
def Mid.InRange (m : Mid) : Prop := AddressesInRange m.interfaceAddresses

/-- Every address and mask of an HNA body is a 32-bit value. -/
def Hna.InRange (m : Hna) : Prop :=
  ∀ a ∈ m.associations, a.address < 4294967296 ∧ a.mask < 4294967296

instance (m : Mid) : Decidable m.InRange := by
  unfold Mid.InRange; infer_instance

instance (m : Hna) : Decidable m.InRange := by
  unfold Hna.InRange; infer_instance

/-- A MID message from 10.0.0.1 with two interface addresses. -/
def sampleMid : MessageHeader :=
  { m_messageType := MID_MESSAGE, m_vTime := 0x86, m_timeToLive := 255,
    m_originatorAddress := 167772161, m_hopCount := 2, m_messageSequenceNumber := 9,
    m_messageSize := 0,
    m_message := { mid := ⟨[167772417, 167772673]⟩, hello := ⟨0, 0, [], ⟨0, 0, 0⟩⟩,
                   tc := ⟨[], 0, ⟨0, 0, 0⟩, 0⟩, hna := ⟨[]⟩ } }

/-- An HNA message from 10.0.0.1 with two (address, mask) associations. -/
def sampleHna : MessageHeader :=
  { m_messageType := HNA_MESSAGE, m_vTime := 0x86, m_timeToLive := 255,
    m_originatorAddress := 167772161, m_hopCount := 1, m_messageSequenceNumber := 10,
    m_messageSize := 0,
    m_message := { mid := ⟨[]⟩, hello := ⟨0, 0, [], ⟨0, 0, 0⟩⟩, tc := ⟨[], 0, ⟨0, 0, 0⟩, 0⟩,
                   hna := ⟨[⟨3232235520, 4294967040⟩, ⟨2886729728, 4294901760⟩]⟩ } }

/-- A message object that already holds a body of every kind. -/
def priorMessage : MessageHeader :=
  { m_messageType := TC_MESSAGE, m_vTime := 1, m_timeToLive := 2, m_originatorAddress := 3,
    m_hopCount := 4, m_messageSequenceNumber := 5, m_messageSize := 52,
    m_message := { mid := ⟨[9]⟩, hello := ⟨1, 7, [⟨2, [8]⟩], ⟨1, 2, 3⟩⟩,
                   tc := ⟨[11, 12], 99, ⟨4, 5, 6⟩, 7⟩, hna := ⟨[⟨13, 14⟩]⟩ } }

/-- The mantissa `(int)std::ceil(tmp - 0.5)` that `SecondsToEmf` computes, before the
carry, from the seconds and the exponent `b` found by the search. -/
def SecondsToEmf.mantissa (seconds : ℚ) (b : Nat) : Int :=
  ⌈16 * (seconds / (OLSR_C * (((2 : Int) ^ b : Int) : ℚ)) - 1) - 1 / 2⌉

/-- The part of `SecondsToEmf` before its two range assertions: the mantissa `a` and the
exponent `b` after the carry `if (a == 16) { b += 1; a = 0; }`. -/
def SecondsToEmf.nibbles (seconds : ℚ) : Outcome (Int × Nat) := do
  let seconds := if seconds < OLSR_C then OLSR_C else seconds
  let b ← SecondsToEmf.search seconds 31 1
  let p ← shiftOne b
  NS_ASSERT (decide (seconds / OLSR_C < (p : ℚ)))
  let b := b - 1
  let p ← shiftOne b
  NS_ASSERT (decide (seconds / OLSR_C ≥ (p : ℚ)))
  let tmp : ℚ := 16 * (seconds / (OLSR_C * (p : ℚ)) - 1)
  let a : Int := ⌈tmp - 1 / 2⌉
  pure (if a = 16 then ((0 : Int), b + 1) else (a, b))

/-! ## Repository tuples (`olsr-repositories.h`)

Addresses and masks are 32-bit values, a `Time` is its signed tick count. -/

/-- `IfaceAssocTuple`. -/
structure IfaceAssocTuple where
  ifaceAddr : Nat
  mainAddr : Nat
  time : Int
  deriving DecidableEq, Repr

/-- `operator==(const IfaceAssocTuple&, const IfaceAssocTuple&)`. -/
def IfaceAssocTuple.operatorEq (a b : IfaceAssocTuple) : Bool :=
  a.ifaceAddr == b.ifaceAddr && a.mainAddr == b.mainAddr

/-- `LinkTuple`. -/
structure LinkTuple where
  localIfaceAddr : Nat
  neighborIfaceAddr : Nat
  symTime : Int
  asymTime : Int
  time : Int
  deriving DecidableEq, Repr

/-- `operator==(const LinkTuple&, const LinkTuple&)`. -/
def LinkTuple.operatorEq (a b : LinkTuple) : Bool :=
  a.localIfaceAddr == b.localIfaceAddr && a.neighborIfaceAddr == b.neighborIfaceAddr

/-- `NeighborTuple::Status`. -/
inductive NeighborTuple.Status where
  | STATUS_NOT_SYM
  | STATUS_SYM
  deriving DecidableEq, Repr

/-- `NeighborTuple`; `willingness` is the `uint8_t` under `enum Willingness`. -/
structure NeighborTuple where
  neighborMainAddr : Nat
  status : NeighborTuple.Status
  willingness : Nat
  helloInterval : Int
  deriving DecidableEq, Repr

/-- `operator==(const NeighborTuple&, const NeighborTuple&)`. -/
def NeighborTuple.operatorEq (a b : NeighborTuple) : Bool :=
  a.neighborMainAddr == b.neighborMainAddr && a.status == b.status
    && a.willingness == b.willingness

/-- `TwoHopNeighborTuple`. -/
structure TwoHopNeighborTuple where
  neighborMainAddr : Nat
  twoHopNeighborAddr : Nat
  expirationTime : Int
  helloInterval : Int
  deriving DecidableEq, Repr

/-- `operator==(const TwoHopNeighborTuple&, const TwoHopNeighborTuple&)`. -/
def TwoHopNeighborTuple.operatorEq (a b : TwoHopNeighborTuple) : Bool :=
  a.neighborMainAddr == b.neighborMainAddr && a.twoHopNeighborAddr == b.twoHopNeighborAddr

/-- `MprSelectorTuple`. -/
structure MprSelectorTuple where
  mainAddr : Nat
  expirationTime : Int
  deriving DecidableEq, Repr

/-- `operator==(const MprSelectorTuple&, const MprSelectorTuple&)`. -/
def MprSelectorTuple.operatorEq (a b : MprSelectorTuple) : Bool :=
  a.mainAddr == b.mainAddr

/-- `DuplicateTuple`. -/
structure DuplicateTuple where
  address : Nat
  sequenceNumber : Nat
  retransmitted : Bool
  ifaceList : List Nat
  expirationTime : Int
  deriving DecidableEq, Repr

/-- `operator==(const DuplicateTuple&, const DuplicateTuple&)`. -/
def DuplicateTuple.operatorEq (a b : DuplicateTuple) : Bool :=
  a.address == b.address && a.sequenceNumber == b.sequenceNumber

/-- `TopologyTuple`. -/
structure TopologyTuple where
  destAddr : Nat
  lastAddr : Nat
  sequenceNumber : Nat
  expirationTime : Int
  position : Vector
  helloInterval : Int
  deriving DecidableEq, Repr

/-- `operator==(const TopologyTuple&, const TopologyTuple&)`. -/
def TopologyTuple.operatorEq (a b : TopologyTuple) : Bool :=
  a.destAddr == b.destAddr && a.lastAddr == b.lastAddr
    && a.sequenceNumber == b.sequenceNumber

/-- `AssociationTuple`. -/
structure AssociationTuple where
  gatewayAddr : Nat
  networkAddr : Nat
  netmask : Nat
  expirationTime : Int
  deriving DecidableEq, Repr

/-- `operator==(const AssociationTuple&, const AssociationTuple&)`. -/
def AssociationTuple.operatorEq (a b : AssociationTuple) : Bool :=
  a.gatewayAddr == b.gatewayAddr && a.networkAddr == b.networkAddr
    && a.netmask == b.netmask

/-- Two neighbor tuples for 10.0.0.2 that differ in their status only. -/
def neighborSym : NeighborTuple :=
  ⟨167772162, NeighborTuple.Status.STATUS_SYM, Willingness.DEFAULT, 2000⟩

def neighborNotSym : NeighborTuple :=
  ⟨167772162, NeighborTuple.Status.STATUS_NOT_SYM, Willingness.DEFAULT, 2000⟩

/-- A neighbor tuple for 10.0.0.2 that differs from `neighborSym` in its willingness
only. -/
def neighborHigh : NeighborTuple :=
  ⟨167772162, NeighborTuple.Status.STATUS_SYM, Willingness.HIGH, 2000⟩

/-- The bytes of a MID message: type 3, vTime `0x86`, size 20, originator 10.0.0.1, time
to live 255, hop count 2, sequence number 9, then the addresses 10.0.1.1 and 10.0.2.1. -/
def sampleMidBytes : List Nat :=
  [3, 134, 0, 20, 10, 0, 0, 1, 255, 2, 0, 9, 10, 0, 1, 1, 10, 0, 2, 1]

/-- The message object after decoding `sampleMidBytes` into `priorMessage`. -/
def sampleMidDecoded : MessageHeader :=
  { m_messageType := MID_MESSAGE, m_vTime := 134, m_timeToLive := 255,
    m_originatorAddress := 167772161, m_hopCount := 2, m_messageSequenceNumber := 9,
    m_messageSize := 20,
    m_message := { mid := ⟨[167772417, 167772673]⟩, hello := ⟨1, 7, [⟨2, [8]⟩], ⟨1, 2, 3⟩⟩,
                   tc := ⟨[11, 12], 99, ⟨4, 5, 6⟩, 7⟩, hna := ⟨[⟨13, 14⟩]⟩ } }

/-- A packet header with length 128 and sequence number 513. -/
def samplePacketHeader : PacketHeader := ⟨128, 513⟩

/-! ## Repository operations

`olsr-repositories.h` declares each repository as a `std::vector` of its tuples and no
operation on it. -/

/-- Modelled from the spec: `upsert(tuple)` of a repository, which no file of the
repository defines: "insert if key absent, else overwrite payload fields - identity
fields are immutable once inserted".  The entry that has the key of `t` is replaced by
`t`, in place; without such an entry `t` is added at the end. -/
def upsert {α κ : Type} [DecidableEq κ] (key : α → κ) (t : α) : List α → List α
  | [] => [t]
  | e :: l => if key e = key t then t :: l else e :: upsert key t l

/-- Modelled from the spec: the key of a `LinkTuple`, `(localAddr, neighborAddr)`. -/
def LinkTuple.key (t : LinkTuple) : Nat × Nat := (t.localIfaceAddr, t.neighborIfaceAddr)

/-- Modelled from the spec: the key of a `NeighborTuple`, `neighborMainAddr`. -/
def NeighborTuple.key (t : NeighborTuple) : Nat := t.neighborMainAddr

/-- Modelled from the spec: the key of a `TwoHopNeighborTuple`,
`(neighborMainAddr, twoHopAddr)`. -/
def TwoHopNeighborTuple.key (t : TwoHopNeighborTuple) : Nat × Nat :=
  (t.neighborMainAddr, t.twoHopNeighborAddr)

/-- Modelled from the spec: the key of a `MprSelectorTuple`, `selectorMainAddr`. -/
def MprSelectorTuple.key (t : MprSelectorTuple) : Nat := t.mainAddr

/-- Modelled from the spec: the key of a `DuplicateTuple`, `(originatorAddr, seqNum)`. -/
def DuplicateTuple.key (t : DuplicateTuple) : Nat × Nat := (t.address, t.sequenceNumber)

/-- Modelled from the spec: the key of a `TopologyTuple`, `(destAddr, lastAddr, seqNum)`. -/
def TopologyTuple.key (t : TopologyTuple) : Nat × Nat × Nat :=
  (t.destAddr, t.lastAddr, t.sequenceNumber)

/-- Modelled from the spec: the key of an `IfaceAssocTuple`, `(ifaceAddr, mainAddr)`. -/
def IfaceAssocTuple.key (t : IfaceAssocTuple) : Nat × Nat := (t.ifaceAddr, t.mainAddr)

/-- Modelled from the spec: the key of an `AssociationTuple`,
`(gatewayAddr, networkAddr, netmask)`. -/
def AssociationTuple.key (t : AssociationTuple) : Nat × Nat × Nat :=
  (t.gatewayAddr, t.networkAddr, t.netmask)

/-- What the spec asks of `upsert` on a repository whose entries have distinct keys:
after `upsert(t)` twice the entries with the key of `t` are `t` alone, and `t` occurs
once; a further `upsert` of a tuple `u` with the same key leaves `u` alone under that
key, at the place of `t`, with the keys of the repository and all its other entries as
they were; and the keys stay distinct. -/
def UpsertKeepsKeysUnique {α κ : Type} [DecidableEq α] [DecidableEq κ] (key : α → κ) :
    Prop :=
  ∀ (l : List α) (t : α), (l.map key).Nodup →
    (upsert key t (upsert key t l)).filter (fun e => decide (key e = key t)) = [t]
      ∧ (upsert key t (upsert key t l)).count t = 1
      ∧ upsert key t (upsert key t l) = upsert key t l
      ∧ ((upsert key t l).map key).Nodup
      ∧ ∀ u : α, key u = key t →
          (upsert key u (upsert key t l)).filter (fun e => decide (key e = key t)) = [u]
            ∧ (upsert key u (upsert key t l)).map key = (upsert key t l).map key
            ∧ (upsert key u (upsert key t l)).filter (fun e => decide (key e ≠ key t))
                = l.filter (fun e => decide (key e ≠ key t))

/-- A link set with two links of 10.0.0.1. -/
def sampleLinkSet : List LinkTuple :=
  [⟨167772161, 167772162, 10, 20, 30⟩, ⟨167772161, 167772163, 11, 21, 31⟩]

/-- The link 10.0.0.1 - 10.0.0.3 observed again, with later times. -/
def refreshedLink : LinkTuple := ⟨167772161, 167772163, 50, 60, 70⟩

/-- A link message with 16383 neighbor interface addresses, all 0.0.0.0. -/
def wideLinkMessage : LinkMessage := ⟨1, List.replicate 16383 0⟩

/-- A HELLO whose second link message has two neighbor interface addresses. -/
def threeBlockHello : Hello :=
  ⟨5, 3, [⟨6, [167772162]⟩, ⟨10, [167772163, 167772164]⟩, ⟨2, []⟩], ⟨1, 2, 3⟩⟩

/-- One iteration of the loop `while (remainingSize > 0)` of `Hello::Deserialize`: the
link message read, `remainingSize` after `remainingSize -= lmSize`, and the iterator. -/
def Hello.readLinkMessage (remainingSize : Nat) (buf : List Nat) :
    Outcome (LinkMessage × Nat × List Nat) := do
  let (linkCode, i) ← ReadU8 buf
  let (_, i) ← ReadU8 i
  let (lmSize, i) ← ReadNtohU16 i
  let count := Int.toNat (Int.tdiv ((lmSize : Int) - 4) (IPV4_ADDRESS_SIZE : Int))
  let (v, i) ← readAddresses count [] i
  pure (⟨linkCode, v⟩, sub32 remainingSize lmSize, i)

/-- A HELLO body declared with 10 bytes: one link message whose block size field is 6,
two more bytes, then the position (1.0, 2.0, 3.0). -/
def unalignedHelloBytes : List Nat :=
  [0, 0, 5, 3] ++ [6, 0, 0, 6] ++ [0xAA, 0xBB]
    ++ WriteHtonU64 double_1 ++ WriteHtonU64 double_2 ++ WriteHtonU64 double_3

/-- A HELLO body declared with 8 bytes: three link messages whose block size field is 0,
one whose block size field is 4, then the position (1.0, 2.0, 3.0). -/
def stalledHelloBytes : List Nat :=
  [0, 0, 5, 3] ++ [6, 0, 0, 0] ++ [6, 0, 0, 0] ++ [6, 0, 0, 0] ++ [10, 0, 0, 4]
    ++ WriteHtonU64 double_1 ++ WriteHtonU64 double_2 ++ WriteHtonU64 double_3

/-- A HELLO body declared with 8 bytes: one link message whose block size field is 8, with
its address 10.0.0.2, then the position (1.0, 2.0, 3.0). -/
def overrunHelloBytes : List Nat :=
  [0, 0, 5, 3] ++ [6, 0, 0, 8] ++ [10, 0, 0, 2]
    ++ WriteHtonU64 double_1 ++ WriteHtonU64 double_2 ++ WriteHtonU64 double_3

/-- A HELLO message around `threeBlockHello`, sent by 10.0.0.1. -/
def sampleHelloMessage : MessageHeader :=
  { m_messageType := HELLO_MESSAGE, m_vTime := 0x66, m_timeToLive := 1,
    m_originatorAddress := 167772161, m_hopCount := 0, m_messageSequenceNumber := 11,
    m_messageSize := 40,
    m_message := { mid := ⟨[]⟩, hello := threeBlockHello,
                   tc := ⟨[], 0, ⟨0, 0, 0⟩, 0⟩, hna := ⟨[]⟩ } }

/-- A TC message whose size field is 16, a body of 4 bytes (ansn 5), followed by the
twenty bytes of `sampleMidBytes`. -/
def shortTcBytes : List Nat :=
  [2, 0x86, 0, 16, 10, 0, 0, 1, 255, 0, 0, 8] ++ [0, 5, 0, 0] ++ sampleMidBytes

/-- A TC message whose size field is 9, less than the 12 bytes of the header, followed
by four bytes (ansn 5). -/
def undersizedTcBytes : List Nat :=
  [2, 0x86, 0, 9, 10, 0, 0, 1, 255, 0, 0, 8] ++ [0, 5, 0, 0]

/-- A TC message whose size field is 8, followed by the twenty bytes of
`sampleMidBytes`. -/
def undersizedTcBytes8 : List Nat :=
  [2, 0x86, 0, 8, 10, 0, 0, 1, 255, 0, 0, 8] ++ sampleMidBytes

/-- The `Association` of `olsr-repositories.h`, a network address with its mask; the
`Association` of an HNA message body is another structure, declared with the message
header. -/
structure Repositories.Association where
  networkAddr : Nat
  netmask : Nat
  deriving DecidableEq, Repr

/-- `operator==(const Association&, const Association&)`. -/
def Repositories.Association.operatorEq (a b : Repositories.Association) : Bool :=
  a.networkAddr == b.networkAddr && a.netmask == b.netmask

/-! ## Sequencing lemmas

The proofs are kept from being closed by `rfl` alone, so that `simp` uses these
equations as rewrite rules. -/

@[simp] theorem bind_ok {α β : Type} (a : α) (f : α → Outcome β) :
    (Outcome.ok a >>= f) = f a := by
  show Outcome.bind (Outcome.ok a) f = f a
  unfold Outcome.bind
  exact Eq.trans rfl rfl

@[simp] theorem bind_fail {α β : Type} (e : Fault) (f : α → Outcome β) :
    (Outcome.fail e >>= f) = Outcome.fail e := by
  show Outcome.bind (Outcome.fail e) f = Outcome.fail e
  unfold Outcome.bind
  exact Eq.trans rfl rfl

@[simp] theorem pure_eq_ok {α : Type} (a : α) : (pure a : Outcome α) = Outcome.ok a :=
  Eq.trans rfl rfl

@[simp] theorem NS_ASSERT_true : NS_ASSERT true = Outcome.ok () := by
  unfold NS_ASSERT
  exact if_pos rfl

@[simp] theorem NS_ASSERT_false : NS_ASSERT false = Outcome.fail Fault.assertion := by
  unfold NS_ASSERT
  exact if_neg (by decide)

/-! ## Reading back what was written -/

@[simp] theorem ReadU8_WriteU8 (v : Nat) (r : List Nat) :
    ReadU8 (WriteU8 v ++ r) = Outcome.ok (v % 256, r) := by
  simp [ReadU8, WriteU8]

@[simp] theorem ReadNtohU16_WriteHtonU16 (v : Nat) (r : List Nat) :
    ReadNtohU16 (WriteHtonU16 v ++ r) = Outcome.ok (v % 65536, r) := by
  simp only [ReadNtohU16, WriteHtonU16, List.cons_append, List.nil_append]
  congr 2; omega

@[simp] theorem ReadNtohU16_WriteU16_zero (r : List Nat) :
    ReadNtohU16 (WriteU16 0 ++ r) = Outcome.ok (0, r) := by
  simp [ReadNtohU16, WriteU16]

@[simp] theorem ReadNtohU32_WriteHtonU32 (v : Nat) (r : List Nat) :
    ReadNtohU32 (WriteHtonU32 v ++ r) = Outcome.ok (v % 4294967296, r) := by
  simp only [ReadNtohU32, WriteHtonU32, List.cons_append, List.nil_append]
  congr 2; omega

theorem bytes32_value (v : Nat) :
    v / 16777216 % 256 * 16777216 + v / 65536 % 256 * 65536 + v / 256 % 256 * 256 + v % 256
      = v % 4294967296 := by
  omega

theorem halves64_value (v : Nat) :
    v % 18446744073709551616 = v / 4294967296 % 4294967296 * 4294967296 + v % 4294967296 := by
  omega

theorem bytes64_value (v : Nat) :
    v / 72057594037927936 % 256 * 72057594037927936 + v / 281474976710656 % 256 * 281474976710656
      + v / 1099511627776 % 256 * 1099511627776 + v / 4294967296 % 256 * 4294967296
      + v / 16777216 % 256 * 16777216 + v / 65536 % 256 * 65536 + v / 256 % 256 * 256 + v % 256
      = v % 18446744073709551616 := by
  have h1 : v / 72057594037927936 = v / 4294967296 / 16777216 := by
    rw [Nat.div_div_eq_div_mul]
  have h2 : v / 281474976710656 = v / 4294967296 / 65536 := by
    rw [Nat.div_div_eq_div_mul]
  have h3 : v / 1099511627776 = v / 4294967296 / 256 := by
    rw [Nat.div_div_eq_div_mul]
  have hi := bytes32_value (v / 4294967296)
  have lo := bytes32_value v
  rw [halves64_value, h1, h2, h3, ← hi, ← lo]
  ring

@[simp] theorem ReadNtohU64_WriteHtonU64 (v : Nat) (r : List Nat) :
    ReadNtohU64 (WriteHtonU64 v ++ r) = Outcome.ok (v % 18446744073709551616, r) := by
  simp only [ReadNtohU64, WriteHtonU64, List.cons_append, List.nil_append, Nat.mod_mod]
  rw [bytes64_value]

@[simp] theorem ReadU64_WriteU64 (v : Nat) (r : List Nat) :
    ReadU64 (WriteU64 v ++ r) = Outcome.ok (v % 18446744073709551616, r) := by
  simp only [ReadU64, WriteU64, List.cons_append, List.nil_append, Nat.mod_mod]
  rw [← bytes64_value v]
  congr 2
  ring

theorem readAddresses_writeAddresses (l : List Nat) (hl : AddressesInRange l) :
    ∀ (v r : List Nat),
      readAddresses l.length v (writeAddresses l ++ r) = Outcome.ok (v ++ l, r) := by
  induction l with
  | nil => intro v r; simp [readAddresses, writeAddresses]
  | cons a rest ih =>
    intro v r
    have ha : a < 4294967296 := hl a (List.mem_cons_self a rest)
    have hrest : AddressesInRange rest := fun b hb => hl b (List.mem_cons_of_mem a hb)
    simp only [List.length_cons, readAddresses, writeAddresses, List.append_assoc,
      ReadNtohU32_WriteHtonU32, bind_ok, Nat.mod_eq_of_lt ha]
    rw [ih hrest]
    simp

theorem writeAddresses_length (l : List Nat) : (writeAddresses l).length = 4 * l.length := by
  induction l with
  | nil => rfl
  | cons a rest ih => simp [writeAddresses, WriteHtonU32, ih]; omega

/-! ## `uint32_t` arithmetic without wrap-around -/

theorem u32_of_lt {x : Nat} (h : x < 4294967296) : u32 x = x :=
  Nat.mod_eq_of_lt h

theorem sub32_of_le {a b : Nat} (hb : b ≤ a) (ha : a < 4294967296) : sub32 a b = a - b := by
  unfold sub32; omega

theorem ReadU8_WriteU8_lt {v : Nat} (h : v < 256) (r : List Nat) :
    ReadU8 (WriteU8 v ++ r) = Outcome.ok (v, r) := by
  rw [ReadU8_WriteU8, Nat.mod_eq_of_lt h]

theorem ReadNtohU16_WriteHtonU16_lt {v : Nat} (h : v < 65536) (r : List Nat) :
    ReadNtohU16 (WriteHtonU16 v ++ r) = Outcome.ok (v, r) := by
  rw [ReadNtohU16_WriteHtonU16, Nat.mod_eq_of_lt h]

theorem ReadNtohU32_WriteHtonU32_lt {v : Nat} (h : v < 4294967296) (r : List Nat) :
    ReadNtohU32 (WriteHtonU32 v ++ r) = Outcome.ok (v, r) := by
  rw [ReadNtohU32_WriteHtonU32, Nat.mod_eq_of_lt h]

theorem ReadNtohU64_WriteHtonU64_double {v : Nat} (h : v < 18446744073709551616)
    (r : List Nat) :
    ReadNtohU64 (WriteHtonU64 (DoubleToUint64 v) ++ r) = Outcome.ok (v, r) := by
  rw [ReadNtohU64_WriteHtonU64, DoubleToUint64, Nat.mod_mod, Nat.mod_eq_of_lt h]

theorem ReadU64_WriteU64_double {v : Nat} (h : v < 18446744073709551616) (r : List Nat) :
    ReadU64 (WriteU64 (DoubleToUint64 v) ++ r) = Outcome.ok (v, r) := by
  rw [ReadU64_WriteU64, DoubleToUint64, Nat.mod_mod, Nat.mod_eq_of_lt h]

theorem Uint64ToDouble_of_lt {v : Nat} (h : v < 18446744073709551616) :
    Uint64ToDouble v = v :=
  Nat.mod_eq_of_lt h

/-! ## TC round trip -/

theorem Tc_GetSerializedSize_eq (m : Tc) (h : 36 + 4 * m.neighborAddresses.length < 4294967296) :
    m.GetSerializedSize = 36 + 4 * m.neighborAddresses.length := by
  unfold Tc.GetSerializedSize
  have h4 : IPV4_ADDRESS_SIZE = 4 := rfl
  rw [h4, u32_of_lt (by omega)]
  omega

theorem Tc_Deserialize_Serialize (m prior : Tc) (hb : m.InRange) (r : List Nat)
    (hsz : 36 + 4 * m.neighborAddresses.length < 4294967296) :
    prior.Deserialize (m.Serialize ++ r) (36 + 4 * m.neighborAddresses.length)
      = Outcome.ok (m, 36 + 4 * m.neighborAddresses.length, r) := by
  obtain ⟨ha, hl, ⟨hx, hy, hz⟩, hi⟩ := hb
  have hge : decide (36 + 4 * m.neighborAddresses.length ≥ 4) = true :=
    decide_eq_true (by omega)
  have hempty : Tc.GetSerializedSize
      { neighborAddresses := [], ansn := m.ansn, position := prior.position,
        helloInterval := prior.helloInterval } = 36 := by
    rw [Tc_GetSerializedSize_eq _ (by simp)]; rfl
  have hsize : sub32 (36 + 4 * m.neighborAddresses.length) 36
      = 4 * m.neighborAddresses.length := by
    rw [sub32_of_le (by omega) hsz]; omega
  have hmod : 4 * m.neighborAddresses.length % 4 = 0 := by omega
  have hdiv : 4 * m.neighborAddresses.length / 4 = m.neighborAddresses.length := by omega
  unfold Tc.Deserialize Tc.Serialize
  simp only [hge, NS_ASSERT_true, bind_ok, List.append_assoc, ReadNtohU16_WriteHtonU16_lt ha,
    ReadNtohU16_WriteHtonU16, hempty, hsize, hmod, hdiv, ne_eq, not_true_eq_false, if_false,
    readAddresses_writeAddresses _ hl, ReadU64_WriteU64_double hx, ReadU64_WriteU64_double hy,
    ReadU64_WriteU64_double hz, ReadU64_WriteU64_double hi, pure_eq_ok,
    Uint64ToDouble_of_lt hx, Uint64ToDouble_of_lt hy, Uint64ToDouble_of_lt hz,
    Uint64ToDouble_of_lt hi, List.nil_append]

/-! ## The message header around a body -/

theorem Serialize_tc (m : MessageHeader) (hT : m.m_messageType = TC_MESSAGE) :
    m.Serialize = Outcome.ok
      (m.headerBytes (u32 (OLSR_MSG_HEADER_SIZE + m.m_message.tc.GetSerializedSize))
        ++ m.m_message.tc.Serialize) := by
  unfold MessageHeader.Serialize MessageHeader.GetSerializedSize
  rw [MessageHeader.headerBytes, hT]
  simp only [bind_ok, pure_eq_ok, if_neg (show ¬ TC_MESSAGE = MID_MESSAGE by decide),
    if_neg (show ¬ TC_MESSAGE = HELLO_MESSAGE by decide), if_true]

theorem Serialize_hello (m : MessageHeader) (hT : m.m_messageType = HELLO_MESSAGE) :
    m.Serialize = Outcome.ok
      (m.headerBytes (u32 (OLSR_MSG_HEADER_SIZE + m.m_message.hello.GetSerializedSize))
        ++ m.m_message.hello.Serialize) := by
  unfold MessageHeader.Serialize MessageHeader.GetSerializedSize
  rw [MessageHeader.headerBytes, hT]
  simp only [bind_ok, pure_eq_ok, if_neg (show ¬ HELLO_MESSAGE = MID_MESSAGE by decide),
    if_true]

/-- Decoding the twelve header bytes of a TC message hands the rest of the buffer to
`Tc::Deserialize`, with the declared size less the header size as body length. -/
theorem Deserialize_header_tc (m prior : MessageHeader) (hT : m.m_messageType = TC_MESSAGE)
    (hm : m.InRange) (size : Nat) (hsize : size < 65536) (body : List Nat) :
    prior.Deserialize (m.headerBytes size ++ body) =
      (prior.m_message.tc.Deserialize body (sub32 size OLSR_MSG_HEADER_SIZE)) >>=
        (fun r => Outcome.ok
          ({ m with m_messageSize := size,
                    m_message := { prior.m_message with tc := r.1 } },
           u32 (OLSR_MSG_HEADER_SIZE + r.2.1), r.2.2)) := by
  obtain ⟨hv, ho, ht, hh, hs⟩ := hm
  have h1 : m.m_messageType < 256 := by rw [hT]; decide
  have hA : (decide (m.m_messageType ≥ HELLO_MESSAGE)
      && decide (m.m_messageType ≤ HNA_MESSAGE)) = true := by rw [hT]; decide
  have hn1 : ¬ m.m_messageType = MID_MESSAGE := by rw [hT]; decide
  have hn2 : ¬ m.m_messageType = HELLO_MESSAGE := by rw [hT]; decide
  unfold MessageHeader.Deserialize
  rw [MessageHeader.headerBytes]
  simp only [List.append_assoc, ReadU8_WriteU8_lt h1, ReadU8_WriteU8_lt hv,
    ReadU8_WriteU8_lt ht, ReadU8_WriteU8_lt hh, ReadNtohU16_WriteHtonU16_lt hsize,
    ReadNtohU16_WriteHtonU16_lt hs, ReadNtohU32_WriteHtonU32_lt ho, bind_ok, hA,
    NS_ASSERT_true, if_neg hn1, if_neg hn2, if_pos hT, pure_eq_ok]

/-! ## HELLO round trip -/

theorem Hello_sizeLoop_eq (lms : List LinkMessage) :
    ∀ size, size + linkMessagesBytes lms < 4294967296 →
      Hello.sizeLoop lms size = size + linkMessagesBytes lms := by
  induction lms with
  | nil => intro size _; rfl
  | cons lm rest ih =>
    intro size h
    have h4 : IPV4_ADDRESS_SIZE = 4 := rfl
    simp only [linkMessagesBytes] at h
    simp only [Hello.sizeLoop, linkMessagesBytes, h4]
    have e1 : u32 (size + 4) = size + 4 := u32_of_lt (by omega)
    have e2 : u32 (size + 4 + 4 * lm.neighborInterfaceAddresses.length)
        = size + 4 + 4 * lm.neighborInterfaceAddresses.length := u32_of_lt (by omega)
    rw [e1, e2, ih _ (by omega)]
    omega

theorem Hello_GetSerializedSize_eq (m : Hello)
    (h : 4 + linkMessagesBytes m.linkMessages < 4294967296) :
    m.GetSerializedSize = 4 + linkMessagesBytes m.linkMessages :=
  Hello_sizeLoop_eq m.linkMessages 4 h

theorem addressCount_eq (n : Nat) :
    Int.toNat (Int.tdiv (((4 + n * 4 : Nat) : Int) - 4) ((4 : Nat) : Int)) = n := by
  have h : (((4 + n * 4 : Nat) : Int) - 4) = ((n : Int) * 4) := by push_cast; ring
  rw [h, Int.tdiv_eq_ediv (by positivity) (by decide)]
  simp

theorem writeLinkMessages_length_ge (lms : List LinkMessage) (r : List Nat) :
    lms.length ≤ (writeLinkMessages lms ++ r).length := by
  induction lms with
  | nil => simp
  | cons lm rest ih =>
    simp only [writeLinkMessages, WriteU8, WriteHtonU16, List.append_assoc, List.length_cons,
      List.length_append, List.length_nil] at ih ⊢
    omega

theorem readLinkMessages_writeLinkMessages (lms : List LinkMessage)
    (hl : ∀ lm ∈ lms, lm.InRange) (hb : linkMessagesBytes lms < 65536) :
    ∀ (fuel : Nat) (acc : List LinkMessage) (r : List Nat), lms.length ≤ fuel →
      Hello.readLinkMessages fuel (linkMessagesBytes lms) acc (writeLinkMessages lms ++ r)
        = Outcome.ok (acc ++ lms, r) := by
  induction lms with
  | nil =>
    intro fuel acc r _
    cases fuel <;> simp [Hello.readLinkMessages, linkMessagesBytes, writeLinkMessages]
  | cons lm rest ih =>
    intro fuel acc r hf
    obtain ⟨hc, ha⟩ := hl lm (List.mem_cons_self lm rest)
    have hrest : ∀ x ∈ rest, x.InRange := fun x hx => hl x (List.mem_cons_of_mem lm hx)
    simp only [linkMessagesBytes] at hb
    cases fuel with
    | zero => simp at hf
    | succ f =>
      have hpos : linkMessagesBytes (lm :: rest) > 0 := by
        simp only [linkMessagesBytes]; omega
      have hsz : 4 + lm.neighborInterfaceAddresses.length * 4 < 65536 := by omega
      have hrem : sub32 (linkMessagesBytes (lm :: rest))
          (4 + lm.neighborInterfaceAddresses.length * 4) = linkMessagesBytes rest := by
        simp only [linkMessagesBytes]
        rw [sub32_of_le (by omega) (by omega)]
        omega
      simp only [Hello.readLinkMessages, if_pos hpos, writeLinkMessages, List.append_assoc,
        ReadU8_WriteU8_lt hc, bind_ok, ReadU8_WriteU8, ReadNtohU16_WriteHtonU16_lt hsz,
        addressCount_eq, readAddresses_writeAddresses _ ha, hrem, List.nil_append]
      rw [ih hrest (by omega) f _ r (by simpa using hf)]
      simp

theorem Hello_Deserialize_Serialize (m prior : Hello) (hb : m.InRange) (r : List Nat)
    (hsz : 4 + linkMessagesBytes m.linkMessages < 65536) :
    prior.Deserialize (m.Serialize ++ r) (4 + linkMessagesBytes m.linkMessages)
      = Outcome.ok (m, 4 + linkMessagesBytes m.linkMessages, r) := by
  obtain ⟨ht, hw, hl, hx, hy, hz⟩ := hb
  have hge : decide (4 + linkMessagesBytes m.linkMessages ≥ 4) = true :=
    decide_eq_true (by omega)
  have hrem : 4 + linkMessagesBytes m.linkMessages - 4 = linkMessagesBytes m.linkMessages := by
    omega
  unfold Hello.Deserialize Hello.Serialize
  simp only [hge, NS_ASSERT_true, bind_ok, List.append_assoc, ReadNtohU16_WriteU16_zero,
    ReadU8_WriteU8_lt ht, ReadU8_WriteU8_lt hw, hrem,
    readLinkMessages_writeLinkMessages _ hl (by omega) _ _ _
      (writeLinkMessages_length_ge m.linkMessages _),
    ReadNtohU64_WriteHtonU64_double hx, ReadNtohU64_WriteHtonU64_double hy,
    ReadNtohU64_WriteHtonU64_double hz, pure_eq_ok, Uint64ToDouble_of_lt hx,
    Uint64ToDouble_of_lt hy, Uint64ToDouble_of_lt hz, List.nil_append]

/-- Decoding the twelve header bytes of a HELLO message hands the rest of the buffer to
`Hello::Deserialize`, with the declared size less the header size as body length. -/
theorem Deserialize_header_hello (m prior : MessageHeader)
    (hT : m.m_messageType = HELLO_MESSAGE) (hm : m.InRange) (size : Nat)
    (hsize : size < 65536) (body : List Nat) :
    prior.Deserialize (m.headerBytes size ++ body) =
      (prior.m_message.hello.Deserialize body (sub32 size OLSR_MSG_HEADER_SIZE)) >>=
        (fun r => Outcome.ok
          ({ m with m_messageSize := size,
                    m_message := { prior.m_message with hello := r.1 } },
           u32 (OLSR_MSG_HEADER_SIZE + r.2.1), r.2.2)) := by
  obtain ⟨hv, ho, ht, hh, hs⟩ := hm
  have h1 : m.m_messageType < 256 := by rw [hT]; decide
  have hA : (decide (m.m_messageType ≥ HELLO_MESSAGE)
      && decide (m.m_messageType ≤ HNA_MESSAGE)) = true := by rw [hT]; decide
  have hn1 : ¬ m.m_messageType = MID_MESSAGE := by rw [hT]; decide
  unfold MessageHeader.Deserialize
  rw [MessageHeader.headerBytes]
  simp only [List.append_assoc, ReadU8_WriteU8_lt h1, ReadU8_WriteU8_lt hv,
    ReadU8_WriteU8_lt ht, ReadU8_WriteU8_lt hh, ReadNtohU16_WriteHtonU16_lt hsize,
    ReadNtohU16_WriteHtonU16_lt hs, ReadNtohU32_WriteHtonU32_lt ho, bind_ok, hA,
    NS_ASSERT_true, if_neg hn1, if_pos hT, pure_eq_ok]

/-! ## The iteration bound of the HELLO link-message loop -/

theorem ReadU8_length {buf r : List Nat} {v : Nat} (h : ReadU8 buf = Outcome.ok (v, r)) :
    r.length + 1 = buf.length := by
  rcases buf with _ | ⟨b0, t⟩
  · simp [ReadU8] at h
  · simp only [ReadU8, Outcome.ok.injEq, Prod.mk.injEq] at h
    rw [← h.2]; rfl

theorem ReadNtohU16_length {buf r : List Nat} {v : Nat}
    (h : ReadNtohU16 buf = Outcome.ok (v, r)) : r.length + 2 = buf.length := by
  rcases buf with _ | ⟨b0, _ | ⟨b1, t⟩⟩
  · simp [ReadNtohU16] at h
  · simp [ReadNtohU16] at h
  · simp only [ReadNtohU16, Outcome.ok.injEq, Prod.mk.injEq] at h
    rw [← h.2]; rfl

theorem ReadNtohU32_length {buf r : List Nat} {v : Nat}
    (h : ReadNtohU32 buf = Outcome.ok (v, r)) : r.length + 4 = buf.length := by
  rcases buf with _ | ⟨b0, _ | ⟨b1, _ | ⟨b2, _ | ⟨b3, t⟩⟩⟩⟩
  · simp [ReadNtohU32] at h
  · simp [ReadNtohU32] at h
  · simp [ReadNtohU32] at h
  · simp [ReadNtohU32] at h
  · simp only [ReadNtohU32, Outcome.ok.injEq, Prod.mk.injEq] at h
    rw [← h.2]; rfl

theorem readAddresses_length (n : Nat) :
    ∀ (v buf l r : List Nat), readAddresses n v buf = Outcome.ok (l, r) →
      r.length + 4 * n = buf.length := by
  induction n with
  | zero =>
    intro v buf l r h
    simp only [readAddresses, Outcome.ok.injEq, Prod.mk.injEq] at h
    rw [← h.2]; rfl
  | succ k ih =>
    intro v buf l r h
    cases hr : ReadNtohU32 buf with
    | fail f => simp [readAddresses, hr, bind_fail] at h
    | ok p =>
      obtain ⟨a, i⟩ := p
      simp only [readAddresses, hr, bind_ok] at h
      have h1 := ih _ _ _ _ h
      have h2 := ReadNtohU32_length hr
      omega

/-- The loop of `Hello::Deserialize` stops by itself within as many iterations as the
buffer has bytes: allowing one more iteration does not change its outcome. -/
theorem readLinkMessages_fuel_succ (fuel : Nat) :
    ∀ (remainingSize : Nat) (acc : List LinkMessage) (buf : List Nat), buf.length ≤ fuel →
      Hello.readLinkMessages (fuel + 1) remainingSize acc buf
        = Hello.readLinkMessages fuel remainingSize acc buf := by
  induction fuel with
  | zero =>
    intro rem acc buf h
    have hnil : buf = [] := List.length_eq_zero.mp (by omega)
    subst hnil
    by_cases hpos : rem > 0
    · simp only [Hello.readLinkMessages, if_pos hpos, ReadU8, bind_fail]
    · simp only [Hello.readLinkMessages, if_neg hpos]
  | succ f ih =>
    intro rem acc buf h
    by_cases hpos : rem > 0
    · rw [Hello.readLinkMessages, Hello.readLinkMessages, if_pos hpos, if_pos hpos]
      cases h1 : ReadU8 buf with
      | fail e => simp only [bind_fail]
      | ok p1 =>
        obtain ⟨linkCode, i1⟩ := p1
        cases h2 : ReadU8 i1 with
        | fail e => simp only [bind_ok, h2, bind_fail]
        | ok p2 =>
          obtain ⟨rsv, i2⟩ := p2
          cases h3 : ReadNtohU16 i2 with
          | fail e => simp only [bind_ok, h2, h3, bind_fail]
          | ok p3 =>
            obtain ⟨lmSize, i3⟩ := p3
            cases h4 : readAddresses
                (Int.toNat (Int.tdiv ((lmSize : Int) - 4) (IPV4_ADDRESS_SIZE : Int))) [] i3 with
            | fail e => simp only [bind_ok, h2, h3, h4, bind_fail]
            | ok p4 =>
              obtain ⟨v, i4⟩ := p4
              have l1 := ReadU8_length h1
              have l2 := ReadU8_length h2
              have l3 := ReadNtohU16_length h3
              have l4 := readAddresses_length _ _ _ _ _ h4
              simp only [bind_ok, h2, h3, h4]
              exact ih _ _ _ (by omega)
    · rw [Hello.readLinkMessages, Hello.readLinkMessages, if_neg hpos, if_neg hpos]

/-- Any number of allowed iterations from the length of the buffer on gives the outcome
that `Hello::Deserialize` uses. -/
theorem readLinkMessages_fuel (extra : Nat) (remainingSize : Nat) (acc : List LinkMessage)
    (buf : List Nat) :
    Hello.readLinkMessages (buf.length + extra) remainingSize acc buf
      = Hello.readLinkMessages buf.length remainingSize acc buf := by
  induction extra with
  | zero => rfl
  | succ k ih =>
    rw [← ih]
    exact readLinkMessages_fuel_succ (buf.length + k) remainingSize acc buf (by omega)

/-- C1. HELLO round trip: for a HELLO message whose fields hold values of their C++ types
and whose computed size `12 + 4 + Σ (4 + 4 n_i)` fits in 16 bits, `MessageHeader::Serialize`
returns and `MessageHeader::Deserialize`, run on all the bytes written (from any prior
message object), returns a message with the same type, vTime, originator, TTL, hop count,
sequence number and the same HELLO body (hTime, willingness, link messages in order,
position).  The size field and the returned size are `12 + 4 + Σ (4 + 4 n_i)`, which leaves
out the 24 position bytes that were written and read. -/
theorem hello_round_trip (m prior : MessageHeader) (hT : m.m_messageType = HELLO_MESSAGE)
    (hm : m.InRange) (hb : m.m_message.hello.InRange)
    (hsz : 12 + 4 + linkMessagesBytes m.m_message.hello.linkMessages ≤ 65535) :
    ∃ bytes, m.Serialize = Outcome.ok bytes ∧
      prior.Deserialize bytes = Outcome.ok
        ({ m with
            m_messageSize := 12 + 4 + linkMessagesBytes m.m_message.hello.linkMessages,
            m_message := { prior.m_message with hello := m.m_message.hello } },
         12 + 4 + linkMessagesBytes m.m_message.hello.linkMessages, []) := by
  have hG := Hello_GetSerializedSize_eq m.m_message.hello (by omega)
  have hbody :=
    Hello_Deserialize_Serialize m.m_message.hello prior.m_message.hello hb [] (by omega)
  rw [List.append_nil] at hbody
  have hS : u32 (OLSR_MSG_HEADER_SIZE + m.m_message.hello.GetSerializedSize)
      = 12 + 4 + linkMessagesBytes m.m_message.hello.linkMessages := by
    rw [hG, u32_of_lt (by show 12 + _ < _; omega)]
    show 12 + _ = _
    omega
  have hlen : sub32 (12 + 4 + linkMessagesBytes m.m_message.hello.linkMessages)
      OLSR_MSG_HEADER_SIZE = 4 + linkMessagesBytes m.m_message.hello.linkMessages := by
    rw [sub32_of_le (by show 12 ≤ _; omega) (by omega)]
    show _ - 12 = _
    omega
  have hret : u32 (OLSR_MSG_HEADER_SIZE
      + (4 + linkMessagesBytes m.m_message.hello.linkMessages))
      = 12 + 4 + linkMessagesBytes m.m_message.hello.linkMessages := by
    rw [u32_of_lt (by show 12 + _ < _; omega)]
    show 12 + _ = _
    omega
  refine ⟨_, Serialize_hello m hT, ?_⟩
  rw [hS, Deserialize_header_hello m prior hT hm _ (by omega), hlen, hbody, bind_ok, hret]

/-- C2. TC round trip: for a TC message whose fields hold values of their C++ types and
whose size `12 + 36 + 4n` fits in 16 bits, `MessageHeader::Serialize` returns and
`MessageHeader::Deserialize`, run on the bytes written (from any prior message object),
returns a message with the same type, vTime, originator, TTL, hop count, sequence number
and the same TC body (ansn, neighbor addresses in order, position, helloInterval); the
size it returns is the message size and no byte is left unread. -/
theorem tc_round_trip (m prior : MessageHeader) (hT : m.m_messageType = TC_MESSAGE)
    (hm : m.InRange) (hb : m.m_message.tc.InRange)
    (hsz : 12 + 36 + 4 * m.m_message.tc.neighborAddresses.length ≤ 65535) :
    ∃ bytes, m.Serialize = Outcome.ok bytes ∧
      prior.Deserialize bytes = Outcome.ok
        ({ m with
            m_messageSize := 12 + 36 + 4 * m.m_message.tc.neighborAddresses.length,
            m_message := { prior.m_message with tc := m.m_message.tc } },
         12 + 36 + 4 * m.m_message.tc.neighborAddresses.length, []) := by
  have hG := Tc_GetSerializedSize_eq m.m_message.tc (by omega)
  have hbody := Tc_Deserialize_Serialize m.m_message.tc prior.m_message.tc hb [] (by omega)
  rw [List.append_nil] at hbody
  have hS : u32 (OLSR_MSG_HEADER_SIZE + m.m_message.tc.GetSerializedSize)
      = 12 + 36 + 4 * m.m_message.tc.neighborAddresses.length := by
    rw [hG, u32_of_lt (by show 12 + _ < _; omega)]
    show 12 + _ = _
    omega
  have hlen : sub32 (12 + 36 + 4 * m.m_message.tc.neighborAddresses.length)
      OLSR_MSG_HEADER_SIZE = 36 + 4 * m.m_message.tc.neighborAddresses.length := by
    rw [sub32_of_le (by show 12 ≤ _; omega) (by omega)]
    show _ - 12 = _
    omega
  have hret : u32 (OLSR_MSG_HEADER_SIZE + (36 + 4 * m.m_message.tc.neighborAddresses.length))
      = 12 + 36 + 4 * m.m_message.tc.neighborAddresses.length := by
    rw [u32_of_lt (by show 12 + _ < _; omega)]
    show 12 + _ = _
    omega
  refine ⟨_, Serialize_tc m hT, ?_⟩
  rw [hS, Deserialize_header_tc m prior hT hm _ (by omega), hlen, hbody, bind_ok, hret]

/-- Witness of `hello_round_trip`: the HELLO of the end-to-end scenario, decoded into the
message object that held the TC of the scenario. -/
theorem hello_round_trip_witness :
    scenarioHello.m_messageType = HELLO_MESSAGE ∧ scenarioHello.InRange
      ∧ scenarioHello.m_message.hello.InRange
      ∧ 12 + 4 + linkMessagesBytes scenarioHello.m_message.hello.linkMessages ≤ 65535
      ∧ ∃ bytes, scenarioHello.Serialize = Outcome.ok bytes ∧
          scenarioTc.Deserialize bytes = Outcome.ok
            ({ scenarioHello with
                m_messageSize :=
                  12 + 4 + linkMessagesBytes scenarioHello.m_message.hello.linkMessages,
                m_message :=
                  { scenarioTc.m_message with hello := scenarioHello.m_message.hello } },
             12 + 4 + linkMessagesBytes scenarioHello.m_message.hello.linkMessages, []) :=
  ⟨by decide, by decide, by decide, by decide,
    hello_round_trip scenarioHello scenarioTc (by decide) (by decide) (by decide) (by decide)⟩

/-- Witness of `tc_round_trip`: the TC of the end-to-end scenario, decoded into the
message object that held the HELLO of the scenario. -/
theorem tc_round_trip_witness :
    scenarioTc.m_messageType = TC_MESSAGE ∧ scenarioTc.InRange
      ∧ scenarioTc.m_message.tc.InRange
      ∧ 12 + 36 + 4 * scenarioTc.m_message.tc.neighborAddresses.length ≤ 65535
      ∧ ∃ bytes, scenarioTc.Serialize = Outcome.ok bytes ∧
          scenarioHello.Deserialize bytes = Outcome.ok
            ({ scenarioTc with
                m_messageSize := 12 + 36 + 4 * scenarioTc.m_message.tc.neighborAddresses.length,
                m_message := { scenarioHello.m_message with tc := scenarioTc.m_message.tc } },
             12 + 36 + 4 * scenarioTc.m_message.tc.neighborAddresses.length, []) :=
  ⟨by decide, by decide, by decide, by decide,
    tc_round_trip scenarioTc scenarioHello (by decide) (by decide) (by decide) (by decide)⟩

/-! ## The size of a HELLO leaves out its position -/

theorem writeLinkMessages_length (lms : List LinkMessage) :
    (writeLinkMessages lms).length = linkMessagesBytes lms := by
  induction lms with
  | nil => rfl
  | cons lm rest ih =>
    simp only [writeLinkMessages, linkMessagesBytes, List.length_append, WriteU8,
      WriteHtonU16, List.length_cons, List.length_nil, writeAddresses_length, ih]

/-- Every HELLO body is written on 24 bytes more than `Hello::GetSerializedSize` counts. -/
theorem Hello_Serialize_length (m : Hello)
    (h : 4 + linkMessagesBytes m.linkMessages < 4294967296) :
    m.Serialize.length = m.GetSerializedSize + 24 := by
  rw [Hello_GetSerializedSize_eq m h]
  simp only [Hello.Serialize, List.length_append, WriteU16, WriteU8, WriteHtonU64,
    List.length_cons, List.length_nil, writeLinkMessages_length]

/-- Every TC body is written on as many bytes as `Tc::GetSerializedSize` counts. -/
theorem Tc_Serialize_length (m : Tc) (h : 36 + 4 * m.neighborAddresses.length < 4294967296) :
    m.Serialize.length = m.GetSerializedSize := by
  rw [Tc_GetSerializedSize_eq m h]
  simp only [Tc.Serialize, List.length_append, WriteHtonU16, WriteU64, List.length_cons,
    List.length_nil, writeAddresses_length]
  omega

/-- C3, at the HELLO of the end-to-end scenario: `GetSerializedSize()` is 40 and that is
the value of the size field (bytes 2 and 3), while `Serialize` writes 64 bytes: the 12
header bytes, the 28 bytes that `Hello::GetSerializedSize` counts, and the 24 bytes of
the position, which it does not count (`Hello_Serialize_length`: so for every HELLO). -/
theorem hello_size_field_omits_position :
    scenarioHello.GetSerializedSize = Outcome.ok 40
      ∧ scenarioHello.Serialize = Outcome.ok scenarioHello.bytes
      ∧ ReadNtohU16 (scenarioHello.bytes.drop 2) = Outcome.ok (40, scenarioHello.bytes.drop 4)
      ∧ scenarioHello.bytes.length = 64
      ∧ scenarioHello.m_message.hello.Serialize.length = 28 + 24 := by
  decide

/-- The hTime of the scenario HELLO is `SecondsToEmf(2.0)`. -/
theorem SecondsToEmf_two :
    SecondsToEmf 2 = Outcome.ok scenarioHello.m_message.hello.hTime := by
  have hq : (2 : ℚ) / OLSR_C = 32 := by norm_num [OLSR_C]
  have hs : SecondsToEmf.search 2 31 1 = Outcome.ok 6 := by
    norm_num [SecondsToEmf.search, shiftOne, bind_ok, pure_eq_ok, hq]
  have hc : ⌈(-(1 / 2) : ℚ)⌉ = 0 := by
    rw [Int.ceil_eq_iff]; norm_num
  have h0 : ¬ (2 : ℚ) < OLSR_C := by norm_num [OLSR_C]
  unfold SecondsToEmf
  simp only [if_neg h0, hs, bind_ok]
  norm_num [shiftOne, bind_ok, pure_eq_ok, OLSR_C, NS_ASSERT_true, hc]
  decide

set_option maxRecDepth 8000 in
/-- C4, the end-to-end scenario on the code: the packet holds 128 bytes; the packet header
decodes and returns 4; the first message decodes to the HELLO and returns 40, its size
field; the decode started at offset 4 + 40 meets the first byte of the HELLO position and
fails on the type assertion; and 4 plus the two message sizes, 40 and 60, is 104, not the
128 bytes of the packet. -/
theorem scenario_second_decode_fails :
    scenarioPacket.length = 128
      ∧ PacketHeader.Deserialize ⟨0, 0⟩ scenarioPacket
          = Outcome.ok (⟨128, 1⟩, 4, scenarioPacket.drop 4)
      ∧ freshMessage.Deserialize (scenarioPacket.drop 4)
          = Outcome.ok ({ scenarioHello with m_messageSize := 40 }, 40, scenarioTc.bytes)
      ∧ freshMessage.Deserialize (scenarioPacket.drop (4 + 40)) = Outcome.fail Fault.assertion
      ∧ scenarioHello.GetSerializedSize = Outcome.ok 40
      ∧ scenarioTc.GetSerializedSize = Outcome.ok 60
      ∧ 4 + 40 + 60 ≠ scenarioPacket.length :=
  ⟨by decide, by decide, by decide, by decide, by decide, by decide, by decide⟩

theorem ReadNtohU64_length {buf r : List Nat} {v : Nat}
    (h : ReadNtohU64 buf = Outcome.ok (v, r)) : r.length + 8 = buf.length := by
  rcases buf with
    _ | ⟨b0, _ | ⟨b1, _ | ⟨b2, _ | ⟨b3, _ | ⟨b4, _ | ⟨b5, _ | ⟨b6, _ | ⟨b7, t⟩⟩⟩⟩⟩⟩⟩⟩
  all_goals first
    | (simp [ReadNtohU64] at h; done)
    | (simp only [ReadNtohU64, Outcome.ok.injEq, Prod.mk.injEq] at h
       rw [← h.2]; rfl)

/-- The link-message loop never moves the iterator backwards. -/
theorem readLinkMessages_length_le (fuel : Nat) :
    ∀ (remainingSize : Nat) (acc : List LinkMessage) (buf : List Nat)
      (l : List LinkMessage) (r : List Nat),
      Hello.readLinkMessages fuel remainingSize acc buf = Outcome.ok (l, r) →
        r.length ≤ buf.length := by
  induction fuel with
  | zero =>
    intro rem acc buf l r h
    by_cases hpos : rem > 0
    · simp [Hello.readLinkMessages, if_pos hpos] at h
    · simp only [Hello.readLinkMessages, if_neg hpos, Outcome.ok.injEq, Prod.mk.injEq] at h
      rw [← h.2]
  | succ f ih =>
    intro rem acc buf l r h
    by_cases hpos : rem > 0
    · rw [Hello.readLinkMessages, if_pos hpos] at h
      cases h1 : ReadU8 buf with
      | fail e => simp only [h1, bind_fail, reduceCtorEq] at h
      | ok p1 =>
        obtain ⟨linkCode, i1⟩ := p1
        cases h2 : ReadU8 i1 with
        | fail e => simp only [h1, bind_ok, h2, bind_fail, reduceCtorEq] at h
        | ok p2 =>
          obtain ⟨rsv, i2⟩ := p2
          cases h3 : ReadNtohU16 i2 with
          | fail e => simp only [h1, bind_ok, h2, h3, bind_fail, reduceCtorEq] at h
          | ok p3 =>
            obtain ⟨lmSize, i3⟩ := p3
            cases h4 : readAddresses
                (Int.toNat (Int.tdiv ((lmSize : Int) - 4) (IPV4_ADDRESS_SIZE : Int))) [] i3 with
            | fail e => simp only [h1, bind_ok, h2, h3, h4, bind_fail, reduceCtorEq] at h
            | ok p4 =>
              obtain ⟨v, i4⟩ := p4
              have l1 := ReadU8_length h1
              have l2 := ReadU8_length h2
              have l3 := ReadNtohU16_length h3
              have l4 := readAddresses_length _ _ _ _ _ h4
              simp only [h1, bind_ok, h2, h3, h4] at h
              have l5 := ih _ _ _ _ _ h
              omega
    · simp only [Hello.readLinkMessages, if_neg hpos, Outcome.ok.injEq, Prod.mk.injEq] at h
      rw [← h.2]

/-- With bytes still declared, the link-message loop reads at least the four bytes of a
link-message header. -/
theorem readLinkMessages_consumes (fuel remainingSize : Nat) (acc : List LinkMessage)
    (buf : List Nat) (l : List LinkMessage) (r : List Nat) (hpos : remainingSize > 0)
    (h : Hello.readLinkMessages fuel remainingSize acc buf = Outcome.ok (l, r)) :
    r.length + 4 ≤ buf.length := by
  cases fuel with
  | zero => simp [Hello.readLinkMessages, if_pos hpos] at h
  | succ f =>
    rw [Hello.readLinkMessages, if_pos hpos] at h
    cases h1 : ReadU8 buf with
    | fail e => simp only [h1, bind_fail, reduceCtorEq] at h
    | ok p1 =>
      obtain ⟨linkCode, i1⟩ := p1
      cases h2 : ReadU8 i1 with
      | fail e => simp only [h1, bind_ok, h2, bind_fail, reduceCtorEq] at h
      | ok p2 =>
        obtain ⟨rsv, i2⟩ := p2
        cases h3 : ReadNtohU16 i2 with
        | fail e => simp only [h1, bind_ok, h2, h3, bind_fail, reduceCtorEq] at h
        | ok p3 =>
          obtain ⟨lmSize, i3⟩ := p3
          cases h4 : readAddresses
              (Int.toNat (Int.tdiv ((lmSize : Int) - 4) (IPV4_ADDRESS_SIZE : Int))) [] i3 with
          | fail e => simp only [h1, bind_ok, h2, h3, h4, bind_fail, reduceCtorEq] at h
          | ok p4 =>
            obtain ⟨v, i4⟩ := p4
            have l1 := ReadU8_length h1
            have l2 := ReadU8_length h2
            have l3 := ReadNtohU16_length h3
            have l4 := readAddresses_length _ _ _ _ _ h4
            simp only [h1, bind_ok, h2, h3, h4] at h
            have l5 := readLinkMessages_length_le _ _ _ _ _ _ h
            omega

/-- On a body of exactly 28 bytes declared as 28 bytes, `Hello::Deserialize` never
returns: whatever the bytes are, the position is read past the end of the body. -/
theorem Hello_Deserialize_28_fails (prior : Hello) (buf : List Nat) (hlen : buf.length = 28)
    (x : Hello × Nat × List Nat) : prior.Deserialize buf 28 ≠ Outcome.ok x := by
  intro h
  unfold Hello.Deserialize at h
  have hge : decide (28 ≥ 4) = true := by decide
  rw [hge, NS_ASSERT_true, bind_ok] at h
  cases h1 : ReadNtohU16 buf with
  | fail e => simp only [h1, bind_fail, reduceCtorEq] at h
  | ok p1 =>
    obtain ⟨rsv, i1⟩ := p1
    cases h2 : ReadU8 i1 with
    | fail e => simp only [h1, bind_ok, h2, bind_fail, reduceCtorEq] at h
    | ok p2 =>
      obtain ⟨hTime, i2⟩ := p2
      cases h3 : ReadU8 i2 with
      | fail e => simp only [h1, bind_ok, h2, h3, bind_fail, reduceCtorEq] at h
      | ok p3 =>
        obtain ⟨w, i3⟩ := p3
        cases h4 : Hello.readLinkMessages i3.length (28 - 4) [] i3 with
        | fail e => simp only [h1, bind_ok, h2, h3, h4, bind_fail, reduceCtorEq] at h
        | ok p4 =>
          obtain ⟨lms, i4⟩ := p4
          have l1 := ReadNtohU16_length h1
          have l2 := ReadU8_length h2
          have l3 := ReadU8_length h3
          have l4 := readLinkMessages_consumes _ _ _ _ _ _ (by decide) h4
          cases h5 : ReadNtohU64 i4 with
          | fail e => simp only [h1, bind_ok, h2, h3, h4, h5, bind_fail, reduceCtorEq] at h
          | ok p5 =>
            obtain ⟨px, i5⟩ := p5
            cases h6 : ReadNtohU64 i5 with
            | fail e => simp only [h1, bind_ok, h2, h3, h4, h5, h6, bind_fail, reduceCtorEq] at h
            | ok p6 =>
              obtain ⟨py, i6⟩ := p6
              cases h7 : ReadNtohU64 i6 with
              | fail e =>
                simp only [h1, bind_ok, h2, h3, h4, h5, h6, h7, bind_fail, reduceCtorEq] at h
              | ok p7 =>
                obtain ⟨pz, i7⟩ := p7
                have l5 := ReadNtohU64_length h5
                have l6 := ReadNtohU64_length h6
                have l7 := ReadNtohU64_length h7
                omega

/-- C5, at a HELLO without link messages: with the declared body length 28 the decoder
takes the position bytes for link messages and runs past the end of the 28 bytes (as it
does on any 28 bytes, `Hello_Deserialize_28_fails`); it yields the empty link-message
sequence and the position when the declared length is 4. -/
theorem hello_no_links_declared_28 :
    helloNoLinksBytes.length = 28
      ∧ helloNoLinks.Serialize = helloNoLinksBytes
      ∧ Hello.Deserialize freshMessage.m_message.hello helloNoLinksBytes 28
          = Outcome.fail Fault.bufferEnd
      ∧ Hello.Deserialize freshMessage.m_message.hello helloNoLinksBytes 4
          = Outcome.ok (helloNoLinks, 4, []) := by
  decide

/-- C6, at the position (1.0, 2.0, 3.0): the eight bytes of the coordinate 1.0 are
`3F F0 00 00 00 00 00 00` in the HELLO body and `00 00 00 00 00 00 F0 3F` in the TC body. -/
theorem position_bytes_differ :
    (helloNoLinks.Serialize.drop 4).take 8 = [0x3F, 0xF0, 0, 0, 0, 0, 0, 0]
      ∧ (tcNoNeighbors.Serialize.drop 4).take 8 = [0, 0, 0, 0, 0, 0, 0xF0, 0x3F]
      ∧ helloNoLinks.position = tcNoNeighbors.position
      ∧ (helloNoLinks.Serialize.drop 4).take 8 ≠ (tcNoNeighbors.Serialize.drop 4).take 8 := by
  decide

/-! ## Reads on a buffer that is long enough -/

theorem ReadU8_of_length (buf : List Nat) (h : 1 ≤ buf.length) :
    ∃ v, ReadU8 buf = Outcome.ok (v, buf.drop 1) ∧ v < 256 := by
  rcases buf with _ | ⟨b0, r⟩
  · simp at h
  · exact ⟨b0 % 256, rfl, Nat.mod_lt _ (by decide)⟩

theorem ReadNtohU16_of_length (buf : List Nat) (h : 2 ≤ buf.length) :
    ∃ v, ReadNtohU16 buf = Outcome.ok (v, buf.drop 2) ∧ v < 65536 := by
  rcases buf with _ | ⟨b0, _ | ⟨b1, r⟩⟩
  · simp at h
  · simp at h
  · refine ⟨b0 % 256 * 256 + b1 % 256, rfl, ?_⟩
    omega

theorem ReadNtohU32_of_length (buf : List Nat) (h : 4 ≤ buf.length) :
    ∃ v, ReadNtohU32 buf = Outcome.ok (v, buf.drop 4) ∧ v < 4294967296 := by
  rcases buf with _ | ⟨b0, _ | ⟨b1, _ | ⟨b2, _ | ⟨b3, r⟩⟩⟩⟩
  · simp at h
  · simp at h
  · simp at h
  · simp at h
  · refine ⟨b0 % 256 * 16777216 + b1 % 256 * 65536 + b2 % 256 * 256 + b3 % 256, rfl, ?_⟩
    omega

theorem ReadU64_of_length (buf : List Nat) (h : 8 ≤ buf.length) :
    ∃ v, ReadU64 buf = Outcome.ok (v, buf.drop 8) := by
  rcases buf with
    _ | ⟨b0, _ | ⟨b1, _ | ⟨b2, _ | ⟨b3, _ | ⟨b4, _ | ⟨b5, _ | ⟨b6, _ | ⟨b7, r⟩⟩⟩⟩⟩⟩⟩⟩
  all_goals first
    | (simp at h; done)
    | exact ⟨_, rfl⟩

theorem ReadNtohU32_short (buf : List Nat) (h : buf.length < 4) :
    ReadNtohU32 buf = Outcome.fail Fault.bufferEnd := by
  rcases buf with _ | ⟨b0, _ | ⟨b1, _ | ⟨b2, _ | ⟨b3, r⟩⟩⟩⟩
  · rfl
  · rfl
  · rfl
  · rfl
  · simp only [List.length_cons] at h
    omega

theorem readAddresses_of_length (n : Nat) :
    ∀ (v buf : List Nat), 4 * n ≤ buf.length →
      ∃ l, readAddresses n v buf = Outcome.ok (v ++ l, buf.drop (4 * n)) ∧ l.length = n
        ∧ AddressesInRange l := by
  induction n with
  | zero =>
    intro v buf _
    exact ⟨[], by simp [readAddresses], rfl, fun a ha => by simp at ha⟩
  | succ k ih =>
    intro v buf h
    obtain ⟨a, ha, hlt⟩ := ReadNtohU32_of_length buf (by omega)
    obtain ⟨l, hl, hlen, hr⟩ := ih (v ++ [a]) (buf.drop 4) (by simp; omega)
    refine ⟨a :: l, ?_, by simp [hlen], ?_⟩
    · simp only [readAddresses, ha, bind_ok, hl, List.drop_drop, List.append_assoc,
        List.singleton_append]
      congr 3
      omega
    · intro x hx
      rcases List.mem_cons.mp hx with rfl | hx
      · exact hlt
      · exact hr x hx

/-- With fewer than `4 * n` bytes, the loop of `n` address reads runs past the end. -/
theorem readAddresses_short (n : Nat) :
    ∀ (v buf : List Nat), buf.length < 4 * n →
      readAddresses n v buf = Outcome.fail Fault.bufferEnd := by
  induction n with
  | zero => intro v buf h; simp at h
  | succ k ih =>
    intro v buf h
    by_cases h4 : 4 ≤ buf.length
    · obtain ⟨a, ha, _⟩ := ReadNtohU32_of_length buf h4
      simp only [readAddresses, ha, bind_ok]
      exact ih _ _ (by simp; omega)
    · simp only [readAddresses, ReadNtohU32_short buf (by omega), bind_fail]

/-! ## TC bodies by declared length -/

theorem Tc_cleared_size (ansn : Nat) (p : Vector) (hi : Nat) :
    Tc.GetSerializedSize
      { neighborAddresses := [], ansn := ansn, position := p, helloInterval := hi } = 36 := by
  rw [Tc_GetSerializedSize_eq _ (by simp)]; rfl

/-- A declared length below 4 fails the assertion `messageSize >= 4`. -/
theorem Tc_Deserialize_below_4 (prior : Tc) (buf : List Nat) (L : Nat) (h : L < 4) :
    prior.Deserialize buf L = Outcome.fail Fault.assertion := by
  have hge : decide (L ≥ 4) = false := decide_eq_false (by omega)
  unfold Tc.Deserialize
  simp only [hge, NS_ASSERT_false, bind_fail]

/-- A neighbor-address region that is not a multiple of 4 bytes: the call returns 0 after
having cleared the address vector and stored the ansn, with the iterator after the four
prefix bytes.  The unsigned difference `L - 36` keeps its remainder by 4 when it wraps. -/
theorem Tc_Deserialize_zero (prior : Tc) (buf : List Nat) (L : Nat) (h4 : 4 ≤ L)
    (hL : L < 4294967296) (hbuf : 4 ≤ buf.length) (hmod : L % 4 ≠ 0) :
    ∃ ansn, ReadNtohU16 buf = Outcome.ok (ansn, buf.drop 2) ∧
      prior.Deserialize buf L = Outcome.ok
        ({ prior with neighborAddresses := [], ansn := ansn }, 0, buf.drop 4) := by
  obtain ⟨ansn, ha, _⟩ := ReadNtohU16_of_length buf (by omega)
  obtain ⟨rsv, hr, _⟩ := ReadNtohU16_of_length (buf.drop 2) (by simp; omega)
  have hge : decide (L ≥ 4) = true := decide_eq_true (by omega)
  have hsize : sub32 L 36 % 4 ≠ 0 := by unfold sub32; omega
  refine ⟨ansn, ha, ?_⟩
  unfold Tc.Deserialize
  simp only [hge, NS_ASSERT_true, bind_ok, ha, hr, Tc_cleared_size, if_pos hsize,
    pure_eq_ok, List.drop_drop]

/-- A neighbor-address region that is a multiple of 4 bytes: the call returns the declared
length, with `(L - 36) / 4` addresses and the iterator `L` bytes further. -/
theorem Tc_Deserialize_ok (prior : Tc) (buf : List Nat) (L : Nat) (h36 : 36 ≤ L)
    (hL : L < 4294967296) (hbuf : L ≤ buf.length) (hmod : (L - 36) % 4 = 0) :
    ∃ t, prior.Deserialize buf L = Outcome.ok (t, L, buf.drop L)
      ∧ t.neighborAddresses.length = (L - 36) / 4 := by
  obtain ⟨ansn, ha, _⟩ := ReadNtohU16_of_length buf (by omega)
  obtain ⟨rsv, hr, _⟩ := ReadNtohU16_of_length (buf.drop 2) (by simp; omega)
  obtain ⟨l, hl, hlen, _⟩ :=
    readAddresses_of_length ((L - 36) / 4) [] (buf.drop 4) (by simp; omega)
  obtain ⟨px, hpx⟩ := ReadU64_of_length (buf.drop (4 + 4 * ((L - 36) / 4))) (by simp; omega)
  obtain ⟨py, hpy⟩ :=
    ReadU64_of_length (buf.drop (4 + 4 * ((L - 36) / 4) + 8)) (by simp; omega)
  obtain ⟨pz, hpz⟩ :=
    ReadU64_of_length (buf.drop (4 + 4 * ((L - 36) / 4) + 8 + 8)) (by simp; omega)
  obtain ⟨hi, hhi⟩ :=
    ReadU64_of_length (buf.drop (4 + 4 * ((L - 36) / 4) + 8 + 8 + 8)) (by simp; omega)
  have hge : decide (L ≥ 4) = true := decide_eq_true (by omega)
  have hsize : sub32 L 36 = L - 36 := sub32_of_le h36 hL
  have hend : 4 + 4 * ((L - 36) / 4) + 8 + 8 + 8 + 8 = L := by omega
  have hnot : ¬ (L - 36) % 4 ≠ 0 := by omega
  simp only [List.drop_drop, List.nil_append] at hl hpx hpy hpz hhi
  rw [hend] at hhi
  refine ⟨{ neighborAddresses := l, ansn := ansn,
             position := ⟨Uint64ToDouble px, Uint64ToDouble py, Uint64ToDouble pz⟩,
             helloInterval := Uint64ToDouble hi }, ?_, hlen⟩
  unfold Tc.Deserialize
  simp only [hge, NS_ASSERT_true, bind_ok, ha, hr, Tc_cleared_size, hsize, if_neg hnot,
    pure_eq_ok, List.drop_drop, hl, hpx, hpy, hpz, hhi]

/-- C7 as stated fails at the declared lengths 32 and 2.  At 32 the region length
32 - 4 - 32 is a multiple of 4, yet the call neither returns 32 nor yields (32 - 36) / 4
addresses: the unsigned difference 32 - 36 wraps and the address loop runs past the end of
the body.  At 2 the region length is not a multiple of 4, yet the call does not return 0:
it fails the assertion `messageSize >= 4`. -/
theorem tc_declared_32_runs_past_end :
    ((32 : Int) - 4 - 32) % 4 = 0
      ∧ tcNoNeighbors.Deserialize (List.replicate 32 0) 32 = Outcome.fail Fault.bufferEnd
      ∧ ((2 : Int) - 4 - 32) % 4 ≠ 0
      ∧ tcNoNeighbors.Deserialize (List.replicate 32 0) 2 = Outcome.fail Fault.assertion := by
  decide

/-- C7, amended: for a declared TC body length `L < 2^32` whose `L` bytes are in the
buffer: if `L < 4` the call fails the assertion `messageSize >= 4`; if `36 ≤ L`,
`Tc::Deserialize` returns 0 exactly when the neighbor-address region `L - 4 - 32` is not a
multiple of 4, and then it has read the four prefix bytes only and left the address vector
empty; when the region is a multiple of 4 it returns `L`, has read `L` bytes and yields
`(L - 36) / 4` neighbor addresses. -/
theorem tc_declared_length (prior : Tc) (buf : List Nat) (L : Nat)
    (hL : L < 4294967296) (hbuf : L ≤ buf.length) :
    (L < 4 → prior.Deserialize buf L = Outcome.fail Fault.assertion)
      ∧ (36 ≤ L →
          ((∃ t r, prior.Deserialize buf L = Outcome.ok (t, 0, r)) ↔ (L - 4 - 32) % 4 ≠ 0)
          ∧ ((L - 4 - 32) % 4 ≠ 0 → ∃ ansn, prior.Deserialize buf L = Outcome.ok
                ({ prior with neighborAddresses := [], ansn := ansn }, 0, buf.drop 4))
          ∧ ((L - 4 - 32) % 4 = 0 → ∃ t,
                prior.Deserialize buf L = Outcome.ok (t, L, buf.drop L)
                ∧ t.neighborAddresses.length = (L - 36) / 4)) := by
  refine ⟨Tc_Deserialize_below_4 prior buf L, fun h36 => ⟨⟨?_, ?_⟩, ?_, ?_⟩⟩
  · rintro ⟨t, r, h⟩ hmod
    obtain ⟨t2, h2, _⟩ := Tc_Deserialize_ok prior buf L h36 hL hbuf (by omega)
    rw [h] at h2
    injection h2 with h2
    injection h2 with _ h2
    injection h2 with h2 _
    omega
  · intro hmod
    obtain ⟨ansn, _, h⟩ :=
      Tc_Deserialize_zero prior buf L (by omega) hL (by omega) (by omega)
    exact ⟨_, _, h⟩
  · intro hmod
    obtain ⟨ansn, _, h⟩ :=
      Tc_Deserialize_zero prior buf L (by omega) hL (by omega) (by omega)
    exact ⟨ansn, h⟩
  · intro hmod
    exact Tc_Deserialize_ok prior buf L h36 hL hbuf (by omega)

/-- Witness of `tc_declared_length`: the 48 bytes of the TC body of the scenario. -/
theorem tc_declared_length_witness :
    48 < 4294967296 ∧ 48 ≤ scenarioTc.m_message.tc.Serialize.length ∧ 36 ≤ 48
      ∧ (48 - 4 - 32) % 4 = 0
      ∧ ∃ t, tcNoNeighbors.Deserialize scenarioTc.m_message.tc.Serialize 48
            = Outcome.ok (t, 48, scenarioTc.m_message.tc.Serialize.drop 48)
          ∧ t.neighborAddresses.length = (48 - 36) / 4 :=
  ⟨by decide, by decide, by decide, by decide,
    ((tc_declared_length tcNoNeighbors scenarioTc.m_message.tc.Serialize 48 (by decide)
      (by decide)).2 (by decide)).2.2 (by decide)⟩

/-! ## State after a failed TC decode -/

/-- C8, at the malformed TC message `malformedTcBytes` (size field 49, so a body of 37 bytes
and a neighbor-address region of one byte), decoded into the message object of the scenario
TC: `Tc::Deserialize` returns its failure value 0, having cleared the address vector and
stored the ansn 77; `MessageHeader::Deserialize` adds the 0 to the header size and returns
12, as it does for a decoded message, and leaves the header fields read from the input,
the ansn 77 and an empty address vector, where the object held the ansn 5 and three
addresses before the call; position and helloInterval are those held before the call. -/
theorem failed_tc_decode_changes_message :
    scenarioTc.Deserialize malformedTcBytes = Outcome.ok
        ({ scenarioTc with
            m_vTime := 0x86, m_messageSize := 49, m_originatorAddress := ipv4 10 0 0 9,
            m_timeToLive := 3, m_hopCount := 1, m_messageSequenceNumber := 9,
            m_message := { scenarioTc.m_message with
              tc := { scenarioTc.m_message.tc with neighborAddresses := [], ansn := 77 } } },
         12, List.replicate 33 0)
      ∧ scenarioTc.m_message.tc.neighborAddresses ≠ []
      ∧ scenarioTc.m_message.tc.ansn ≠ 77
      ∧ scenarioTc.m_originatorAddress ≠ ipv4 10 0 0 9
      ∧ scenarioTc.m_message.tc.Deserialize (malformedTcBytes.drop 12) (49 - 12)
          = Outcome.ok ({ scenarioTc.m_message.tc with neighborAddresses := [], ansn := 77 },
              0, List.replicate 33 0)
      ∧ malformedTcBytes.length = 49 := by
  decide

/-- What the size test of `Tc::Deserialize` leaves behind, for every TC message: when the
declared body length is at least 4 and the neighbor-address region is not a multiple of 4
bytes, the failure value 0 of the body decoder is lost in the sum that
`MessageHeader::Deserialize` returns, 12, and the message holds the header fields and the
ansn read from the input, an empty neighbor-address vector, and the position,
helloInterval and other bodies that the object held before the call. -/
theorem failed_tc_decode_state (h prior : MessageHeader) (hT : h.m_messageType = TC_MESSAGE)
    (hr : h.InRange) (size : Nat) (h16 : 12 + 4 ≤ size) (hsize : size < 65536)
    (hmod : ((size : Int) - 12 - 4 - 32) % 4 ≠ 0) (ansn : Nat) (ha : ansn < 65536) (rsv : Nat)
    (rest : List Nat) :
    prior.Deserialize (h.headerBytes size ++ (WriteHtonU16 ansn ++ WriteHtonU16 rsv ++ rest))
      = Outcome.ok
        ({ h with
            m_messageSize := size,
            m_message := { prior.m_message with
              tc := { prior.m_message.tc with neighborAddresses := [], ansn := ansn } } },
         12, rest) := by
  have hlen : sub32 size OLSR_MSG_HEADER_SIZE = size - 12 :=
    sub32_of_le (by show 12 ≤ size; omega) (by omega)
  obtain ⟨a, hread, hz⟩ := Tc_Deserialize_zero prior.m_message.tc
    (WriteHtonU16 ansn ++ WriteHtonU16 rsv ++ rest) (size - 12) (by omega) (by omega)
    (by simp [WriteHtonU16]) (by omega)
  rw [List.append_assoc, ReadNtohU16_WriteHtonU16_lt ha] at hread
  have hansn : ansn = a := (Prod.mk.inj (Outcome.ok.inj hread)).1
  subst hansn
  have hdrop : (WriteHtonU16 ansn ++ WriteHtonU16 rsv ++ rest).drop 4 = rest := by
    simp [WriteHtonU16]
  have hret : u32 (OLSR_MSG_HEADER_SIZE + 0) = 12 := by decide
  rw [hdrop] at hz
  rw [Deserialize_header_tc h prior hT hr size hsize, hlen, hz, bind_ok, hret]

/-- The lemma `failed_tc_decode_state` at a TC header with size field 49 before the ansn 77
and 33 further bytes, decoded into the message object of the scenario HELLO. -/
theorem failed_tc_decode_state_witness :
    scenarioTc.m_messageType = TC_MESSAGE ∧ scenarioTc.InRange ∧ 12 + 4 ≤ 49 ∧ 49 < 65536
      ∧ (((49 : Nat) : Int) - 12 - 4 - 32) % 4 ≠ 0 ∧ 77 < 65536
      ∧ scenarioHello.Deserialize
          (scenarioTc.headerBytes 49
            ++ (WriteHtonU16 77 ++ WriteHtonU16 0 ++ List.replicate 33 0))
        = Outcome.ok
          ({ scenarioTc with
              m_messageSize := 49,
              m_message := { scenarioHello.m_message with
                tc := { scenarioHello.m_message.tc with
                  neighborAddresses := [], ansn := 77 } } },
           12, List.replicate 33 0) :=
  ⟨by decide, by decide, by decide, by decide, by decide, by decide,
    failed_tc_decode_state scenarioTc scenarioHello (by decide) (by decide) 49 (by decide)
      (by decide) (by decide) 77 (by decide) 0 (List.replicate 33 0)⟩

/-! ## HNA bodies by declared length -/

theorem readAssociations_of_length (n : Nat) :
    ∀ (v : List Association) (buf : List Nat), 8 * n ≤ buf.length →
      ∃ l, readAssociations n v buf = Outcome.ok (v ++ l, buf.drop (8 * n)) ∧ l.length = n := by
  induction n with
  | zero =>
    intro v buf _
    exact ⟨[], by simp [readAssociations], rfl⟩
  | succ k ih =>
    intro v buf h
    obtain ⟨a, ha, _⟩ := ReadNtohU32_of_length buf (by omega)
    obtain ⟨m, hm, _⟩ := ReadNtohU32_of_length (buf.drop 4) (by simp; omega)
    obtain ⟨l, hl, hlen⟩ := ih (v ++ [⟨a, m⟩]) (buf.drop (4 + 4)) (by simp; omega)
    refine ⟨⟨a, m⟩ :: l, ?_, by simp [hlen]⟩
    simp only [readAssociations, ha, bind_ok, hm, hl, List.drop_drop, List.append_assoc,
      List.singleton_append]
    congr 3
    omega

/-- C9. HNA body length: a declared length that is not a multiple of 8 fails the assertion
of `Hna::Deserialize`, whatever the buffer holds, and no association list is produced;
for a declared length `L` that is a multiple of 8 and whose `L` bytes are in the buffer,
the call returns `L`, has read `L` bytes and yields `L / 8` associations. -/
theorem hna_declared_length (prior : Hna) (buf : List Nat) (L : Nat)
    (hbuf : L ≤ buf.length) :
    (L % 8 ≠ 0 → prior.Deserialize buf L = Outcome.fail Fault.assertion)
      ∧ (L % 8 = 0 → ∃ v, prior.Deserialize buf L = Outcome.ok (⟨v⟩, L, buf.drop L)
            ∧ v.length = L / 8) := by
  constructor
  · intro h
    have hc : (L % (IPV4_ADDRESS_SIZE * 2) == 0) = false := by
      show (L % 8 == 0) = false
      simpa using h
    unfold Hna.Deserialize
    simp only [hc, NS_ASSERT_false, bind_fail]
  · intro h
    have hc : (L % (IPV4_ADDRESS_SIZE * 2) == 0) = true := by
      show (L % 8 == 0) = true
      simpa using h
    have hn : L / IPV4_ADDRESS_SIZE / 2 = L / 8 := by
      show L / 4 / 2 = L / 8
      omega
    obtain ⟨l, hl, hlen⟩ := readAssociations_of_length (L / 8) [] buf (by omega)
    have hend : 8 * (L / 8) = L := by omega
    rw [hend, List.nil_append] at hl
    refine ⟨l, ?_, hlen⟩
    unfold Hna.Deserialize
    simp only [hc, NS_ASSERT_true, bind_ok, hn, hl, pure_eq_ok]

/-- Witness of `hna_declared_length`: a body of two associations, declared as 16 bytes and
then as 15 bytes. -/
theorem hna_declared_length_witness :
    16 ≤ hnaTwoBytes.length ∧ 16 % 8 = 0
      ∧ (∃ v, Hna.Deserialize ⟨[]⟩ hnaTwoBytes 16
            = Outcome.ok (⟨v⟩, 16, hnaTwoBytes.drop 16) ∧ v.length = 16 / 8)
      ∧ 15 ≤ hnaTwoBytes.length ∧ 15 % 8 ≠ 0
      ∧ Hna.Deserialize ⟨[]⟩ hnaTwoBytes 15 = Outcome.fail Fault.assertion :=
  ⟨by decide, by decide, (hna_declared_length ⟨[]⟩ hnaTwoBytes 16 (by decide)).2 (by decide),
    by decide, by decide, (hna_declared_length ⟨[]⟩ hnaTwoBytes 15 (by decide)).1 (by decide)⟩

/-! ## Dispatch on the message type -/

/-- A first byte outside the codes `HELLO_MESSAGE .. HNA_MESSAGE` fails the type
assertion, before any other byte is read. -/
theorem Deserialize_unsupported_type (prior : MessageHeader) (b : Nat) (rest : List Nat)
    (h : ¬ (HELLO_MESSAGE ≤ b % 256 ∧ b % 256 ≤ HNA_MESSAGE)) :
    prior.Deserialize (b :: rest) = Outcome.fail Fault.assertion := by
  have hA : (decide (b % 256 ≥ HELLO_MESSAGE) && decide (b % 256 ≤ HNA_MESSAGE)) = false := by
    simpa using h
  unfold MessageHeader.Deserialize
  simp only [ReadU8, bind_ok, hA, NS_ASSERT_false, bind_fail]

theorem Deserialize_header_mid (m prior : MessageHeader)
    (hT : m.m_messageType = MID_MESSAGE) (hm : m.InRange) (size : Nat)
    (hsize : size < 65536) (body : List Nat) :
    prior.Deserialize (m.headerBytes size ++ body) =
      (prior.m_message.mid.Deserialize body (sub32 size OLSR_MSG_HEADER_SIZE)) >>=
        (fun r => Outcome.ok
          ({ m with m_messageSize := size,
                    m_message := { prior.m_message with mid := r.1 } },
           u32 (OLSR_MSG_HEADER_SIZE + r.2.1), r.2.2)) := by
  obtain ⟨hv, ho, ht, hh, hs⟩ := hm
  have h1 : m.m_messageType < 256 := by rw [hT]; decide
  have hA : (decide (m.m_messageType ≥ HELLO_MESSAGE)
      && decide (m.m_messageType ≤ HNA_MESSAGE)) = true := by rw [hT]; decide
  unfold MessageHeader.Deserialize
  rw [MessageHeader.headerBytes]
  simp only [List.append_assoc, ReadU8_WriteU8_lt h1, ReadU8_WriteU8_lt hv,
    ReadU8_WriteU8_lt ht, ReadU8_WriteU8_lt hh, ReadNtohU16_WriteHtonU16_lt hsize,
    ReadNtohU16_WriteHtonU16_lt hs, ReadNtohU32_WriteHtonU32_lt ho, bind_ok, hA,
    NS_ASSERT_true, if_pos hT, pure_eq_ok]

theorem Deserialize_header_hna (m prior : MessageHeader)
    (hT : m.m_messageType = HNA_MESSAGE) (hm : m.InRange) (size : Nat)
    (hsize : size < 65536) (body : List Nat) :
    prior.Deserialize (m.headerBytes size ++ body) =
      (prior.m_message.hna.Deserialize body (sub32 size OLSR_MSG_HEADER_SIZE)) >>=
        (fun r => Outcome.ok
          ({ m with m_messageSize := size,
                    m_message := { prior.m_message with hna := r.1 } },
           u32 (OLSR_MSG_HEADER_SIZE + r.2.1), r.2.2)) := by
  obtain ⟨hv, ho, ht, hh, hs⟩ := hm
  have h1 : m.m_messageType < 256 := by rw [hT]; decide
  have hA : (decide (m.m_messageType ≥ HELLO_MESSAGE)
      && decide (m.m_messageType ≤ HNA_MESSAGE)) = true := by rw [hT]; decide
  have hn1 : ¬ m.m_messageType = MID_MESSAGE := by rw [hT]; decide
  have hn2 : ¬ m.m_messageType = HELLO_MESSAGE := by rw [hT]; decide
  have hn3 : ¬ m.m_messageType = TC_MESSAGE := by rw [hT]; decide
  unfold MessageHeader.Deserialize
  rw [MessageHeader.headerBytes]
  simp only [List.append_assoc, ReadU8_WriteU8_lt h1, ReadU8_WriteU8_lt hv,
    ReadU8_WriteU8_lt ht, ReadU8_WriteU8_lt hh, ReadNtohU16_WriteHtonU16_lt hsize,
    ReadNtohU16_WriteHtonU16_lt hs, ReadNtohU32_WriteHtonU32_lt ho, bind_ok, hA,
    NS_ASSERT_true, if_neg hn1, if_neg hn2, if_neg hn3, if_pos hT, pure_eq_ok]

/-- C10. Dispatch on the type byte: when the first byte of the input is not the code of
HELLO, TC, MID or HNA, `MessageHeader::Deserialize` fails on the type assertion, whatever
follows, so no body decoder runs; when the input is a twelve-byte header (fields `h`, size
field `size`) followed by `body` and the type byte is the code of a kind, the call is the
body decoder of that kind, run on `body` with the length `size - 12`, and it stores that
body only. -/
theorem message_type_dispatch (prior h : MessageHeader) (hr : h.InRange) (size : Nat)
    (hsize : size < 65536) (body : List Nat) (b : Nat) (rest : List Nat) :
    (¬ (b % 256 = HELLO_MESSAGE ∨ b % 256 = TC_MESSAGE ∨ b % 256 = MID_MESSAGE
          ∨ b % 256 = HNA_MESSAGE) →
        prior.Deserialize (b :: rest) = Outcome.fail Fault.assertion)
      ∧ (h.m_messageType = HELLO_MESSAGE →
          prior.Deserialize (h.headerBytes size ++ body) =
            (prior.m_message.hello.Deserialize body (sub32 size OLSR_MSG_HEADER_SIZE)) >>=
              (fun r => Outcome.ok
                ({ h with m_messageSize := size,
                          m_message := { prior.m_message with hello := r.1 } },
                 u32 (OLSR_MSG_HEADER_SIZE + r.2.1), r.2.2)))
      ∧ (h.m_messageType = TC_MESSAGE →
          prior.Deserialize (h.headerBytes size ++ body) =
            (prior.m_message.tc.Deserialize body (sub32 size OLSR_MSG_HEADER_SIZE)) >>=
              (fun r => Outcome.ok
                ({ h with m_messageSize := size,
                          m_message := { prior.m_message with tc := r.1 } },
                 u32 (OLSR_MSG_HEADER_SIZE + r.2.1), r.2.2)))
      ∧ (h.m_messageType = MID_MESSAGE →
          prior.Deserialize (h.headerBytes size ++ body) =
            (prior.m_message.mid.Deserialize body (sub32 size OLSR_MSG_HEADER_SIZE)) >>=
              (fun r => Outcome.ok
                ({ h with m_messageSize := size,
                          m_message := { prior.m_message with mid := r.1 } },
                 u32 (OLSR_MSG_HEADER_SIZE + r.2.1), r.2.2)))
      ∧ (h.m_messageType = HNA_MESSAGE →
          prior.Deserialize (h.headerBytes size ++ body) =
            (prior.m_message.hna.Deserialize body (sub32 size OLSR_MSG_HEADER_SIZE)) >>=
              (fun r => Outcome.ok
                ({ h with m_messageSize := size,
                          m_message := { prior.m_message with hna := r.1 } },
                 u32 (OLSR_MSG_HEADER_SIZE + r.2.1), r.2.2))) := by
  refine ⟨fun hb => ?_, fun hT => ?_, fun hT => ?_, fun hT => ?_, fun hT => ?_⟩
  · apply Deserialize_unsupported_type
    intro hrange
    apply hb
    have h1 : HELLO_MESSAGE = 1 := rfl
    have h2 : TC_MESSAGE = 2 := rfl
    have h3 : MID_MESSAGE = 3 := rfl
    have h4 : HNA_MESSAGE = 4 := rfl
    rw [h1, h4] at hrange
    rw [h1, h2, h3, h4]
    omega
  · exact Deserialize_header_hello h prior hT hr size hsize body
  · exact Deserialize_header_tc h prior hT hr size hsize body
  · exact Deserialize_header_mid h prior hT hr size hsize body
  · exact Deserialize_header_hna h prior hT hr size hsize body

/-- Witness of `message_type_dispatch`: the type byte 0 is refused, and the header of the
scenario TC before its body runs `Tc::Deserialize` on that body with the length 48. -/
theorem message_type_dispatch_witness :
    scenarioTc.InRange ∧ 60 < 65536
      ∧ freshMessage.Deserialize (0 :: scenarioTc.m_message.tc.Serialize)
          = Outcome.fail Fault.assertion
      ∧ freshMessage.Deserialize (scenarioTc.headerBytes 60 ++ scenarioTc.m_message.tc.Serialize)
          = (freshMessage.m_message.tc.Deserialize scenarioTc.m_message.tc.Serialize
                (sub32 60 OLSR_MSG_HEADER_SIZE)) >>=
              (fun r => Outcome.ok
                ({ scenarioTc with m_messageSize := 60,
                                   m_message := { freshMessage.m_message with tc := r.1 } },
                 u32 (OLSR_MSG_HEADER_SIZE + r.2.1), r.2.2)) :=
  ⟨by decide, by decide,
    (message_type_dispatch freshMessage scenarioTc (by decide) 60 (by decide)
      scenarioTc.m_message.tc.Serialize 0 scenarioTc.m_message.tc.Serialize).1 (by decide),
    (message_type_dispatch freshMessage scenarioTc (by decide) 60 (by decide)
      scenarioTc.m_message.tc.Serialize 0 scenarioTc.m_message.tc.Serialize).2.2.1 (by decide)⟩

/-! ## MID and HNA round trips -/

theorem Mid_GetSerializedSize_eq (m : Mid) (h : 4 * m.interfaceAddresses.length < 4294967296) :
    m.GetSerializedSize = 4 * m.interfaceAddresses.length := by
  unfold Mid.GetSerializedSize
  have h4 : IPV4_ADDRESS_SIZE = 4 := rfl
  rw [h4, u32_of_lt (by omega)]
  omega

theorem Hna_GetSerializedSize_eq (m : Hna) (h : 8 * m.associations.length < 4294967296) :
    m.GetSerializedSize = 8 * m.associations.length := by
  unfold Hna.GetSerializedSize
  have h4 : IPV4_ADDRESS_SIZE = 4 := rfl
  rw [h4, u32_of_lt (by omega)]
  omega

theorem Mid_Deserialize_Serialize (m prior : Mid) (hb : m.InRange) (r : List Nat)
    (hsz : 4 * m.interfaceAddresses.length < 4294967296) :
    prior.Deserialize (m.Serialize ++ r) (4 * m.interfaceAddresses.length)
      = Outcome.ok (m, 4 * m.interfaceAddresses.length, r) := by
  have hmod : (4 * m.interfaceAddresses.length % IPV4_ADDRESS_SIZE == 0) = true := by
    simp [IPV4_ADDRESS_SIZE]
  have hdiv : 4 * m.interfaceAddresses.length / IPV4_ADDRESS_SIZE
      = m.interfaceAddresses.length := by
    simp [IPV4_ADDRESS_SIZE]
  have hG : Mid.GetSerializedSize { interfaceAddresses := m.interfaceAddresses }
      = 4 * m.interfaceAddresses.length := Mid_GetSerializedSize_eq _ hsz
  unfold Mid.Deserialize Mid.Serialize
  simp only [hmod, hdiv, NS_ASSERT_true, bind_ok, readAddresses_writeAddresses _ hb,
    List.nil_append, pure_eq_ok, hG]

theorem readAssociations_writeAssociations (l : List Association)
    (hl : ∀ a ∈ l, a.address < 4294967296 ∧ a.mask < 4294967296) :
    ∀ (v : List Association) (r : List Nat),
      readAssociations l.length v (writeAssociations l ++ r) = Outcome.ok (v ++ l, r) := by
  induction l with
  | nil => intro v r; simp [readAssociations, writeAssociations]
  | cons a rest ih =>
    intro v r
    obtain ⟨ha, hk⟩ := hl a (List.mem_cons_self a rest)
    have hrest : ∀ b ∈ rest, b.address < 4294967296 ∧ b.mask < 4294967296 :=
      fun b hb => hl b (List.mem_cons_of_mem a hb)
    simp only [List.length_cons, readAssociations, writeAssociations, List.append_assoc,
      ReadNtohU32_WriteHtonU32_lt ha, ReadNtohU32_WriteHtonU32_lt hk, bind_ok]
    rw [ih hrest]
    simp

theorem Hna_Deserialize_Serialize (m prior : Hna) (hb : m.InRange) (r : List Nat) :
    prior.Deserialize (m.Serialize ++ r) (8 * m.associations.length)
      = Outcome.ok (m, 8 * m.associations.length, r) := by
  have hmod : (8 * m.associations.length % (IPV4_ADDRESS_SIZE * 2) == 0) = true := by
    simp [IPV4_ADDRESS_SIZE]
  have hdiv : 8 * m.associations.length / IPV4_ADDRESS_SIZE / 2 = m.associations.length := by
    simp only [IPV4_ADDRESS_SIZE]; omega
  unfold Hna.Deserialize Hna.Serialize
  simp only [hmod, hdiv, NS_ASSERT_true, bind_ok, readAssociations_writeAssociations _ hb,
    List.nil_append, pure_eq_ok]

theorem mid_Serialize_eq (m : MessageHeader) (hT : m.m_messageType = MID_MESSAGE) :
    m.Serialize = Outcome.ok
      (m.headerBytes (u32 (OLSR_MSG_HEADER_SIZE + m.m_message.mid.GetSerializedSize))
        ++ m.m_message.mid.Serialize) := by
  unfold MessageHeader.Serialize MessageHeader.GetSerializedSize
  rw [MessageHeader.headerBytes, hT]
  simp only [bind_ok, pure_eq_ok, if_true]

theorem hna_Serialize_eq (m : MessageHeader) (hT : m.m_messageType = HNA_MESSAGE) :
    m.Serialize = Outcome.ok
      (m.headerBytes (u32 (OLSR_MSG_HEADER_SIZE + m.m_message.hna.GetSerializedSize))
        ++ m.m_message.hna.Serialize) := by
  unfold MessageHeader.Serialize MessageHeader.GetSerializedSize
  rw [MessageHeader.headerBytes, hT]
  simp only [bind_ok, pure_eq_ok, if_neg (show ¬ HNA_MESSAGE = MID_MESSAGE by decide),
    if_neg (show ¬ HNA_MESSAGE = HELLO_MESSAGE by decide),
    if_neg (show ¬ HNA_MESSAGE = TC_MESSAGE by decide), if_true]

/-- C11. HNA round trip: for an HNA message with `k` associations whose header fields,
addresses and masks hold values of their C++ types and with `12 + 8k <= 65535`,
`MessageHeader::Serialize` returns and `MessageHeader::Deserialize`, run on the bytes
written (from any prior message object), returns the same header fields and the same
sequence of (address, mask) pairs in the same order; the size it returns is `12 + 8k`
and no byte is left unread. -/
theorem hna_round_trip (m prior : MessageHeader) (hT : m.m_messageType = HNA_MESSAGE)
    (hm : m.InRange) (hb : m.m_message.hna.InRange)
    (hsz : 12 + 8 * m.m_message.hna.associations.length ≤ 65535) :
    ∃ bytes, m.Serialize = Outcome.ok bytes ∧
      prior.Deserialize bytes = Outcome.ok
        ({ m with
            m_messageSize := 12 + 8 * m.m_message.hna.associations.length,
            m_message := { prior.m_message with hna := m.m_message.hna } },
         12 + 8 * m.m_message.hna.associations.length, []) := by
  have hG := Hna_GetSerializedSize_eq m.m_message.hna (by omega)
  have hbody := Hna_Deserialize_Serialize m.m_message.hna prior.m_message.hna hb []
  rw [List.append_nil] at hbody
  have h12 : OLSR_MSG_HEADER_SIZE = 12 := rfl
  have hS : u32 (OLSR_MSG_HEADER_SIZE + m.m_message.hna.GetSerializedSize)
      = 12 + 8 * m.m_message.hna.associations.length := by
    rw [hG, h12, u32_of_lt (by omega)]
  have hlen : sub32 (12 + 8 * m.m_message.hna.associations.length) OLSR_MSG_HEADER_SIZE
      = 8 * m.m_message.hna.associations.length := by
    rw [h12, sub32_of_le (by omega) (by omega)]; omega
  have hret : u32 (OLSR_MSG_HEADER_SIZE + 8 * m.m_message.hna.associations.length)
      = 12 + 8 * m.m_message.hna.associations.length := by
    rw [h12, u32_of_lt (by omega)]
  refine ⟨_, hna_Serialize_eq m hT, ?_⟩
  rw [hS, Deserialize_header_hna m prior hT hm _ (by omega), hlen, hbody, bind_ok, hret]

/-- Witness of `hna_round_trip`: the sample HNA message, decoded into a used object. -/
theorem hna_round_trip_witness :
    sampleHna.InRange ∧ sampleHna.m_message.hna.InRange ∧
    ∃ bytes, sampleHna.Serialize = Outcome.ok bytes ∧
      priorMessage.Deserialize bytes = Outcome.ok
        ({ sampleHna with
            m_messageSize := 12 + 8 * sampleHna.m_message.hna.associations.length,
            m_message := { priorMessage.m_message with hna := sampleHna.m_message.hna } },
         12 + 8 * sampleHna.m_message.hna.associations.length, []) :=
  ⟨by decide, by decide,
   hna_round_trip sampleHna priorMessage rfl (by decide) (by decide) (by decide)⟩

/-- C12. MID round trip: for a MID message with `k` interface addresses whose header
fields and addresses hold values of their C++ types and with `12 + 4k <= 65535`,
`MessageHeader::Serialize` returns and `MessageHeader::Deserialize`, run on the bytes
written (from any prior message object), returns the same header fields and the same
sequence of interface addresses in the same order; the size it returns is `12 + 4k` and
no byte is left unread. -/
theorem mid_round_trip (m prior : MessageHeader) (hT : m.m_messageType = MID_MESSAGE)
    (hm : m.InRange) (hb : m.m_message.mid.InRange)
    (hsz : 12 + 4 * m.m_message.mid.interfaceAddresses.length ≤ 65535) :
    ∃ bytes, m.Serialize = Outcome.ok bytes ∧
      prior.Deserialize bytes = Outcome.ok
        ({ m with
            m_messageSize := 12 + 4 * m.m_message.mid.interfaceAddresses.length,
            m_message := { prior.m_message with mid := m.m_message.mid } },
         12 + 4 * m.m_message.mid.interfaceAddresses.length, []) := by
  have hG := Mid_GetSerializedSize_eq m.m_message.mid (by omega)
  have hbody := Mid_Deserialize_Serialize m.m_message.mid prior.m_message.mid hb []
    (by omega)
  rw [List.append_nil] at hbody
  have h12 : OLSR_MSG_HEADER_SIZE = 12 := rfl
  have hS : u32 (OLSR_MSG_HEADER_SIZE + m.m_message.mid.GetSerializedSize)
      = 12 + 4 * m.m_message.mid.interfaceAddresses.length := by
    rw [hG, h12, u32_of_lt (by omega)]
  have hlen : sub32 (12 + 4 * m.m_message.mid.interfaceAddresses.length) OLSR_MSG_HEADER_SIZE
      = 4 * m.m_message.mid.interfaceAddresses.length := by
    rw [h12, sub32_of_le (by omega) (by omega)]; omega
  have hret : u32 (OLSR_MSG_HEADER_SIZE + 4 * m.m_message.mid.interfaceAddresses.length)
      = 12 + 4 * m.m_message.mid.interfaceAddresses.length := by
    rw [h12, u32_of_lt (by omega)]
  refine ⟨_, mid_Serialize_eq m hT, ?_⟩
  rw [hS, Deserialize_header_mid m prior hT hm _ (by omega), hlen, hbody, bind_ok, hret]

/-- Witness of `mid_round_trip`: the sample MID message, decoded into a used object. -/
theorem mid_round_trip_witness :
    sampleMid.InRange ∧ sampleMid.m_message.mid.InRange ∧
    ∃ bytes, sampleMid.Serialize = Outcome.ok bytes ∧
      priorMessage.Deserialize bytes = Outcome.ok
        ({ sampleMid with
            m_messageSize := 12 + 4 * sampleMid.m_message.mid.interfaceAddresses.length,
            m_message := { priorMessage.m_message with mid := sampleMid.m_message.mid } },
         12 + 4 * sampleMid.m_message.mid.interfaceAddresses.length, []) :=
  ⟨by decide, by decide,
   mid_round_trip sampleMid priorMessage rfl (by decide) (by decide) (by decide)⟩

/-! ## Time encoding -/

/-- The byte `(a << 4) | b` of two nibbles gives the nibbles back. -/
theorem nibbles_of_byte :
    ∀ a < 16, ∀ b < 16, (a <<< 4 ||| b) % 256 = a * 16 + b
      ∧ ((a <<< 4 ||| b) % 256) >>> 4 = a ∧ ((a <<< 4 ||| b) % 256) &&& 15 = b
      ∧ (a <<< 4 ||| b) % 256 = a <<< 4 ||| b := by
  decide

theorem EmfToSeconds_eq (code : Nat) :
    EmfToSeconds code = OLSR_C * (1 + ((code / 16 : Nat) : ℚ) / 16) * 2 ^ (code % 16) := by
  unfold EmfToSeconds
  have h1 : code >>> 4 = code / 16 := by rw [Nat.shiftRight_eq_div_pow]
  have h2 : code &&& 15 = code % 16 := Nat.and_pow_two_sub_one_eq_mod code 4
  simp only [h1, h2]

/-- C16. Anchor values of the time encoding: `SecondsToEmf(0.0625)` returns the byte
`0x00`, and `EmfToSeconds(0x00)` is `0.0625`. -/
theorem emf_anchor_values :
    SecondsToEmf (1 / 16) = Outcome.ok 0 ∧ EmfToSeconds 0 = 1 / 16 := by
  constructor
  · have hq : (1 / 16 : ℚ) / OLSR_C = 1 := by norm_num [OLSR_C]
    have hs : SecondsToEmf.search (1 / 16) 31 1 = Outcome.ok 1 := by
      norm_num [SecondsToEmf.search, shiftOne, bind_ok, pure_eq_ok, hq]
    have hc : ⌈(-(1 / 2) : ℚ)⌉ = 0 := by
      rw [Int.ceil_eq_iff]; norm_num
    have h0 : ¬ (1 / 16 : ℚ) < OLSR_C := by norm_num [OLSR_C]
    unfold SecondsToEmf
    simp only [if_neg h0, hs, bind_ok]
    norm_num [shiftOne, bind_ok, pure_eq_ok, OLSR_C, NS_ASSERT_true, hc]
  · rw [EmfToSeconds_eq]; norm_num [OLSR_C]

/-- C15. Clamp of the time encoding: for every `s < 0.0625`, zero and negative values
included, `SecondsToEmf(s)` is `SecondsToEmf(0.0625)`. -/
theorem emf_clamp (s : ℚ) (h : s < 1 / 16) : SecondsToEmf s = SecondsToEmf (1 / 16) := by
  have h1 : s < OLSR_C := by simpa [OLSR_C] using h
  have h2 : ¬ (1 / 16 : ℚ) < OLSR_C := by norm_num [OLSR_C]
  have e1 : (if s < OLSR_C then OLSR_C else s) = 1 / 16 := by rw [if_pos h1]; rfl
  have e2 : (if (1 / 16 : ℚ) < OLSR_C then OLSR_C else 1 / 16) = 1 / 16 := if_neg h2
  unfold SecondsToEmf
  simp only [e1, e2]

/-- Witness of `emf_clamp`: a negative number of seconds. -/
theorem emf_clamp_witness :
    (-3 : ℚ) < 1 / 16 ∧ SecondsToEmf (-3) = SecondsToEmf (1 / 16) :=
  ⟨by norm_num, emf_clamp (-3) (by norm_num)⟩

/-- C17. Time decoding formula: for every code, `EmfToSeconds(code)` is
`0.0625 * (1 + a/16) * 2^b` with `a = code >> 4`, the high nibble `code / 16`, and
`b = code & 0xF`, the low nibble `code % 16`; for a byte this is the quotient by 256 of
the integer `(16 + a) * 2^b`, which is below `2^20`, so that the value and every
intermediate product are `double`s and no rounding takes place. -/
theorem emf_decoding_formula (code : Nat) :
    code >>> 4 = code / 16 ∧ code &&& 15 = code % 16
      ∧ EmfToSeconds code = (1 / 16 : ℚ) * (1 + ((code / 16 : Nat) : ℚ) / 16) * 2 ^ (code % 16)
      ∧ EmfToSeconds code = (((16 + code / 16) * 2 ^ (code % 16) : Nat) : ℚ) / 256
      ∧ (code < 256 → (16 + code / 16) * 2 ^ (code % 16) < 2 ^ 20) := by
  refine ⟨by rw [Nat.shiftRight_eq_div_pow], Nat.and_pow_two_sub_one_eq_mod code 4,
    ?_, ?_, ?_⟩
  · rw [EmfToSeconds_eq]; rfl
  · rw [EmfToSeconds_eq]
    simp only [OLSR_C]
    push_cast
    ring
  · intro h
    have h1 : code / 16 < 16 := by omega
    have h2 : code % 16 < 16 := by omega
    have h3 : 2 ^ (code % 16) ≤ 2 ^ 15 := Nat.pow_le_pow_right (by decide) (by omega)
    calc (16 + code / 16) * 2 ^ (code % 16) ≤ 31 * 2 ^ 15 :=
          Nat.mul_le_mul (by omega) h3
      _ < 2 ^ 20 := by norm_num

theorem shiftOne_eq {b : Nat} (h : b < 31) : shiftOne b = Outcome.ok (2 ^ b) := by
  unfold shiftOne
  rw [if_pos h]

/-- The exponent search stops at `k + 1` when `2^k ≤ seconds / OLSR_C < 2^(k+1)`. -/
theorem search_eq (seconds : ℚ) (k : Nat) (hk : k ≤ 29)
    (hlo : (2 : ℚ) ^ k ≤ seconds / OLSR_C) (hhi : seconds / OLSR_C < 2 ^ (k + 1)) :
    ∀ (fuel b : Nat), 1 ≤ b → b ≤ k + 1 → k + 2 ≤ b + fuel →
      SecondsToEmf.search seconds fuel b = Outcome.ok (k + 1) := by
  intro fuel
  induction fuel with
  | zero => intro b _ h2 h3; omega
  | succ f ih =>
    intro b h1 h2 h3
    unfold SecondsToEmf.search
    rw [shiftOne_eq (by omega), bind_ok]
    by_cases hb : b = k + 1
    · subst hb
      have hn : ¬ seconds / OLSR_C ≥ (((2 : Int) ^ (k + 1) : Int) : ℚ) := by
        push_cast; exact not_le.mpr hhi
      rw [if_neg hn]; rfl
    · have hp : seconds / OLSR_C ≥ (((2 : Int) ^ b : Int) : ℚ) := by
        push_cast
        calc (2 : ℚ) ^ b ≤ 2 ^ k := pow_le_pow_right₀ (by norm_num) (by omega)
          _ ≤ seconds / OLSR_C := hlo
      rw [if_pos hp]
      exact ih (b + 1) (by omega) (by omega) (by omega)

/-- `SecondsToEmf` after the exponent search: what is left are the carry and the two
range assertions. -/
theorem SecondsToEmf_of_exponent (seconds : ℚ) (k : Nat) (hs : ¬ seconds < OLSR_C)
    (hk : k ≤ 29) (hlo : (2 : ℚ) ^ k ≤ seconds / OLSR_C)
    (hhi : seconds / OLSR_C < 2 ^ (k + 1)) :
    SecondsToEmf seconds =
      (NS_ASSERT (decide ((if SecondsToEmf.mantissa seconds k = 16 then ((0 : Int), k + 1)
            else (SecondsToEmf.mantissa seconds k, k)).1 ≥ 0)
          && decide ((if SecondsToEmf.mantissa seconds k = 16 then ((0 : Int), k + 1)
            else (SecondsToEmf.mantissa seconds k, k)).1 < 16)) >>= fun _ =>
        NS_ASSERT (decide ((if SecondsToEmf.mantissa seconds k = 16 then ((0 : Int), k + 1)
            else (SecondsToEmf.mantissa seconds k, k)).2 < 16)) >>= fun _ =>
        Outcome.ok
          (((if SecondsToEmf.mantissa seconds k = 16 then ((0 : Int), k + 1)
              else (SecondsToEmf.mantissa seconds k, k)).1.toNat <<< 4
            ||| (if SecondsToEmf.mantissa seconds k = 16 then ((0 : Int), k + 1)
              else (SecondsToEmf.mantissa seconds k, k)).2) % 256)) := by
  have hsearch := search_eq seconds k hk hlo hhi 31 1 (by omega) (by omega) (by omega)
  have hA1 : decide (seconds / OLSR_C < (((2 : Int) ^ (k + 1) : Int) : ℚ)) = true := by
    apply decide_eq_true; push_cast; exact hhi
  have hA2 : decide (seconds / OLSR_C ≥ (((2 : Int) ^ k : Int) : ℚ)) = true := by
    apply decide_eq_true; push_cast; exact hlo
  have hsub : k + 1 - 1 = k := rfl
  unfold SecondsToEmf
  simp only [if_neg hs]
  rw [hsearch, bind_ok, shiftOne_eq (by omega), bind_ok, hA1, NS_ASSERT_true, bind_ok, hsub,
    shiftOne_eq (by omega), bind_ok, hA2, NS_ASSERT_true, bind_ok]
  rfl

/-- The scaled seconds `t = 16 * (seconds / (OLSR_C * 2^k) - 1)` lie in `[0, 16)` when `k`
is the exponent of `seconds / OLSR_C`. -/
theorem scaled_bounds (seconds : ℚ) (k : Nat) (hlo : (2 : ℚ) ^ k ≤ seconds / OLSR_C)
    (hhi : seconds / OLSR_C < 2 ^ (k + 1)) :
    0 ≤ 16 * (seconds / (OLSR_C * (((2 : Int) ^ k : Int) : ℚ)) - 1)
      ∧ 16 * (seconds / (OLSR_C * (((2 : Int) ^ k : Int) : ℚ)) - 1) < 16 := by
  have hp : (0 : ℚ) < 2 ^ k := by positivity
  have he : seconds / (OLSR_C * (((2 : Int) ^ k : Int) : ℚ)) = seconds / OLSR_C / 2 ^ k := by
    push_cast; rw [div_div]
  rw [he]
  have h1 : 1 ≤ seconds / OLSR_C / 2 ^ k := by
    rw [le_div_iff₀ hp]; simpa using hlo
  have h2 : seconds / OLSR_C / 2 ^ k < 2 := by
    rw [div_lt_iff₀ hp]
    calc seconds / OLSR_C < 2 ^ (k + 1) := hhi
      _ = 2 * 2 ^ k := by ring
  constructor <;> linarith

/-- The mantissa is the scaled seconds rounded to the nearest integer, a half going to
the integer below; it lies in `[0, 16]`. -/
theorem mantissa_spec (seconds : ℚ) (k : Nat) (hlo : (2 : ℚ) ^ k ≤ seconds / OLSR_C)
    (hhi : seconds / OLSR_C < 2 ^ (k + 1)) :
    ((SecondsToEmf.mantissa seconds k : Int) : ℚ) - 1 / 2
        < 16 * (seconds / (OLSR_C * (((2 : Int) ^ k : Int) : ℚ)) - 1)
      ∧ 16 * (seconds / (OLSR_C * (((2 : Int) ^ k : Int) : ℚ)) - 1)
        ≤ ((SecondsToEmf.mantissa seconds k : Int) : ℚ) + 1 / 2
      ∧ 0 ≤ SecondsToEmf.mantissa seconds k ∧ SecondsToEmf.mantissa seconds k ≤ 16 := by
  obtain ⟨h0, h16⟩ := scaled_bounds seconds k hlo hhi
  unfold SecondsToEmf.mantissa
  generalize 16 * (seconds / (OLSR_C * (((2 : Int) ^ k : Int) : ℚ)) - 1) = t at h0 h16 ⊢
  have hc1 := Int.ceil_lt_add_one (t - 1 / 2)
  have hc2 := Int.le_ceil (t - 1 / 2)
  have hn : (-1 : Int) < ⌈t - 1 / 2⌉ := by
    rw [Int.lt_ceil]; push_cast; linarith
  have hu : ⌈t - 1 / 2⌉ ≤ 16 := by
    rw [Int.ceil_le]; push_cast; linarith
  refine ⟨by linarith, by linarith, by omega, hu⟩

/-- Every quotient `seconds / OLSR_C ≥ 1` has an exponent. -/
theorem exists_exponent (x : ℚ) (h1 : 1 ≤ x) : ∃ k : Nat, (2 : ℚ) ^ k ≤ x ∧ x < 2 ^ (k + 1) := by
  have hf : 1 ≤ ⌊x⌋₊ := Nat.le_floor (by simpa using h1)
  refine ⟨Nat.log 2 ⌊x⌋₊, ?_, ?_⟩
  · have h := Nat.pow_log_le_self 2 (show ⌊x⌋₊ ≠ 0 by omega)
    calc (2 : ℚ) ^ Nat.log 2 ⌊x⌋₊ = ((2 ^ Nat.log 2 ⌊x⌋₊ : Nat) : ℚ) := by push_cast; rfl
      _ ≤ (⌊x⌋₊ : ℚ) := by exact_mod_cast h
      _ ≤ x := Nat.floor_le (by linarith)
  · have h := Nat.lt_pow_succ_log_self (show 1 < 2 by decide) ⌊x⌋₊
    have h' : ⌊x⌋₊ + 1 ≤ 2 ^ (Nat.log 2 ⌊x⌋₊ + 1) := h
    calc x < (⌊x⌋₊ : ℚ) + 1 := Nat.lt_floor_add_one x
      _ = ((⌊x⌋₊ + 1 : Nat) : ℚ) := by push_cast; rfl
      _ ≤ ((2 ^ (Nat.log 2 ⌊x⌋₊ + 1) : Nat) : ℚ) := by exact_mod_cast h'
      _ = 2 ^ (Nat.log 2 ⌊x⌋₊ + 1) := by push_cast; rfl

/-- The exponent search leaves the range of `int` when `seconds / OLSR_C ≥ 2^30`. -/
theorem search_fail (seconds : ℚ) (h : (2 : ℚ) ^ 30 ≤ seconds / OLSR_C) :
    ∀ (fuel b : Nat), 1 ≤ b → b + fuel = 32 →
      SecondsToEmf.search seconds fuel b = Outcome.fail Fault.shiftRange := by
  intro fuel
  induction fuel with
  | zero => intro b _ _; rfl
  | succ f ih =>
    intro b h1 h2
    unfold SecondsToEmf.search
    by_cases hb : b < 31
    · rw [shiftOne_eq hb, bind_ok]
      have hp : seconds / OLSR_C ≥ (((2 : Int) ^ b : Int) : ℚ) := by
        push_cast
        calc (2 : ℚ) ^ b ≤ 2 ^ 30 := pow_le_pow_right₀ (by norm_num) (by omega)
          _ ≤ seconds / OLSR_C := h
      rw [if_pos hp]
      exact ih (b + 1) (by omega) (by omega)
    · unfold shiftOne
      rw [if_neg hb, bind_fail]

theorem SecondsToEmf_no_carry (seconds : ℚ) (k : Nat) (hs : ¬ seconds < OLSR_C)
    (hk : k ≤ 15) (hlo : (2 : ℚ) ^ k ≤ seconds / OLSR_C)
    (hhi : seconds / OLSR_C < 2 ^ (k + 1)) (ha : SecondsToEmf.mantissa seconds k ≠ 16) :
    SecondsToEmf seconds = Outcome.ok ((SecondsToEmf.mantissa seconds k).toNat * 16 + k) := by
  obtain ⟨_, _, h0, h16⟩ := mantissa_spec seconds k hlo hhi
  have hlt : (SecondsToEmf.mantissa seconds k).toNat < 16 := by omega
  have hA1 : (decide (SecondsToEmf.mantissa seconds k ≥ 0)
      && decide (SecondsToEmf.mantissa seconds k < 16)) = true := by
    rw [decide_eq_true h0, decide_eq_true (show SecondsToEmf.mantissa seconds k < 16 by omega)]
    rfl
  have hA2 : decide (k < 16) = true := decide_eq_true (by omega)
  rw [SecondsToEmf_of_exponent seconds k hs (by omega) hlo hhi]
  simp only [if_neg ha, hA1, hA2, NS_ASSERT_true, bind_ok]
  rw [(nibbles_of_byte _ hlt k (by omega)).1]

theorem SecondsToEmf_carry (seconds : ℚ) (k : Nat) (hs : ¬ seconds < OLSR_C)
    (hk : k ≤ 14) (hlo : (2 : ℚ) ^ k ≤ seconds / OLSR_C)
    (hhi : seconds / OLSR_C < 2 ^ (k + 1)) (ha : SecondsToEmf.mantissa seconds k = 16) :
    SecondsToEmf seconds = Outcome.ok (k + 1) := by
  have hA1 : (decide ((0 : Int) ≥ 0) && decide ((0 : Int) < 16)) = true := by decide
  have hA2 : decide (k + 1 < 16) = true := decide_eq_true (by omega)
  rw [SecondsToEmf_of_exponent seconds k hs (by omega) hlo hhi]
  simp only [if_pos ha, hA1, hA2, NS_ASSERT_true, bind_ok]
  have h := (nibbles_of_byte 0 (by decide) (k + 1) (by omega)).1
  simpa using h

theorem SecondsToEmf_fail_exponent (seconds : ℚ) (k : Nat) (hs : ¬ seconds < OLSR_C)
    (hk : k ≤ 29) (hlo : (2 : ℚ) ^ k ≤ seconds / OLSR_C)
    (hhi : seconds / OLSR_C < 2 ^ (k + 1))
    (h : (SecondsToEmf.mantissa seconds k ≠ 16 ∧ 16 ≤ k)
      ∨ (SecondsToEmf.mantissa seconds k = 16 ∧ 15 ≤ k)) :
    SecondsToEmf seconds = Outcome.fail Fault.assertion := by
  obtain ⟨_, _, h0, h16⟩ := mantissa_spec seconds k hlo hhi
  rw [SecondsToEmf_of_exponent seconds k hs hk hlo hhi]
  rcases h with ⟨ha, hk2⟩ | ⟨ha, hk2⟩
  · have hA1 : (decide (SecondsToEmf.mantissa seconds k ≥ 0)
        && decide (SecondsToEmf.mantissa seconds k < 16)) = true := by
      rw [decide_eq_true h0,
        decide_eq_true (show SecondsToEmf.mantissa seconds k < 16 by omega)]
      rfl
    have hA2 : decide (k < 16) = false := decide_eq_false (by omega)
    simp only [if_neg ha, hA1, hA2, NS_ASSERT_true, NS_ASSERT_false, bind_ok, bind_fail]
  · have hA1 : (decide ((0 : Int) ≥ 0) && decide ((0 : Int) < 16)) = true := by decide
    have hA2 : decide (k + 1 < 16) = false := decide_eq_false (by omega)
    simp only [if_pos ha, hA1, hA2, NS_ASSERT_true, NS_ASSERT_false, bind_ok, bind_fail]

theorem SecondsToEmf_fail_shift (seconds : ℚ) (hs : ¬ seconds < OLSR_C)
    (h : (2 : ℚ) ^ 30 ≤ seconds / OLSR_C) :
    SecondsToEmf seconds = Outcome.fail Fault.shiftRange := by
  unfold SecondsToEmf
  simp only [if_neg hs]
  rw [search_fail seconds h 31 1 (by omega) (by omega), bind_fail]

/-- `SecondsToEmf` is `SecondsToEmf.nibbles` followed by the two range assertions and the
packing of the byte. -/
theorem SecondsToEmf_eq_nibbles (seconds : ℚ) :
    SecondsToEmf seconds =
      SecondsToEmf.nibbles seconds >>= fun r =>
        NS_ASSERT (decide (r.1 ≥ 0) && decide (r.1 < 16)) >>= fun _ =>
        NS_ASSERT (decide (r.2 < 16)) >>= fun _ =>
        Outcome.ok ((r.1.toNat <<< 4 ||| r.2) % 256) := by
  unfold SecondsToEmf SecondsToEmf.nibbles
  generalize (if seconds < OLSR_C then OLSR_C else seconds) = c
  dsimp only
  cases SecondsToEmf.search c 31 1 with
  | fail f => rfl
  | ok b =>
    rw [bind_ok, bind_ok]
    cases shiftOne b with
    | fail f => rfl
    | ok p =>
      rw [bind_ok, bind_ok]
      cases NS_ASSERT (decide (c / OLSR_C < (p : ℚ))) with
      | fail f => rfl
      | ok u =>
        rw [bind_ok, bind_ok]
        cases shiftOne (b - 1) with
        | fail f => rfl
        | ok q =>
          rw [bind_ok, bind_ok]
          cases NS_ASSERT (decide (c / OLSR_C ≥ (q : ℚ))) with
          | fail f => rfl
          | ok u2 =>
            rw [bind_ok, bind_ok]
            rfl

theorem nibbles_of_exponent (seconds : ℚ) (k : Nat) (hs : ¬ seconds < OLSR_C)
    (hk : k ≤ 29) (hlo : (2 : ℚ) ^ k ≤ seconds / OLSR_C)
    (hhi : seconds / OLSR_C < 2 ^ (k + 1)) :
    SecondsToEmf.nibbles seconds =
      Outcome.ok (if SecondsToEmf.mantissa seconds k = 16 then ((0 : Int), k + 1)
        else (SecondsToEmf.mantissa seconds k, k)) := by
  have hsearch := search_eq seconds k hk hlo hhi 31 1 (by omega) (by omega) (by omega)
  have hA1 : decide (seconds / OLSR_C < (((2 : Int) ^ (k + 1) : Int) : ℚ)) = true := by
    apply decide_eq_true; push_cast; exact hhi
  have hA2 : decide (seconds / OLSR_C ≥ (((2 : Int) ^ k : Int) : ℚ)) = true := by
    apply decide_eq_true; push_cast; exact hlo
  have hsub : k + 1 - 1 = k := rfl
  unfold SecondsToEmf.nibbles
  simp only [if_neg hs]
  rw [hsearch, bind_ok, shiftOne_eq (by omega), bind_ok, hA1, NS_ASSERT_true, bind_ok, hsub,
    shiftOne_eq (by omega), bind_ok, hA2, NS_ASSERT_true, bind_ok]
  rfl

theorem mantissa_spec_quotient (seconds : ℚ) (k : Nat)
    (hlo : (2 : ℚ) ^ k ≤ seconds / OLSR_C) (hhi : seconds / OLSR_C < 2 ^ (k + 1)) :
    ((SecondsToEmf.mantissa seconds k : Int) : ℚ) - 1 / 2
        < 16 * (seconds / OLSR_C / 2 ^ k - 1)
      ∧ 16 * (seconds / OLSR_C / 2 ^ k - 1)
        ≤ ((SecondsToEmf.mantissa seconds k : Int) : ℚ) + 1 / 2
      ∧ 0 ≤ SecondsToEmf.mantissa seconds k ∧ SecondsToEmf.mantissa seconds k ≤ 16 := by
  have he : seconds / (OLSR_C * (((2 : Int) ^ k : Int) : ℚ)) = seconds / OLSR_C / 2 ^ k := by
    push_cast; rw [div_div]
  have h := mantissa_spec seconds k hlo hhi
  rw [he] at h
  exact h

/-- After the clamp the seconds are at least `OLSR_C`, and the clamp does not change
the result. -/
theorem clamp_facts (s : ℚ) :
    ¬ (if s < OLSR_C then OLSR_C else s) < OLSR_C
      ∧ SecondsToEmf s = SecondsToEmf (if s < OLSR_C then OLSR_C else s)
      ∧ SecondsToEmf.nibbles s = SecondsToEmf.nibbles (if s < OLSR_C then OLSR_C else s) := by
  by_cases h : s < OLSR_C
  · have h2 : ¬ OLSR_C < OLSR_C := lt_irrefl _
    rw [if_pos h]
    refine ⟨h2, ?_, ?_⟩
    · unfold SecondsToEmf; simp only [if_pos h, if_neg h2]
    · unfold SecondsToEmf.nibbles; simp only [if_pos h, if_neg h2]
  · rw [if_neg h]
    exact ⟨h, rfl, rfl⟩

/-- For seconds that are at least `OLSR_C`: the two nibbles are in range, and the byte is
returned, exactly up to 4032 seconds. -/
theorem emf_range_of_ge (s : ℚ) (hs : ¬ s < OLSR_C) :
    (∃ (a : Int) (b : Nat), SecondsToEmf.nibbles s = Outcome.ok (a, b) ∧ 0 ≤ a ∧ a < 16
        ∧ b < 16 ∧ SecondsToEmf s = Outcome.ok (a.toNat <<< 4 ||| b)) ↔ s ≤ 4032 := by
  have hC : OLSR_C = 1 / 16 := rfl
  have hx1 : 1 ≤ s / OLSR_C := by
    rw [hC] at hs ⊢
    have : (1 : ℚ) / 16 ≤ s := not_lt.mp hs
    linarith
  obtain ⟨k, hlo, hhi⟩ := exists_exponent (s / OLSR_C) hx1
  obtain ⟨hm1, hm2, hm0, hm16⟩ := mantissa_spec_quotient s k hlo hhi
  constructor
  · rintro ⟨a, b, -, -, -, -, hok⟩
    by_contra hgt
    have hgt' : 4032 < s := not_le.mp hgt
    have hx : 64512 < s / OLSR_C := by rw [hC]; linarith
    have hfail : ∃ f, SecondsToEmf s = Outcome.fail f := by
      by_cases hk30 : 30 ≤ k
      · refine ⟨_, SecondsToEmf_fail_shift s hs ?_⟩
        calc (2 : ℚ) ^ 30 ≤ 2 ^ k := pow_le_pow_right₀ (by norm_num) hk30
          _ ≤ s / OLSR_C := hlo
      · refine ⟨_, SecondsToEmf_fail_exponent s k hs (by omega) hlo hhi ?_⟩
        have hk15 : 15 ≤ k := by
          by_contra hlt
          have : (2 : ℚ) ^ (k + 1) ≤ 2 ^ 15 := pow_le_pow_right₀ (by norm_num) (by omega)
          norm_num at this
          linarith
        by_cases ha : SecondsToEmf.mantissa s k = 16
        · exact Or.inr ⟨ha, hk15⟩
        · left
          refine ⟨ha, ?_⟩
          by_contra hlt
          have hk : k = 15 := by omega
          subst hk
          norm_num at hm2
          have h15 : ((SecondsToEmf.mantissa s 15 : Int) : ℚ) > 15 := by linarith
          have : (15 : Int) < SecondsToEmf.mantissa s 15 := by exact_mod_cast h15
          omega
    obtain ⟨f, hf⟩ := hfail
    rw [hf] at hok
    cases hok
  · intro hle
    have hx : s / OLSR_C ≤ 64512 := by rw [hC]; linarith
    have hk15 : k ≤ 15 := by
      by_contra hgt
      have : (2 : ℚ) ^ 16 ≤ 2 ^ k := pow_le_pow_right₀ (by norm_num) (by omega)
      norm_num at this
      linarith
    by_cases ha : SecondsToEmf.mantissa s k = 16
    · have hk14 : k ≤ 14 := by
        by_contra hgt
        have hk : k = 15 := by omega
        subst hk
        rw [ha] at hm1
        norm_num at hm1
        linarith
      refine ⟨0, k + 1, ?_, le_refl _, by decide, by omega, ?_⟩
      · rw [nibbles_of_exponent s k hs (by omega) hlo hhi, if_pos ha]
      · rw [SecondsToEmf_carry s k hs hk14 hlo hhi ha]
        simp
    · have hlt : (SecondsToEmf.mantissa s k).toNat < 16 := by omega
      refine ⟨SecondsToEmf.mantissa s k, k, ?_, hm0, by omega, by omega, ?_⟩
      · rw [nibbles_of_exponent s k hs (by omega) hlo hhi, if_neg ha]
      · rw [SecondsToEmf_no_carry s k hs hk15 hlo hhi ha]
        have h := nibbles_of_byte _ hlt k (by omega)
        rw [← h.2.2.2, h.1]

/-- C14 as the code has it. Time-encoding range: the mantissa `a` and the exponent `b`
that `SecondsToEmf` computes lie in `[0,16)`, so that no assertion fails and the byte
`(a << 4) | b` is returned, exactly for the inputs up to 4032 seconds; above 4032 seconds
the call does not return a byte. -/
theorem emf_range_invariant (s : ℚ) :
    (∃ (a : Int) (b : Nat), SecondsToEmf.nibbles s = Outcome.ok (a, b) ∧ 0 ≤ a ∧ a < 16
        ∧ b < 16 ∧ SecondsToEmf s = Outcome.ok (a.toNat <<< 4 ||| b)) ↔ s ≤ 4032 := by
  obtain ⟨hc, h1, h2⟩ := clamp_facts s
  rw [h1, h2, emf_range_of_ge _ hc]
  by_cases h : s < OLSR_C
  · rw [if_pos h]
    have hC : OLSR_C = 1 / 16 := rfl
    rw [hC] at h ⊢
    constructor
    · intro _; linarith
    · intro _; norm_num
  · rw [if_neg h]

/-- C14 fails at 4096 seconds: the search gives the exponent 16 with mantissa 0, and the
assertion `b < 16` fails. -/
theorem emf_range_fails_at_4096 :
    SecondsToEmf.nibbles 4096 = Outcome.ok (0, 16)
      ∧ SecondsToEmf 4096 = Outcome.fail Fault.assertion := by
  have hs : ¬ (4096 : ℚ) < OLSR_C := by norm_num [OLSR_C]
  have hlo : (2 : ℚ) ^ 16 ≤ 4096 / OLSR_C := by norm_num [OLSR_C]
  have hhi : (4096 : ℚ) / OLSR_C < 2 ^ (16 + 1) := by norm_num [OLSR_C]
  have hm : SecondsToEmf.mantissa 4096 16 = 0 := by
    unfold SecondsToEmf.mantissa
    rw [Int.ceil_eq_iff]
    norm_num [OLSR_C]
  have hne : SecondsToEmf.mantissa 4096 16 ≠ 16 := by rw [hm]; decide
  constructor
  · rw [nibbles_of_exponent 4096 16 hs (by decide) hlo hhi, if_neg hne, hm]
  · exact SecondsToEmf_fail_exponent 4096 16 hs (by decide) hlo hhi (Or.inl ⟨hne, le_refl _⟩)

theorem emf_error_bound (Q d : ℚ) (hQ : 0 < Q) (hd : |d| ≤ 1 / 32) : |Q * d| ≤ Q / 16 := by
  rw [abs_mul, abs_of_pos hQ]
  have h := mul_le_mul_of_nonneg_left hd hQ.le
  linarith

/-- C13. Time-encoding accuracy: for every `s ≥ 0.0625` on which `SecondsToEmf` returns a
code, `EmfToSeconds` of that code differs from `s` by at most one quantization step
`0.0625 * 2^b / 16`, where `b` is the low nibble of the code. -/
theorem emf_accuracy (s : ℚ) (c : Nat) (hs : 1 / 16 ≤ s) (hc : SecondsToEmf s = Outcome.ok c) :
    |EmfToSeconds c - s| ≤ OLSR_C * 2 ^ (c &&& 15) / 16 := by
  have hC : OLSR_C = 1 / 16 := rfl
  have hs' : ¬ s < OLSR_C := by rw [hC]; exact not_lt.mpr hs
  have hx1 : 1 ≤ s / OLSR_C := by rw [hC]; linarith
  obtain ⟨k, hlo, hhi⟩ := exists_exponent (s / OLSR_C) hx1
  obtain ⟨hm1, hm2, hm0, hm16⟩ := mantissa_spec_quotient s k hlo hhi
  have hlow : c &&& 15 = c % 16 := Nat.and_pow_two_sub_one_eq_mod c 4
  have hP : (0 : ℚ) < 2 ^ k := by positivity
  have hQ : (0 : ℚ) < OLSR_C * 2 ^ k := by rw [hC]; positivity
  have hsQ : s = OLSR_C * 2 ^ k * (s / OLSR_C / 2 ^ k) := by
    rw [hC]; field_simp; ring
  rw [hlow, EmfToSeconds_eq]
  generalize s / OLSR_C / 2 ^ k = y at hm1 hm2 hsQ
  by_cases hk30 : 30 ≤ k
  · have hf := SecondsToEmf_fail_shift s hs' (le_trans
      (pow_le_pow_right₀ (by norm_num) hk30) hlo)
    rw [hf] at hc; cases hc
  by_cases ha : SecondsToEmf.mantissa s k = 16
  · by_cases hk14 : k ≤ 14
    · rw [SecondsToEmf_carry s k hs' hk14 hlo hhi ha] at hc
      have hck : c = k + 1 := (Outcome.ok.inj hc).symm
      have h1 : c / 16 = 0 := by omega
      have h2 : c % 16 = k + 1 := by omega
      rw [h1, h2]
      rw [ha] at hm1
      have hy2 : y < 2 := by
        have := (scaled_bounds s k hlo hhi).2
        have he : s / (OLSR_C * (((2 : Int) ^ k : Int) : ℚ)) = y := by
          push_cast
          rw [hsQ]; field_simp
        rw [he] at this
        linarith
      have hd : |2 - y| ≤ 1 / 32 := by
        rw [abs_le]; constructor <;> norm_num at hm1 ⊢ <;> linarith
      have hgoal := emf_error_bound _ _ hQ hd
      have e1 : OLSR_C * (1 + ((0 : Nat) : ℚ) / 16) * 2 ^ (k + 1) - s
          = OLSR_C * 2 ^ k * (2 - y) := by
        rw [hsQ]; push_cast; ring
      have e2 : OLSR_C * 2 ^ (k + 1) / 16 = 2 * (OLSR_C * 2 ^ k / 16) := by ring
      rw [e1, e2]
      linarith
    · have hf := SecondsToEmf_fail_exponent s k hs' (by omega) hlo hhi
        (Or.inr ⟨ha, by omega⟩)
      rw [hf] at hc; cases hc
  · by_cases hk15 : k ≤ 15
    · rw [SecondsToEmf_no_carry s k hs' hk15 hlo hhi ha] at hc
      have hck : c = (SecondsToEmf.mantissa s k).toNat * 16 + k := (Outcome.ok.inj hc).symm
      have h1 : c / 16 = (SecondsToEmf.mantissa s k).toNat := by omega
      have h2 : c % 16 = k := by omega
      have hcast : (((SecondsToEmf.mantissa s k).toNat : Nat) : ℚ)
          = ((SecondsToEmf.mantissa s k : Int) : ℚ) := by
        have := Int.toNat_of_nonneg hm0
        exact_mod_cast congrArg (Int.cast : Int → ℚ) this
      rw [h1, h2, hcast]
      generalize ((SecondsToEmf.mantissa s k : Int) : ℚ) = a at hm1 hm2
      have hd : |1 + a / 16 - y| ≤ 1 / 32 := by
        rw [abs_le]; constructor <;> linarith
      have hgoal := emf_error_bound _ _ hQ hd
      have e1 : OLSR_C * (1 + a / 16) * 2 ^ k - s = OLSR_C * 2 ^ k * (1 + a / 16 - y) := by
        rw [hsQ]; ring
      rw [e1]
      exact hgoal
    · have hf := SecondsToEmf_fail_exponent s k hs' (by omega) hlo hhi
        (Or.inl ⟨ha, by omega⟩)
      rw [hf] at hc; cases hc

/-- Three seconds are encoded with mantissa 8 and exponent 5, the code `0x85`. -/
theorem SecondsToEmf_three : SecondsToEmf 3 = Outcome.ok 133 := by
  have hs : ¬ (3 : ℚ) < OLSR_C := by norm_num [OLSR_C]
  have hlo : (2 : ℚ) ^ 5 ≤ 3 / OLSR_C := by norm_num [OLSR_C]
  have hhi : (3 : ℚ) / OLSR_C < 2 ^ (5 + 1) := by norm_num [OLSR_C]
  have hm : SecondsToEmf.mantissa 3 5 = 8 := by
    unfold SecondsToEmf.mantissa
    rw [Int.ceil_eq_iff]
    norm_num [OLSR_C]
  have hne : SecondsToEmf.mantissa 3 5 ≠ 16 := by rw [hm]; decide
  rw [SecondsToEmf_no_carry 3 5 hs (by decide) hlo hhi hne, hm]
  rfl

/-- Witness of `emf_accuracy`: three seconds, encoded as the code `0x85`. -/
theorem emf_accuracy_witness :
    (1 / 16 : ℚ) ≤ 3 ∧ SecondsToEmf 3 = Outcome.ok 133
      ∧ |EmfToSeconds 133 - 3| ≤ OLSR_C * 2 ^ (133 &&& 15) / 16 :=
  ⟨by norm_num, SecondsToEmf_three, emf_accuracy 3 133 (by norm_num) SecondsToEmf_three⟩

/-! ## Identity of the repository tuples -/

/-- C18. Tuple identity by key: for `LinkTuple`, `TwoHopNeighborTuple`,
`MprSelectorTuple`, `DuplicateTuple`, `TopologyTuple`, `IfaceAssocTuple` and
`AssociationTuple`, `operator==` is true if and only if the key fields are equal,
whatever the payload fields hold. -/
theorem tuple_identity_by_key :
    (∀ a b : LinkTuple, a.operatorEq b = true ↔
        a.localIfaceAddr = b.localIfaceAddr ∧ a.neighborIfaceAddr = b.neighborIfaceAddr)
    ∧ (∀ a b : TwoHopNeighborTuple, a.operatorEq b = true ↔
        a.neighborMainAddr = b.neighborMainAddr ∧ a.twoHopNeighborAddr = b.twoHopNeighborAddr)
    ∧ (∀ a b : MprSelectorTuple, a.operatorEq b = true ↔ a.mainAddr = b.mainAddr)
    ∧ (∀ a b : DuplicateTuple, a.operatorEq b = true ↔
        a.address = b.address ∧ a.sequenceNumber = b.sequenceNumber)
    ∧ (∀ a b : TopologyTuple, a.operatorEq b = true ↔
        a.destAddr = b.destAddr ∧ a.lastAddr = b.lastAddr
          ∧ a.sequenceNumber = b.sequenceNumber)
    ∧ (∀ a b : IfaceAssocTuple, a.operatorEq b = true ↔
        a.ifaceAddr = b.ifaceAddr ∧ a.mainAddr = b.mainAddr)
    ∧ (∀ a b : AssociationTuple, a.operatorEq b = true ↔
        a.gatewayAddr = b.gatewayAddr ∧ a.networkAddr = b.networkAddr
          ∧ a.netmask = b.netmask) := by
  refine ⟨?_, ?_, ?_, ?_, ?_, ?_, ?_⟩
  · intro a b; simp [LinkTuple.operatorEq]
  · intro a b; simp [TwoHopNeighborTuple.operatorEq]
  · intro a b; simp [MprSelectorTuple.operatorEq]
  · intro a b; simp [DuplicateTuple.operatorEq]
  · intro a b; simp [TopologyTuple.operatorEq, and_assoc]
  · intro a b; simp [IfaceAssocTuple.operatorEq]
  · intro a b; simp [AssociationTuple.operatorEq, and_assoc]

/-- C19 fails on the code: two neighbor tuples with the same `neighborMainAddr` that
differ in `status`, or in `willingness`, are not equal. -/
theorem neighbor_identity_not_by_address :
    neighborSym.neighborMainAddr = neighborNotSym.neighborMainAddr
      ∧ neighborSym.operatorEq neighborNotSym = false
      ∧ neighborSym.neighborMainAddr = neighborHigh.neighborMainAddr
      ∧ neighborSym.operatorEq neighborHigh = false := by
  decide

/-- C19 as the code has it. `NeighborTuple` identity: `a == b` holds if and only if
`neighborMainAddr`, `status` and `willingness` are equal; `helloInterval` does not
affect equality. -/
theorem neighbor_identity (a b : NeighborTuple) :
    a.operatorEq b = true ↔
      a.neighborMainAddr = b.neighborMainAddr ∧ a.status = b.status
        ∧ a.willingness = b.willingness := by
  simp [NeighborTuple.operatorEq, and_assoc]

/-! ## Layout of the message header -/

/-- The seven header fields `MessageHeader::Deserialize` stores are read from fixed
offsets of the input: type at 0, vTime at 1, size at 2..3, originator at 4..7, time to
live at 8, hop count at 9, sequence number at 10..11, the wider ones big-endian. -/
theorem Deserialize_fields (prior m' : MessageHeader) (b0 b1 b2 b3 b4 b5 b6 b7 b8 b9 b10 b11 : Nat)
    (rest i : List Nat) (n : Nat)
    (hd : prior.Deserialize (b0 :: b1 :: b2 :: b3 :: b4 :: b5 :: b6 :: b7 :: b8 :: b9 :: b10
            :: b11 :: rest) = Outcome.ok (m', n, i)) :
    m'.m_messageType = b0 % 256 ∧ m'.m_vTime = b1 % 256
      ∧ m'.m_messageSize = b2 % 256 * 256 + b3 % 256
      ∧ m'.m_originatorAddress
          = b4 % 256 * 16777216 + b5 % 256 * 65536 + b6 % 256 * 256 + b7 % 256
      ∧ m'.m_timeToLive = b8 % 256 ∧ m'.m_hopCount = b9 % 256
      ∧ m'.m_messageSequenceNumber = b10 % 256 * 256 + b11 % 256 := by
  unfold MessageHeader.Deserialize at hd
  simp only [ReadU8, ReadNtohU16, ReadNtohU32, bind_ok] at hd
  cases hA : NS_ASSERT (decide (b0 % 256 ≥ HELLO_MESSAGE) && decide (b0 % 256 ≤ HNA_MESSAGE)) with
  | fail f => rw [hA, bind_fail] at hd; cases hd
  | ok u =>
    rw [hA, bind_ok] at hd
    by_cases h1 : b0 % 256 = MID_MESSAGE
    · rw [if_pos h1] at hd
      cases hb : prior.m_message.mid.Deserialize rest
          (sub32 (b2 % 256 * 256 + b3 % 256) OLSR_MSG_HEADER_SIZE) with
      | fail f => rw [hb, bind_fail] at hd; cases hd
      | ok r =>
        rw [hb, bind_ok] at hd
        have := Outcome.ok.inj hd
        simp only [pure_eq_ok, Prod.mk.injEq] at this
        obtain ⟨rfl, -, -⟩ := this
        exact ⟨rfl, rfl, rfl, rfl, rfl, rfl, rfl⟩
    · rw [if_neg h1] at hd
      by_cases h2 : b0 % 256 = HELLO_MESSAGE
      · rw [if_pos h2] at hd
        cases hb : prior.m_message.hello.Deserialize rest
            (sub32 (b2 % 256 * 256 + b3 % 256) OLSR_MSG_HEADER_SIZE) with
        | fail f => rw [hb, bind_fail] at hd; cases hd
        | ok r =>
          rw [hb, bind_ok] at hd
          have := Outcome.ok.inj hd
          simp only [pure_eq_ok, Prod.mk.injEq] at this
          obtain ⟨rfl, -, -⟩ := this
          exact ⟨rfl, rfl, rfl, rfl, rfl, rfl, rfl⟩
      · rw [if_neg h2] at hd
        by_cases h3 : b0 % 256 = TC_MESSAGE
        · rw [if_pos h3] at hd
          cases hb : prior.m_message.tc.Deserialize rest
              (sub32 (b2 % 256 * 256 + b3 % 256) OLSR_MSG_HEADER_SIZE) with
          | fail f => rw [hb, bind_fail] at hd; cases hd
          | ok r =>
            rw [hb, bind_ok] at hd
            have := Outcome.ok.inj hd
            simp only [pure_eq_ok, Prod.mk.injEq] at this
            obtain ⟨rfl, -, -⟩ := this
            exact ⟨rfl, rfl, rfl, rfl, rfl, rfl, rfl⟩
        · rw [if_neg h3] at hd
          by_cases h4 : b0 % 256 = HNA_MESSAGE
          · rw [if_pos h4] at hd
            cases hb : prior.m_message.hna.Deserialize rest
                (sub32 (b2 % 256 * 256 + b3 % 256) OLSR_MSG_HEADER_SIZE) with
            | fail f => rw [hb, bind_fail] at hd; cases hd
            | ok r =>
              rw [hb, bind_ok] at hd
              have := Outcome.ok.inj hd
              simp only [pure_eq_ok, Prod.mk.injEq] at this
              obtain ⟨rfl, -, -⟩ := this
              exact ⟨rfl, rfl, rfl, rfl, rfl, rfl, rfl⟩
          · rw [if_neg h4] at hd
            cases hd

/-- The first twelve bytes `MessageHeader::Serialize` writes for a message of a defined
kind, where `size` is what `GetSerializedSize()` returns. -/
theorem Serialize_layout (m : MessageHeader)
    (hT : HELLO_MESSAGE ≤ m.m_messageType ∧ m.m_messageType ≤ HNA_MESSAGE) :
    ∃ (size : Nat) (body : List Nat), m.GetSerializedSize = Outcome.ok size ∧
      m.Serialize = Outcome.ok
        ([m.m_messageType % 256, m.m_vTime % 256, size / 256 % 256, size % 256,
          m.m_originatorAddress / 16777216 % 256, m.m_originatorAddress / 65536 % 256,
          m.m_originatorAddress / 256 % 256, m.m_originatorAddress % 256,
          m.m_timeToLive % 256, m.m_hopCount % 256,
          m.m_messageSequenceNumber / 256 % 256, m.m_messageSequenceNumber % 256] ++ body) := by
  obtain ⟨h1, h4⟩ := hT
  have hcases : m.m_messageType = HELLO_MESSAGE ∨ m.m_messageType = TC_MESSAGE
      ∨ m.m_messageType = MID_MESSAGE ∨ m.m_messageType = HNA_MESSAGE := by
    simp only [HELLO_MESSAGE, TC_MESSAGE, MID_MESSAGE, HNA_MESSAGE] at *
    omega
  rcases hcases with h | h | h | h
  · refine ⟨u32 (OLSR_MSG_HEADER_SIZE + m.m_message.hello.GetSerializedSize),
      m.m_message.hello.Serialize, ?_, ?_⟩
    · unfold MessageHeader.GetSerializedSize
      rw [h]; rfl
    · rw [Serialize_hello m h]; rfl
  · refine ⟨u32 (OLSR_MSG_HEADER_SIZE + m.m_message.tc.GetSerializedSize),
      m.m_message.tc.Serialize, ?_, ?_⟩
    · unfold MessageHeader.GetSerializedSize
      rw [h]; rfl
    · rw [Serialize_tc m h]; rfl
  · refine ⟨u32 (OLSR_MSG_HEADER_SIZE + m.m_message.mid.GetSerializedSize),
      m.m_message.mid.Serialize, ?_, ?_⟩
    · unfold MessageHeader.GetSerializedSize
      rw [h]; rfl
    · rw [mid_Serialize_eq m h]; rfl
  · refine ⟨u32 (OLSR_MSG_HEADER_SIZE + m.m_message.hna.GetSerializedSize),
      m.m_message.hna.Serialize, ?_, ?_⟩
    · unfold MessageHeader.GetSerializedSize
      rw [h]; rfl
    · rw [hna_Serialize_eq m h]; rfl

/-- C20. Message header wire layout: for every message of a defined kind, the first
twelve bytes `MessageHeader::Serialize` writes are the type (1 byte), vTime (1 byte), the
size returned by `GetSerializedSize()` (2 bytes, big-endian), the originator address
(4 bytes, big-endian), the time to live (1 byte), the hop count (1 byte) and the message
sequence number (2 bytes, big-endian), in that order; and whenever
`MessageHeader::Deserialize` returns, the fields it has stored were read from the same
offsets of its input. -/
theorem header_wire_layout (m prior m' : MessageHeader)
    (b0 b1 b2 b3 b4 b5 b6 b7 b8 b9 b10 b11 : Nat) (rest i : List Nat) (n : Nat)
    (hT : HELLO_MESSAGE ≤ m.m_messageType ∧ m.m_messageType ≤ HNA_MESSAGE)
    (hd : prior.Deserialize (b0 :: b1 :: b2 :: b3 :: b4 :: b5 :: b6 :: b7 :: b8 :: b9 :: b10
            :: b11 :: rest) = Outcome.ok (m', n, i)) :
    (∃ (size : Nat) (body : List Nat), m.GetSerializedSize = Outcome.ok size ∧
      m.Serialize = Outcome.ok
        ([m.m_messageType % 256, m.m_vTime % 256, size / 256 % 256, size % 256,
          m.m_originatorAddress / 16777216 % 256, m.m_originatorAddress / 65536 % 256,
          m.m_originatorAddress / 256 % 256, m.m_originatorAddress % 256,
          m.m_timeToLive % 256, m.m_hopCount % 256,
          m.m_messageSequenceNumber / 256 % 256, m.m_messageSequenceNumber % 256] ++ body))
      ∧ m'.m_messageType = b0 % 256 ∧ m'.m_vTime = b1 % 256
      ∧ m'.m_messageSize = b2 % 256 * 256 + b3 % 256
      ∧ m'.m_originatorAddress
          = b4 % 256 * 16777216 + b5 % 256 * 65536 + b6 % 256 * 256 + b7 % 256
      ∧ m'.m_timeToLive = b8 % 256 ∧ m'.m_hopCount = b9 % 256
      ∧ m'.m_messageSequenceNumber = b10 % 256 * 256 + b11 % 256 :=
  ⟨Serialize_layout m hT,
   Deserialize_fields prior m' b0 b1 b2 b3 b4 b5 b6 b7 b8 b9 b10 b11 rest i n hd⟩

/-- The sample MID message is written as `sampleMidBytes`, and these decode. -/
theorem sampleMid_bytes :
    sampleMid.Serialize = Outcome.ok sampleMidBytes
      ∧ priorMessage.Deserialize sampleMidBytes = Outcome.ok (sampleMidDecoded, 20, []) := by
  decide

/-- Witness of `header_wire_layout`: the sample MID message and its bytes. -/
theorem header_wire_layout_witness :
    (HELLO_MESSAGE ≤ sampleMid.m_messageType ∧ sampleMid.m_messageType ≤ HNA_MESSAGE)
      ∧ priorMessage.Deserialize sampleMidBytes = Outcome.ok (sampleMidDecoded, 20, [])
      ∧ (∃ (size : Nat) (body : List Nat), sampleMid.GetSerializedSize = Outcome.ok size ∧
          sampleMid.Serialize = Outcome.ok
            ([3, 134, size / 256 % 256, size % 256, 10, 0, 0, 1, 255, 2, 0, 9] ++ body))
      ∧ sampleMidDecoded.m_messageType = 3 ∧ sampleMidDecoded.m_vTime = 134
      ∧ sampleMidDecoded.m_messageSize = 20
      ∧ sampleMidDecoded.m_originatorAddress = 167772161
      ∧ sampleMidDecoded.m_timeToLive = 255 ∧ sampleMidDecoded.m_hopCount = 2
      ∧ sampleMidDecoded.m_messageSequenceNumber = 9 :=
  ⟨by decide, sampleMid_bytes.2,
   header_wire_layout sampleMid priorMessage sampleMidDecoded 3 134 0 20 10 0 0 1 255 2 0 9
      [10, 0, 1, 1, 10, 0, 2, 1] [] 20 (by decide) sampleMid_bytes.2⟩

/-! ## Packet envelope -/

/-- C21. Packet envelope round trip: for every 16-bit packet length and packet sequence
number, `PacketHeader::Serialize` writes exactly four bytes, the length and then the
sequence number, each most significant byte first, and `PacketHeader::Deserialize` on
those bytes, whatever follows them and whatever the object held before, recovers the same
length and sequence number, returns 4 and leaves the iterator after the fourth byte. -/
theorem packet_round_trip (p prior : PacketHeader) (rest : List Nat)
    (hl : p.m_packetLength < 65536) (hs : p.m_packetSequenceNumber < 65536) :
    p.Serialize = [p.m_packetLength / 256, p.m_packetLength % 256,
                   p.m_packetSequenceNumber / 256, p.m_packetSequenceNumber % 256]
      ∧ p.Serialize.length = 4
      ∧ prior.Deserialize (p.Serialize ++ rest) = Outcome.ok (p, 4, rest) := by
  have h1 : p.m_packetLength / 256 % 256 = p.m_packetLength / 256 := by omega
  have h2 : p.m_packetSequenceNumber / 256 % 256 = p.m_packetSequenceNumber / 256 := by omega
  refine ⟨?_, rfl, ?_⟩
  · simp only [PacketHeader.Serialize, WriteHtonU16, h1, h2, List.cons_append, List.nil_append]
  · unfold PacketHeader.Deserialize PacketHeader.Serialize
    simp only [List.append_assoc, ReadNtohU16_WriteHtonU16_lt hl,
      ReadNtohU16_WriteHtonU16_lt hs, bind_ok, pure_eq_ok]
    rfl

/-- Witness of `packet_round_trip`: length 128, sequence number 513, decoded into a used
object. -/
theorem packet_round_trip_witness :
    samplePacketHeader.m_packetLength < 65536
      ∧ samplePacketHeader.m_packetSequenceNumber < 65536
      ∧ samplePacketHeader.Serialize = [0, 128, 2, 1]
      ∧ samplePacketHeader.Serialize.length = 4
      ∧ PacketHeader.Deserialize ⟨7, 9⟩ (samplePacketHeader.Serialize ++ [1, 2, 3])
          = Outcome.ok (samplePacketHeader, 4, [1, 2, 3]) :=
  ⟨by decide, by decide,
   packet_round_trip samplePacketHeader ⟨7, 9⟩ [1, 2, 3] (by decide) (by decide)⟩

/-! ## Exponent and mantissa of the time encoding -/

/-- The exponent search of a value in `[OLSR_C, OLSR_C * 2^16)` run on `33 / 512`. -/
theorem search_tie : SecondsToEmf.search (33 / 512) 31 1 = Outcome.ok (0 + 1) :=
  search_eq (33 / 512) 0 (by decide) (by norm_num [OLSR_C]) (by norm_num [OLSR_C]) 31 1
    (by decide) (by decide) (by decide)

theorem mantissa_tie : SecondsToEmf.mantissa (33 / 512) 0 = 0 := by
  unfold SecondsToEmf.mantissa
  rw [Int.ceil_eq_iff]
  norm_num [OLSR_C]

/-- From the exit value of the search back to the bounds of the quotient. -/
theorem search_bounds (s : ℚ) (b : Nat) (hs : (1 / 16 : ℚ) ≤ s) (hr : s < 1 / 16 * 2 ^ 16)
    (h : SecondsToEmf.search s 31 1 = Outcome.ok (b + 1)) :
    b ≤ 15 ∧ (2 : ℚ) ^ b ≤ s / OLSR_C ∧ s / OLSR_C < 2 ^ (b + 1) := by
  have hC : OLSR_C = 1 / 16 := rfl
  have hx1 : 1 ≤ s / OLSR_C := by rw [hC]; linarith
  have hx2 : s / OLSR_C < 2 ^ 16 := by rw [hC]; linarith
  obtain ⟨k, hlo, hhi⟩ := exists_exponent (s / OLSR_C) hx1
  have hk : k ≤ 15 := by
    by_contra hc
    have h16 : (2 : ℚ) ^ 16 ≤ 2 ^ k := pow_le_pow_right₀ (by norm_num) (by omega)
    linarith
  have hk' := search_eq s k (by omega) hlo hhi 31 1 (by omega) (by omega) (by omega)
  rw [hk'] at h
  have hb : k = b := by
    have := Outcome.ok.inj h
    omega
  subst hb
  exact ⟨hk, hlo, hhi⟩

/-- C23, as stated, fails. `33 / 512` seconds lie in the encodable range; the search
finds the exponent 0, and `t = 16 * (s / (OLSR_C * 2^0) - 1)` is exactly `0 + 1/2`, halfway
between 0 and 1.  The mantissa `ceil(t - 0.5)` is the lower integer 0, not the upper one:
`SecondsToEmf` returns the code 0, where rounding the half up would give `0x10`. -/
theorem mantissa_half_rounds_down :
    (1 / 16 : ℚ) ≤ 33 / 512 ∧ (33 / 512 : ℚ) ≤ 4032
      ∧ SecondsToEmf.search (33 / 512) 31 1 = Outcome.ok (0 + 1)
      ∧ 16 * ((33 / 512 : ℚ) / (OLSR_C * (((2 : Int) ^ 0 : Int) : ℚ)) - 1) = 0 + 1 / 2
      ∧ SecondsToEmf.mantissa (33 / 512) 0 = 0
      ∧ SecondsToEmf.mantissa (33 / 512) 0 ≠ 0 + 1
      ∧ SecondsToEmf.nibbles (33 / 512) = Outcome.ok (0, 0)
      ∧ SecondsToEmf (33 / 512) = Outcome.ok 0 := by
  have hs : ¬ (33 / 512 : ℚ) < OLSR_C := by norm_num [OLSR_C]
  have hlo : (2 : ℚ) ^ 0 ≤ 33 / 512 / OLSR_C := by norm_num [OLSR_C]
  have hhi : (33 / 512 : ℚ) / OLSR_C < 2 ^ (0 + 1) := by norm_num [OLSR_C]
  have hne : SecondsToEmf.mantissa (33 / 512) 0 ≠ 16 := by rw [mantissa_tie]; decide
  refine ⟨by norm_num, by norm_num, search_tie, by norm_num [OLSR_C], mantissa_tie,
    by rw [mantissa_tie]; decide, ?_, ?_⟩
  · rw [nibbles_of_exponent _ 0 hs (by decide) hlo hhi, if_neg hne, mantissa_tie]
  · rw [SecondsToEmf_no_carry _ 0 hs (by decide) hlo hhi hne, mantissa_tie]
    rfl

/-- C23, amended. For every `s` with `OLSR_C ≤ s < OLSR_C * 2^16`, with `b` the exponent
found by the search (the loop exits at `b + 1`) and `t = 16 * (s / (OLSR_C * 2^b) - 1)`,
the mantissa that `SecondsToEmf` computes before the carry is an integer nearest to `t`,
and when `t` is exactly halfway between two integers, `t = k + 1/2`, it is the lower
one, `k`: `ceil(t - 0.5)` rounds a half down. -/
theorem mantissa_rounding (s : ℚ) (b : Nat) (hs : (1 / 16 : ℚ) ≤ s)
    (hr : s < 1 / 16 * 2 ^ 16)
    (hsearch : SecondsToEmf.search s 31 1 = Outcome.ok (b + 1)) :
    SecondsToEmf.nibbles s =
        Outcome.ok (if SecondsToEmf.mantissa s b = 16 then ((0 : Int), b + 1)
          else (SecondsToEmf.mantissa s b, b))
      ∧ |16 * (s / (OLSR_C * (((2 : Int) ^ b : Int) : ℚ)) - 1)
          - ((SecondsToEmf.mantissa s b : Int) : ℚ)| ≤ 1 / 2
      ∧ ∀ k : Int, 16 * (s / (OLSR_C * (((2 : Int) ^ b : Int) : ℚ)) - 1) = (k : ℚ) + 1 / 2 →
          SecondsToEmf.mantissa s b = k := by
  obtain ⟨hb, hlo, hhi⟩ := search_bounds s b hs hr hsearch
  have hs' : ¬ s < OLSR_C := by
    have hC : OLSR_C = 1 / 16 := rfl
    rw [hC]; exact not_lt.mpr hs
  obtain ⟨h1, h2, _, _⟩ := mantissa_spec s b hlo hhi
  refine ⟨nibbles_of_exponent s b hs' (by omega) hlo hhi, ?_, ?_⟩
  · rw [abs_le]; constructor <;> linarith
  · intro k hk
    rw [hk] at h1 h2
    have h3 : ((SecondsToEmf.mantissa s b : Int) : ℚ) < (k : ℚ) + 1 := by linarith
    have h4 : (k : ℚ) ≤ ((SecondsToEmf.mantissa s b : Int) : ℚ) := by linarith
    have h5 : SecondsToEmf.mantissa s b < k + 1 := by exact_mod_cast h3
    have h6 : k ≤ SecondsToEmf.mantissa s b := by exact_mod_cast h4
    omega

/-- Witness of `mantissa_rounding`: `33 / 512` seconds, exponent 0. -/
theorem mantissa_rounding_witness :
    (1 / 16 : ℚ) ≤ 33 / 512 ∧ (33 / 512 : ℚ) < 1 / 16 * 2 ^ 16
      ∧ SecondsToEmf.search (33 / 512) 31 1 = Outcome.ok (0 + 1)
      ∧ (SecondsToEmf.nibbles (33 / 512) =
          Outcome.ok (if SecondsToEmf.mantissa (33 / 512) 0 = 16 then ((0 : Int), 0 + 1)
            else (SecondsToEmf.mantissa (33 / 512) 0, 0))
        ∧ |16 * ((33 / 512 : ℚ) / (OLSR_C * (((2 : Int) ^ 0 : Int) : ℚ)) - 1)
            - ((SecondsToEmf.mantissa (33 / 512) 0 : Int) : ℚ)| ≤ 1 / 2
        ∧ ∀ k : Int,
            16 * ((33 / 512 : ℚ) / (OLSR_C * (((2 : Int) ^ 0 : Int) : ℚ)) - 1)
              = (k : ℚ) + 1 / 2 →
            SecondsToEmf.mantissa (33 / 512) 0 = k) :=
  ⟨by norm_num, by norm_num, search_tie,
   mantissa_rounding (33 / 512) 0 (by norm_num) (by norm_num) search_tie⟩

/-- C24. Exponent search: for every `s` with `0.0625 ≤ s < 0.0625 * 2^16` there is a `b`
with `0 ≤ b ≤ 15` such that the for-loop of `SecondsToEmf` exits at `b + 1`, so that the
decrement leaves `b`, and `b` is the largest integer with `s / 0.0625 ≥ 2^b`:
`2^b ≤ s / 0.0625 < 2^(b+1)`.  The mantissa and exponent after the carry step are
`(0, b + 1)` when the mantissa rounds to 16, and the mantissa with `b` otherwise; after a
carry to an exponent below 16 the code returned is `b + 1`. -/
theorem exponent_search (s : ℚ) (hs : (1 / 16 : ℚ) ≤ s) (hr : s < 1 / 16 * 2 ^ 16) :
    ∃ b : Nat, b ≤ 15
      ∧ SecondsToEmf.search s 31 1 = Outcome.ok (b + 1)
      ∧ (2 : ℚ) ^ b ≤ s / (1 / 16) ∧ s / (1 / 16) < 2 ^ (b + 1)
      ∧ (∀ j : Nat, (2 : ℚ) ^ j ≤ s / (1 / 16) → j ≤ b)
      ∧ (SecondsToEmf.mantissa s b = 16 →
          SecondsToEmf.nibbles s = Outcome.ok (0, b + 1))
      ∧ (SecondsToEmf.mantissa s b ≠ 16 →
          SecondsToEmf.nibbles s = Outcome.ok (SecondsToEmf.mantissa s b, b))
      ∧ (SecondsToEmf.mantissa s b = 16 → b + 1 < 16 →
          SecondsToEmf s = Outcome.ok (b + 1)) := by
  have hC : OLSR_C = 1 / 16 := rfl
  have hs' : ¬ s < OLSR_C := by rw [hC]; exact not_lt.mpr hs
  have hx1 : 1 ≤ s / OLSR_C := by rw [hC]; linarith
  have hx2 : s / OLSR_C < 2 ^ 16 := by rw [hC]; linarith
  obtain ⟨k, hlo, hhi⟩ := exists_exponent (s / OLSR_C) hx1
  have hk : k ≤ 15 := by
    by_contra hc
    have h16 : (2 : ℚ) ^ 16 ≤ 2 ^ k := pow_le_pow_right₀ (by norm_num) (by omega)
    linarith
  have hn := nibbles_of_exponent s k hs' (by omega) hlo hhi
  refine ⟨k, hk, search_eq s k (by omega) hlo hhi 31 1 (by omega) (by omega) (by omega),
    by rw [← hC]; exact hlo, by rw [← hC]; exact hhi, ?_, ?_, ?_, ?_⟩
  · intro j hj
    rw [← hC] at hj
    by_contra hc
    have h1 : (2 : ℚ) ^ (k + 1) ≤ 2 ^ j := pow_le_pow_right₀ (by norm_num) (by omega)
    linarith
  · intro ha
    rw [hn, if_pos ha]
  · intro ha
    rw [hn, if_neg ha]
  · intro ha hb
    exact SecondsToEmf_carry s k hs' (by omega) hlo hhi ha

/-- Witness of `exponent_search`: three seconds, whose exponent is 5. -/
theorem exponent_search_witness :
    (1 / 16 : ℚ) ≤ 3 ∧ (3 : ℚ) < 1 / 16 * 2 ^ 16
      ∧ ∃ b : Nat, b ≤ 15
        ∧ SecondsToEmf.search 3 31 1 = Outcome.ok (b + 1)
        ∧ (2 : ℚ) ^ b ≤ 3 / (1 / 16) ∧ (3 : ℚ) / (1 / 16) < 2 ^ (b + 1)
        ∧ (∀ j : Nat, (2 : ℚ) ^ j ≤ 3 / (1 / 16) → j ≤ b)
        ∧ (SecondsToEmf.mantissa 3 b = 16 →
            SecondsToEmf.nibbles 3 = Outcome.ok (0, b + 1))
        ∧ (SecondsToEmf.mantissa 3 b ≠ 16 →
            SecondsToEmf.nibbles 3 = Outcome.ok (SecondsToEmf.mantissa 3 b, b))
        ∧ (SecondsToEmf.mantissa 3 b = 16 → b + 1 < 16 →
            SecondsToEmf 3 = Outcome.ok (b + 1)) :=
  ⟨by norm_num, by norm_num, exponent_search 3 (by norm_num) (by norm_num)⟩

/-! ## Repository upsert -/

theorem upsert_of_not_mem {α κ : Type} [DecidableEq κ] (key : α → κ) (t : α) :
    ∀ l : List α, key t ∉ l.map key → upsert key t l = l ++ [t] := by
  intro l
  induction l with
  | nil => intro _; rfl
  | cons e l ih =>
    intro h
    rw [List.map_cons, List.mem_cons, not_or] at h
    have hne : ¬ key e = key t := fun hc => h.1 hc.symm
    unfold upsert
    rw [if_neg hne, ih h.2]
    rfl

theorem upsert_map_key_of_mem {α κ : Type} [DecidableEq κ] (key : α → κ) (t : α) :
    ∀ l : List α, key t ∈ l.map key → (upsert key t l).map key = l.map key := by
  intro l
  induction l with
  | nil => intro h; cases h
  | cons e l ih =>
    intro h
    unfold upsert
    by_cases he : key e = key t
    · rw [if_pos he, List.map_cons, List.map_cons, he]
    · rw [if_neg he, List.map_cons, List.map_cons]
      rw [List.map_cons, List.mem_cons] at h
      rcases h with h | h
      · exact absurd h.symm he
      · rw [ih h]

theorem upsert_nodup {α κ : Type} [DecidableEq κ] (key : α → κ) (t : α) (l : List α)
    (h : (l.map key).Nodup) : ((upsert key t l).map key).Nodup := by
  by_cases hm : key t ∈ l.map key
  · rw [upsert_map_key_of_mem key t l hm]; exact h
  · rw [upsert_of_not_mem key t l hm, List.map_append, List.map_cons, List.map_nil]
    rw [List.nodup_append]
    refine ⟨h, List.nodup_singleton _, ?_⟩
    intro a ha hb
    rw [List.mem_singleton] at hb
    subst hb
    exact hm ha

theorem upsert_cons_same {α κ : Type} [DecidableEq κ] (key : α → κ) (t e : α) (l : List α)
    (h : key e = key t) : upsert key t (e :: l) = t :: l := by
  show (if key e = key t then t :: l else e :: upsert key t l) = t :: l
  rw [if_pos h]

theorem upsert_cons_other {α κ : Type} [DecidableEq κ] (key : α → κ) (t e : α) (l : List α)
    (h : ¬ key e = key t) : upsert key t (e :: l) = e :: upsert key t l := by
  show (if key e = key t then t :: l else e :: upsert key t l) = e :: upsert key t l
  rw [if_neg h]

theorem upsert_upsert {α κ : Type} [DecidableEq κ] (key : α → κ) (t u : α)
    (hk : key u = key t) : ∀ l : List α, upsert key u (upsert key t l) = upsert key u l := by
  intro l
  induction l with
  | nil => exact upsert_cons_same key u t [] hk.symm
  | cons e l ih =>
    by_cases he : key e = key t
    · rw [upsert_cons_same key t e l he, upsert_cons_same key u t l hk.symm,
        upsert_cons_same key u e l (he.trans hk.symm)]
    · have he' : ¬ key e = key u := fun hc => he (hc.trans hk)
      rw [upsert_cons_other key t e l he, upsert_cons_other key u e _ he',
        upsert_cons_other key u e l he', ih]

theorem upsert_filter_key {α κ : Type} [DecidableEq κ] (key : α → κ) (t : α) :
    ∀ l : List α, (l.map key).Nodup →
      (upsert key t l).filter (fun e => decide (key e = key t)) = [t] := by
  intro l
  induction l with
  | nil =>
    intro _
    show List.filter _ [t] = [t]
    simp
  | cons e l ih =>
    intro h
    rw [List.map_cons, List.nodup_cons] at h
    unfold upsert
    by_cases he : key e = key t
    · rw [if_pos he, List.filter_cons_of_pos (by simp)]
      have hnone : l.filter (fun e => decide (key e = key t)) = [] := by
        rw [List.filter_eq_nil_iff]
        intro a ha hc
        have hc' : key a = key t := by simpa using hc
        exact h.1 (by rw [he, ← hc']; exact List.mem_map_of_mem key ha)
      rw [hnone]
    · rw [if_neg he, List.filter_cons_of_neg (by simpa using he)]
      exact ih h.2

theorem upsert_filter_other {α κ : Type} [DecidableEq κ] (key : α → κ) (t : α) :
    ∀ l : List α, (upsert key t l).filter (fun e => decide (key e ≠ key t))
      = l.filter (fun e => decide (key e ≠ key t)) := by
  intro l
  induction l with
  | nil =>
    show List.filter _ [t] = List.filter _ []
    simp
  | cons e l ih =>
    unfold upsert
    by_cases he : key e = key t
    · rw [if_pos he, List.filter_cons_of_neg (by simp), List.filter_cons_of_neg (by simpa using he)]
    · rw [if_neg he, List.filter_cons_of_pos (by simpa using he),
        List.filter_cons_of_pos (by simpa using he), ih]

/-- The contract of `upsert` holds for every key function. -/
theorem upsert_contract {α κ : Type} [DecidableEq α] [DecidableEq κ] (key : α → κ) :
    UpsertKeepsKeysUnique key := by
  intro l t h
  have hidem : upsert key t (upsert key t l) = upsert key t l := upsert_upsert key t t rfl l
  have hf := upsert_filter_key key t l h
  refine ⟨by rw [hidem]; exact hf, ?_, hidem, upsert_nodup key t l h, ?_⟩
  · rw [hidem]
    have hsub : (upsert key t l).count t
        = ((upsert key t l).filter (fun e => decide (key e = key t))).count t := by
      rw [List.count_filter]
      simp
    rw [hsub, hf]
    simp
  · intro u hu
    have hnd := upsert_nodup key t l h
    refine ⟨?_, ?_, ?_⟩
    · have := upsert_filter_key key u (upsert key t l) hnd
      rw [hu] at this
      exact this
    · apply upsert_map_key_of_mem
      rw [hu]
      have hmem : t ∈ (upsert key t l).filter (fun e => decide (key e = key t)) := by
        rw [hf]; exact List.mem_singleton_self t
      exact List.mem_map_of_mem key (List.mem_of_mem_filter hmem)
    · have h1 := upsert_filter_other key u (upsert key t l)
      rw [hu] at h1
      rw [h1, upsert_filter_other key t l]

/-- C22. Repository upsert keeps keys unique: for each of the eight repositories
(LinkSet, NeighborSet, TwoHopNeighborSet, MprSelectorSet, DuplicateSet, TopologySet,
IfaceAssocSet, AssociationSet), with the key the spec gives its tuple, every repository
with distinct keys and every tuple `t`: after `upsert(t)` twice exactly one entry has the
key of `t` and it is `t`, `t` occurs once, and the second `upsert` changes nothing; an
`upsert` of a tuple with the same key and another payload replaces that single entry,
leaving the keys of the repository and its other entries unchanged; the keys stay
distinct. -/
theorem upsert_keeps_keys_unique :
    UpsertKeepsKeysUnique LinkTuple.key
      ∧ UpsertKeepsKeysUnique NeighborTuple.key
      ∧ UpsertKeepsKeysUnique TwoHopNeighborTuple.key
      ∧ UpsertKeepsKeysUnique MprSelectorTuple.key
      ∧ UpsertKeepsKeysUnique DuplicateTuple.key
      ∧ UpsertKeepsKeysUnique TopologyTuple.key
      ∧ UpsertKeepsKeysUnique IfaceAssocTuple.key
      ∧ UpsertKeepsKeysUnique AssociationTuple.key :=
  ⟨upsert_contract _, upsert_contract _, upsert_contract _, upsert_contract _,
   upsert_contract _, upsert_contract _, upsert_contract _, upsert_contract _⟩

/-- Witness of `upsert_keeps_keys_unique`: a link set with two links, the second of which
is observed again with later times. -/
theorem upsert_keeps_keys_unique_witness :
    (sampleLinkSet.map LinkTuple.key).Nodup
      ∧ upsert LinkTuple.key refreshedLink (upsert LinkTuple.key refreshedLink sampleLinkSet)
          = [⟨167772161, 167772162, 10, 20, 30⟩, refreshedLink]
      ∧ (upsert LinkTuple.key refreshedLink
            (upsert LinkTuple.key refreshedLink sampleLinkSet)).filter
          (fun e => decide (LinkTuple.key e = LinkTuple.key refreshedLink)) = [refreshedLink]
      ∧ (upsert LinkTuple.key refreshedLink
            (upsert LinkTuple.key refreshedLink sampleLinkSet)).count refreshedLink = 1 :=
  ⟨by decide, by decide,
   (upsert_keeps_keys_unique.1 sampleLinkSet refreshedLink (by decide)).1,
   (upsert_keeps_keys_unique.1 sampleLinkSet refreshedLink (by decide)).2.1⟩

/-! ## The block size of a link message -/

theorem writeLinkMessages_append (a b : List LinkMessage) :
    writeLinkMessages (a ++ b) = writeLinkMessages a ++ writeLinkMessages b := by
  induction a with
  | nil => rfl
  | cons lm rest ih =>
    rw [List.cons_append, writeLinkMessages, writeLinkMessages, ih]
    simp only [List.append_assoc]

/-- One link message on the wire: link code, reserved byte, the low 16 bits of `4 + 4n`
with the high byte first, then the addresses. -/
theorem writeLinkMessages_cons (lm : LinkMessage) (rest : List LinkMessage) :
    writeLinkMessages (lm :: rest)
      = [lm.linkCode % 256, 0, (4 + lm.neighborInterfaceAddresses.length * 4) / 256 % 256,
          (4 + lm.neighborInterfaceAddresses.length * 4) % 256]
        ++ (writeAddresses lm.neighborInterfaceAddresses ++ writeLinkMessages rest) := by
  simp only [writeLinkMessages, WriteU8, WriteHtonU16, List.cons_append, List.nil_append,
    List.append_assoc, Nat.zero_mod]

/-- C26, as stated, fails. A link message with `n = 16383` neighbor interface addresses
occupies `4 + 4n = 65536` bytes, and the block size field written for it holds 0: the
16-bit field keeps the low 16 bits of `4 + 4n`. -/
theorem block_size_wraps :
    wideLinkMessage.neighborInterfaceAddresses.length = 16383
      ∧ (writeLinkMessages [wideLinkMessage]).length = 4 + 4 * 16383
      ∧ (writeLinkMessages [wideLinkMessage]).take 4 = [1, 0, 0, 0]
      ∧ ReadNtohU16 ((writeLinkMessages [wideLinkMessage]).drop 2)
          = Outcome.ok (0, (writeLinkMessages [wideLinkMessage]).drop 4) := by
  have hn : wideLinkMessage.neighborInterfaceAddresses.length = 16383 :=
    List.length_replicate 16383 0
  have hc : wideLinkMessage.linkCode = 1 := rfl
  have hw := writeLinkMessages_cons wideLinkMessage []
  rw [hn, hc] at hw
  have hw : writeLinkMessages [wideLinkMessage]
      = [1, 0, 0, 0] ++ (writeAddresses wideLinkMessage.neighborInterfaceAddresses
          ++ writeLinkMessages []) := hw
  have hlen := writeLinkMessages_length [wideLinkMessage]
  refine ⟨hn, ?_, ?_, ?_⟩
  · rw [hlen]
    simp only [linkMessagesBytes, hn, Nat.add_zero]
  · rw [hw]
    generalize writeAddresses wideLinkMessage.neighborInterfaceAddresses
      ++ writeLinkMessages [] = tail
    rfl
  · rw [hw]
    generalize writeAddresses wideLinkMessage.neighborInterfaceAddresses
      ++ writeLinkMessages [] = tail
    rfl

/-- C26, amended. HELLO block size on encode: for every link message of a HELLO with `n`
neighbor interface addresses such that `4 + 4n` fits in 16 bits, the bytes
`Hello::Serialize` writes for it are a block of exactly `4 + 4n` bytes that starts with the
link code and the reserved byte, holds `4 + 4n` in its block size field (bytes 2 and 3,
most significant first) and then the addresses, and the next link message, or the
position when it is the last one, starts right after the block. -/
theorem hello_block_size (m : Hello) (pre post : List LinkMessage) (lm : LinkMessage)
    (hm : m.linkMessages = pre ++ lm :: post)
    (hn : 4 + 4 * lm.neighborInterfaceAddresses.length ≤ 65535) :
    ∃ block : List Nat,
      m.Serialize
          = (WriteU16 0 ++ WriteU8 m.hTime ++ WriteU8 m.willingness ++ writeLinkMessages pre)
            ++ block
            ++ (writeLinkMessages post ++ WriteHtonU64 (DoubleToUint64 m.position.x)
                ++ WriteHtonU64 (DoubleToUint64 m.position.y)
                ++ WriteHtonU64 (DoubleToUint64 m.position.z))
        ∧ block.length = 4 + 4 * lm.neighborInterfaceAddresses.length
        ∧ block = WriteU8 lm.linkCode ++ WriteU8 0
            ++ WriteHtonU16 (4 + 4 * lm.neighborInterfaceAddresses.length)
            ++ writeAddresses lm.neighborInterfaceAddresses
        ∧ ReadNtohU16 (block.drop 2)
            = Outcome.ok (4 + 4 * lm.neighborInterfaceAddresses.length,
                writeAddresses lm.neighborInterfaceAddresses) := by
  have hmul : lm.neighborInterfaceAddresses.length * IPV4_ADDRESS_SIZE
      = 4 * lm.neighborInterfaceAddresses.length := Nat.mul_comm _ _
  refine ⟨WriteU8 lm.linkCode ++ WriteU8 0
      ++ WriteHtonU16 (4 + 4 * lm.neighborInterfaceAddresses.length)
      ++ writeAddresses lm.neighborInterfaceAddresses, ?_, ?_, rfl, ?_⟩
  · unfold Hello.Serialize
    rw [hm, writeLinkMessages_append]
    simp only [writeLinkMessages, hmul, List.append_assoc]
  · simp only [List.length_append, writeAddresses_length, WriteU8, WriteHtonU16,
      List.length_cons, List.length_nil]
  · have hd : (WriteU8 lm.linkCode ++ WriteU8 0
        ++ WriteHtonU16 (4 + 4 * lm.neighborInterfaceAddresses.length)
        ++ writeAddresses lm.neighborInterfaceAddresses).drop 2
        = WriteHtonU16 (4 + 4 * lm.neighborInterfaceAddresses.length)
          ++ writeAddresses lm.neighborInterfaceAddresses := by
      simp only [WriteU8, List.cons_append, List.nil_append, List.drop_succ_cons, List.drop_zero]
    rw [hd, ReadNtohU16_WriteHtonU16_lt (by omega)]

/-- Witness of `hello_block_size`: the second of three link messages, with two
addresses, has the block size 12. -/
theorem hello_block_size_witness :
    threeBlockHello.linkMessages
        = [⟨6, [167772162]⟩] ++ (⟨10, [167772163, 167772164]⟩ : LinkMessage) :: [⟨2, []⟩]
      ∧ 4 + 4 * (⟨10, [167772163, 167772164]⟩ : LinkMessage).neighborInterfaceAddresses.length
          ≤ 65535
      ∧ ∃ block : List Nat,
          threeBlockHello.Serialize
              = (WriteU16 0 ++ WriteU8 threeBlockHello.hTime
                  ++ WriteU8 threeBlockHello.willingness
                  ++ writeLinkMessages [⟨6, [167772162]⟩])
                ++ block
                ++ (writeLinkMessages [⟨2, []⟩]
                    ++ WriteHtonU64 (DoubleToUint64 threeBlockHello.position.x)
                    ++ WriteHtonU64 (DoubleToUint64 threeBlockHello.position.y)
                    ++ WriteHtonU64 (DoubleToUint64 threeBlockHello.position.z))
            ∧ block.length
                = 4 + 4 * (⟨10, [167772163, 167772164]⟩ :
                    LinkMessage).neighborInterfaceAddresses.length
            ∧ block = WriteU8 (⟨10, [167772163, 167772164]⟩ : LinkMessage).linkCode
                ++ WriteU8 0
                ++ WriteHtonU16 (4 + 4 * (⟨10, [167772163, 167772164]⟩ :
                    LinkMessage).neighborInterfaceAddresses.length)
                ++ writeAddresses (⟨10, [167772163, 167772164]⟩ :
                    LinkMessage).neighborInterfaceAddresses
            ∧ ReadNtohU16 (block.drop 2)
                = Outcome.ok (4 + 4 * (⟨10, [167772163, 167772164]⟩ :
                      LinkMessage).neighborInterfaceAddresses.length,
                    writeAddresses (⟨10, [167772163, 167772164]⟩ :
                      LinkMessage).neighborInterfaceAddresses) :=
  ⟨rfl, by decide,
   hello_block_size threeBlockHello [⟨6, [167772162]⟩] [⟨2, []⟩]
     ⟨10, [167772163, 167772164]⟩ rfl (by decide)⟩

/-! ## The link-message loop of the HELLO decoder, one iteration at a time -/

/-- The loop of `Hello::Deserialize` runs `Hello.readLinkMessage` while `remainingSize` is
positive. -/
theorem readLinkMessages_step (fuel remainingSize : Nat) (acc : List LinkMessage)
    (buf : List Nat) :
    Hello.readLinkMessages (fuel + 1) remainingSize acc buf
      = if remainingSize > 0 then
          Hello.readLinkMessage remainingSize buf >>= fun r =>
            Hello.readLinkMessages fuel r.2.1 (acc ++ [r.1]) r.2.2
        else Outcome.ok (acc, buf) := by
  by_cases hpos : remainingSize > 0
  · rw [Hello.readLinkMessages, if_pos hpos, if_pos hpos]
    unfold Hello.readLinkMessage
    cases h1 : ReadU8 buf with
    | fail e => simp only [bind_fail]
    | ok p1 =>
      obtain ⟨linkCode, i1⟩ := p1
      cases h2 : ReadU8 i1 with
      | fail e => simp only [bind_ok, h2, bind_fail]
      | ok p2 =>
        obtain ⟨rsv, i2⟩ := p2
        cases h3 : ReadNtohU16 i2 with
        | fail e => simp only [bind_ok, h2, h3, bind_fail]
        | ok p3 =>
          obtain ⟨lmSize, i3⟩ := p3
          cases h4 : readAddresses
              (Int.toNat (Int.tdiv ((lmSize : Int) - 4) (IPV4_ADDRESS_SIZE : Int))) [] i3 with
          | fail e => simp only [bind_ok, h2, h3, h4, bind_fail]
          | ok p4 =>
            obtain ⟨v, i4⟩ := p4
            simp only [bind_ok, h2, h3, h4, pure_eq_ok]
  · rw [Hello.readLinkMessages, if_neg hpos, if_neg hpos]

/-- C25, at a HELLO body declared with 10 bytes whose link message has the block size 6:
the iteration reads the four header bytes and `(6 - 4) / 4 = 0` addresses, so the read
position advances by 4 while `remainingSize` goes from 6 to 0; the position is then read
from offset 8, two bytes before the end of the declared block, and the decode returns the
position bytes `AA BB 3F F0 ..` in place of (1.0, 2.0, 3.0), leaving two bytes unread. -/
theorem unaligned_block_read_short :
    unalignedHelloBytes.length = 10 + 24
      ∧ ReadNtohU16 (unalignedHelloBytes.drop 6) = Outcome.ok (6, unalignedHelloBytes.drop 8)
      ∧ Hello.readLinkMessage 6 (unalignedHelloBytes.drop 4)
          = Outcome.ok (⟨6, []⟩, 0, unalignedHelloBytes.drop (4 + 4))
      ∧ unalignedHelloBytes.drop (4 + 4) ≠ unalignedHelloBytes.drop (4 + 6)
      ∧ Hello.Deserialize freshMessage.m_message.hello unalignedHelloBytes 10
          = Outcome.ok (⟨5, 3, [⟨6, []⟩],
              ⟨12302497107117342720, 70368744177664, 70403103916032⟩⟩, 10, [0, 0])
      ∧ ReadNtohU64 (unalignedHelloBytes.drop 10)
          = Outcome.ok (double_1, unalignedHelloBytes.drop 18) := by
  decide

/-- C27, at two HELLO bodies declared with 8 bytes, so that `remainingSize` starts at 4
and `(8 - 4) / 4 = 1`.  With block size fields 0, 0, 0, 4 the counter stays at 4 for
three iterations and the loop runs four times.  With a block size field 8 the counter
goes from 4 to `4 - 8`, which wraps to 4294967292, and the loop goes on into the position
bytes until it runs past the end of the buffer. -/
theorem hello_loop_counter_stalls_and_wraps :
    Hello.readLinkMessage 4 (stalledHelloBytes.drop 4)
        = Outcome.ok (⟨6, []⟩, 4, stalledHelloBytes.drop 8)
      ∧ Hello.Deserialize freshMessage.m_message.hello stalledHelloBytes 8
          = Outcome.ok (⟨5, 3, [⟨6, []⟩, ⟨6, []⟩, ⟨6, []⟩, ⟨10, []⟩],
              ⟨double_1, double_2, double_3⟩⟩, 8, [])
      ∧ (8 - 4) / 4 < [(⟨6, []⟩ : LinkMessage), ⟨6, []⟩, ⟨6, []⟩, ⟨10, []⟩].length
      ∧ Hello.readLinkMessage 4 (overrunHelloBytes.drop 4)
          = Outcome.ok (⟨6, [167772162]⟩, 4294967292, overrunHelloBytes.drop 12)
      ∧ Hello.Deserialize freshMessage.m_message.hello overrunHelloBytes 8
          = Outcome.fail Fault.bufferEnd := by
  decide

/-- C28, at a HELLO message with three link messages: `MessageHeader::Deserialize` returns
40, the value of the size field, and has read the 64 bytes of the message: the iterator is
left at the first byte of the message that follows, 24 bytes after the offset 40 that the
returned size gives. -/
theorem hello_decode_returns_less_than_read :
    sampleHelloMessage.Serialize = Outcome.ok sampleHelloMessage.bytes
      ∧ sampleHelloMessage.bytes.length = 64
      ∧ ReadNtohU16 (sampleHelloMessage.bytes.drop 2)
          = Outcome.ok (40, sampleHelloMessage.bytes.drop 4)
      ∧ freshMessage.Deserialize (sampleHelloMessage.bytes ++ sampleMidBytes)
          = Outcome.ok (sampleHelloMessage, 40, sampleMidBytes)
      ∧ (sampleHelloMessage.bytes ++ sampleMidBytes).drop 64 = sampleMidBytes
      ∧ (sampleHelloMessage.bytes ++ sampleMidBytes).drop 40
          = WriteHtonU64 1 ++ WriteHtonU64 2 ++ WriteHtonU64 3 ++ sampleMidBytes := by
  decide

/-- C29, at a TC body declared with 4 bytes, followed in the buffer by a MID message: the
assertion `messageSize >= 4` holds, the unsigned difference `4 - 36` wraps to 4294967264,
a multiple of 4, so the call does not return 0; the address loop reads the 20 bytes of
the next message as neighbor addresses and runs past the end of the buffer. -/
theorem tc_declared_4_wraps :
    (shortTcBytes.drop 12).length = 4 + 20
      ∧ NS_ASSERT (decide (4 ≥ 4)) = Outcome.ok ()
      ∧ sub32 4 (Tc.GetSerializedSize ⟨[], 5, ⟨0, 0, 0⟩, 0⟩) = 4294967264
      ∧ 4294967264 % 4 = 0
      ∧ readAddresses 5 [] (shortTcBytes.drop 16)
          = Outcome.ok ([59113492, 167772161, 4278321161, 167772417, 167772673], [])
      ∧ tcNoNeighbors.Deserialize (shortTcBytes.drop 12) 4 = Outcome.fail Fault.bufferEnd
      ∧ freshMessage.Deserialize shortTcBytes = Outcome.fail Fault.bufferEnd := by
  decide

/-- C30, at two TC messages whose size field is below 12.  With the size field 9 the body
length handed to `Tc::Deserialize` is `9 - 12`, wrapped to 4294967293, and
`MessageHeader::Deserialize` returns 12 with the size 9 and the ansn of the next four bytes
stored.  With the size field 8 the body length is 4294967292, which passes the assertion
`messageSize >= 4`, and the address loop runs past the end of the buffer. -/
theorem undersized_message_not_rejected :
    ReadNtohU16 (undersizedTcBytes.drop 2) = Outcome.ok (9, undersizedTcBytes.drop 4)
      ∧ sub32 9 OLSR_MSG_HEADER_SIZE = 4294967293
      ∧ tcNoNeighbors.Deserialize (undersizedTcBytes.drop 12) 4294967293
          = Outcome.ok (⟨[], 5, ⟨double_1, double_2, double_3⟩, double_2⟩, 0, [])
      ∧ freshMessage.Deserialize undersizedTcBytes
          = Outcome.ok ({ freshMessage with
              m_messageType := TC_MESSAGE, m_vTime := 134, m_timeToLive := 255,
              m_originatorAddress := 167772161, m_messageSequenceNumber := 8,
              m_messageSize := 9,
              m_message := { freshMessage.m_message with tc := ⟨[], 5, ⟨0, 0, 0⟩, 0⟩ } },
            12, [])
      ∧ ReadNtohU16 (undersizedTcBytes8.drop 2) = Outcome.ok (8, undersizedTcBytes8.drop 4)
      ∧ sub32 8 OLSR_MSG_HEADER_SIZE = 4294967292
      ∧ NS_ASSERT (decide (4294967292 ≥ 4)) = Outcome.ok ()
      ∧ freshMessage.Deserialize undersizedTcBytes8 = Outcome.fail Fault.bufferEnd := by
  decide

/-! ## Equality of the repository tuples as a relation -/

/-- C35. Tuple equality is an equivalence relation: each of the nine `operator==` of
`olsr-repositories.h` (on the eight tuple types and on `Association`) is reflexive,
symmetric and transitive. -/
theorem tuple_equality_equivalence :
    Equivalence (fun a b : IfaceAssocTuple => a.operatorEq b = true)
      ∧ Equivalence (fun a b : LinkTuple => a.operatorEq b = true)
      ∧ Equivalence (fun a b : NeighborTuple => a.operatorEq b = true)
      ∧ Equivalence (fun a b : TwoHopNeighborTuple => a.operatorEq b = true)
      ∧ Equivalence (fun a b : MprSelectorTuple => a.operatorEq b = true)
      ∧ Equivalence (fun a b : DuplicateTuple => a.operatorEq b = true)
      ∧ Equivalence (fun a b : TopologyTuple => a.operatorEq b = true)
      ∧ Equivalence (fun a b : Repositories.Association => a.operatorEq b = true)
      ∧ Equivalence (fun a b : AssociationTuple => a.operatorEq b = true) := by
  refine ⟨⟨?_, ?_, ?_⟩, ⟨?_, ?_, ?_⟩, ⟨?_, ?_, ?_⟩, ⟨?_, ?_, ?_⟩, ⟨?_, ?_, ?_⟩, ⟨?_, ?_, ?_⟩,
    ⟨?_, ?_, ?_⟩, ⟨?_, ?_, ?_⟩, ⟨?_, ?_, ?_⟩⟩
  · intro a; simp [IfaceAssocTuple.operatorEq]
  · intro a b; simp only [IfaceAssocTuple.operatorEq, Bool.and_eq_true, beq_iff_eq]
    rintro ⟨h1, h2⟩; exact ⟨h1.symm, h2.symm⟩
  · intro a b c; simp only [IfaceAssocTuple.operatorEq, Bool.and_eq_true, beq_iff_eq]
    rintro ⟨h1, h2⟩ ⟨h3, h4⟩; exact ⟨h1.trans h3, h2.trans h4⟩
  · intro a; simp [LinkTuple.operatorEq]
  · intro a b; simp only [LinkTuple.operatorEq, Bool.and_eq_true, beq_iff_eq]
    rintro ⟨h1, h2⟩; exact ⟨h1.symm, h2.symm⟩
  · intro a b c; simp only [LinkTuple.operatorEq, Bool.and_eq_true, beq_iff_eq]
    rintro ⟨h1, h2⟩ ⟨h3, h4⟩; exact ⟨h1.trans h3, h2.trans h4⟩
  · intro a; simp [NeighborTuple.operatorEq]
  · intro a b; simp only [NeighborTuple.operatorEq, Bool.and_eq_true, beq_iff_eq]
    rintro ⟨⟨h1, h2⟩, h3⟩; exact ⟨⟨h1.symm, h2.symm⟩, h3.symm⟩
  · intro a b c; simp only [NeighborTuple.operatorEq, Bool.and_eq_true, beq_iff_eq]
    rintro ⟨⟨h1, h2⟩, h3⟩ ⟨⟨h4, h5⟩, h6⟩
    exact ⟨⟨h1.trans h4, h2.trans h5⟩, h3.trans h6⟩
  · intro a; simp [TwoHopNeighborTuple.operatorEq]
  · intro a b; simp only [TwoHopNeighborTuple.operatorEq, Bool.and_eq_true, beq_iff_eq]
    rintro ⟨h1, h2⟩; exact ⟨h1.symm, h2.symm⟩
  · intro a b c; simp only [TwoHopNeighborTuple.operatorEq, Bool.and_eq_true, beq_iff_eq]
    rintro ⟨h1, h2⟩ ⟨h3, h4⟩; exact ⟨h1.trans h3, h2.trans h4⟩
  · intro a; simp [MprSelectorTuple.operatorEq]
  · intro a b; simp only [MprSelectorTuple.operatorEq, beq_iff_eq]
    exact fun h => h.symm
  · intro a b c; simp only [MprSelectorTuple.operatorEq, beq_iff_eq]
    exact fun h1 h2 => h1.trans h2
  · intro a; simp [DuplicateTuple.operatorEq]
  · intro a b; simp only [DuplicateTuple.operatorEq, Bool.and_eq_true, beq_iff_eq]
    rintro ⟨h1, h2⟩; exact ⟨h1.symm, h2.symm⟩
  · intro a b c; simp only [DuplicateTuple.operatorEq, Bool.and_eq_true, beq_iff_eq]
    rintro ⟨h1, h2⟩ ⟨h3, h4⟩; exact ⟨h1.trans h3, h2.trans h4⟩
  · intro a; simp [TopologyTuple.operatorEq]
  · intro a b; simp only [TopologyTuple.operatorEq, Bool.and_eq_true, beq_iff_eq]
    rintro ⟨⟨h1, h2⟩, h3⟩; exact ⟨⟨h1.symm, h2.symm⟩, h3.symm⟩
  · intro a b c; simp only [TopologyTuple.operatorEq, Bool.and_eq_true, beq_iff_eq]
    rintro ⟨⟨h1, h2⟩, h3⟩ ⟨⟨h4, h5⟩, h6⟩
    exact ⟨⟨h1.trans h4, h2.trans h5⟩, h3.trans h6⟩
  · intro a; simp [Repositories.Association.operatorEq]
  · intro a b; simp only [Repositories.Association.operatorEq, Bool.and_eq_true, beq_iff_eq]
    rintro ⟨h1, h2⟩; exact ⟨h1.symm, h2.symm⟩
  · intro a b c
    simp only [Repositories.Association.operatorEq, Bool.and_eq_true, beq_iff_eq]
    rintro ⟨h1, h2⟩ ⟨h3, h4⟩; exact ⟨h1.trans h3, h2.trans h4⟩
  · intro a; simp [AssociationTuple.operatorEq]
  · intro a b; simp only [AssociationTuple.operatorEq, Bool.and_eq_true, beq_iff_eq]
    rintro ⟨⟨h1, h2⟩, h3⟩; exact ⟨⟨h1.symm, h2.symm⟩, h3.symm⟩
  · intro a b c; simp only [AssociationTuple.operatorEq, Bool.and_eq_true, beq_iff_eq]
    rintro ⟨⟨h1, h2⟩, h3⟩ ⟨⟨h4, h5⟩, h6⟩
    exact ⟨⟨h1.trans h4, h2.trans h5⟩, h3.trans h6⟩

/-! ## MID bodies by declared length -/

theorem getD_skip_four (b0 b1 b2 b3 : Nat) (t : List Nat) (m : Nat) :
    (b0 :: b1 :: b2 :: b3 :: t).getD (m + 4) 0 = t.getD m 0 := rfl

/-- The address loop on a buffer that holds `4 * n` bytes: address `i` is made of the
bytes `4i .. 4i+3`, the first being the most significant. -/
theorem readAddresses_wire (n : Nat) :
    ∀ (v buf : List Nat), 4 * n ≤ buf.length →
      ∃ l, readAddresses n v buf = Outcome.ok (v ++ l, buf.drop (4 * n)) ∧ l.length = n
        ∧ ∀ i, i < n → l.getD i 0
            = buf.getD (4 * i) 0 % 256 * 16777216 + buf.getD (4 * i + 1) 0 % 256 * 65536
              + buf.getD (4 * i + 2) 0 % 256 * 256 + buf.getD (4 * i + 3) 0 % 256 := by
  induction n with
  | zero =>
    intro v buf _
    exact ⟨[], by simp [readAddresses], rfl, fun i hi => absurd hi (Nat.not_lt_zero i)⟩
  | succ k ih =>
    intro v buf h
    rcases buf with _ | ⟨b0, _ | ⟨b1, _ | ⟨b2, _ | ⟨b3, t⟩⟩⟩⟩
    · simp only [List.length_nil] at h; omega
    · simp only [List.length_cons, List.length_nil] at h; omega
    · simp only [List.length_cons, List.length_nil] at h; omega
    · simp only [List.length_cons, List.length_nil] at h; omega
    · have ht : 4 * k ≤ t.length := by simp only [List.length_cons] at h; omega
      obtain ⟨l, hl, hlen, hw⟩ :=
        ih (v ++ [b0 % 256 * 16777216 + b1 % 256 * 65536 + b2 % 256 * 256 + b3 % 256]) t ht
      refine ⟨(b0 % 256 * 16777216 + b1 % 256 * 65536 + b2 % 256 * 256 + b3 % 256) :: l,
        ?_, by simp [hlen], ?_⟩
      · have hd : List.drop (4 * (k + 1)) (b0 :: b1 :: b2 :: b3 :: t) = List.drop (4 * k) t := by
          rw [show 4 * (k + 1) = 4 * k + 1 + 1 + 1 + 1 by omega]
          simp only [List.drop_succ_cons]
        rw [hd]
        simp only [readAddresses, ReadNtohU32, bind_ok, hl, List.append_assoc,
          List.singleton_append]
      · intro i hi
        rcases i with _ | j
        · rfl
        · rw [show 4 * (j + 1) = 4 * j + 4 by omega,
            show 4 * j + 4 + 1 = 4 * j + 1 + 4 by omega,
            show 4 * j + 4 + 2 = 4 * j + 2 + 4 by omega,
            show 4 * j + 4 + 3 = 4 * j + 3 + 4 by omega,
            getD_skip_four, getD_skip_four, getD_skip_four, getD_skip_four]
          have := hw j (by omega)
          rw [← this]
          rfl

/-- C34. MID body length check: for every declared MID body length `L` (a `uint32_t`),
`Mid::Deserialize` fails the assertion `L % 4 == 0` when `L` is not a multiple of 4,
whatever the buffer holds; otherwise, the `L` bytes being in the buffer, it yields exactly
`L / 4` interface addresses, address `i` being read from the bytes `4i .. 4i+3` most
significant byte first, returns `L` and leaves the iterator `L` bytes further. -/
theorem mid_declared_length (prior : Mid) (buf : List Nat) (L : Nat) (hL : L < 4294967296) :
    (L % 4 ≠ 0 → prior.Deserialize buf L = Outcome.fail Fault.assertion)
      ∧ (L % 4 = 0 → L ≤ buf.length →
          ∃ v, prior.Deserialize buf L = Outcome.ok (⟨v⟩, L, buf.drop L)
            ∧ v.length = L / 4
            ∧ ∀ i, i < L / 4 → v.getD i 0
                = buf.getD (4 * i) 0 % 256 * 16777216 + buf.getD (4 * i + 1) 0 % 256 * 65536
                  + buf.getD (4 * i + 2) 0 % 256 * 256 + buf.getD (4 * i + 3) 0 % 256) := by
  constructor
  · intro h
    have hc : (L % IPV4_ADDRESS_SIZE == 0) = false := by
      show (L % 4 == 0) = false
      simpa using h
    unfold Mid.Deserialize
    simp only [hc, NS_ASSERT_false, bind_fail]
  · intro h hbuf
    have hc : (L % IPV4_ADDRESS_SIZE == 0) = true := by
      show (L % 4 == 0) = true
      simpa using h
    have hn : L / IPV4_ADDRESS_SIZE = L / 4 := rfl
    obtain ⟨l, hl, hlen, hw⟩ := readAddresses_wire (L / 4) [] buf (by omega)
    have hend : 4 * (L / 4) = L := by omega
    rw [hend, List.nil_append] at hl
    have hsize : Mid.GetSerializedSize ⟨l⟩ = L := by
      unfold Mid.GetSerializedSize
      show u32 (l.length * 4) = L
      rw [hlen, u32_of_lt (by omega)]
      omega
    refine ⟨l, ?_, hlen, hw⟩
    unfold Mid.Deserialize
    simp only [hc, NS_ASSERT_true, bind_ok, hn, hl, pure_eq_ok, hsize]

/-- Witness of `mid_declared_length`: the body of `sampleMidBytes`, two addresses, declared
as 8 bytes and then as 7 bytes. -/
theorem mid_declared_length_witness :
    (8 : Nat) < 4294967296 ∧ 8 % 4 = 0 ∧ 8 ≤ (sampleMidBytes.drop 12).length
      ∧ (∃ v, Mid.Deserialize ⟨[]⟩ (sampleMidBytes.drop 12) 8
            = Outcome.ok (⟨v⟩, 8, (sampleMidBytes.drop 12).drop 8)
          ∧ v.length = 8 / 4
          ∧ ∀ i, i < 8 / 4 → v.getD i 0
              = (sampleMidBytes.drop 12).getD (4 * i) 0 % 256 * 16777216
                + (sampleMidBytes.drop 12).getD (4 * i + 1) 0 % 256 * 65536
                + (sampleMidBytes.drop 12).getD (4 * i + 2) 0 % 256 * 256
                + (sampleMidBytes.drop 12).getD (4 * i + 3) 0 % 256)
      ∧ (7 : Nat) < 4294967296 ∧ 7 % 4 ≠ 0
      ∧ Mid.Deserialize ⟨[]⟩ (sampleMidBytes.drop 12) 7 = Outcome.fail Fault.assertion :=
  ⟨by decide, by decide, by decide,
   (mid_declared_length ⟨[]⟩ (sampleMidBytes.drop 12) 8 (by decide)).2 (by decide) (by decide),
   by decide, by decide,
   (mid_declared_length ⟨[]⟩ (sampleMidBytes.drop 12) 7 (by decide)).1 (by decide)⟩

/-! ## Decoding into objects with different prior contents -/

/-- The three ways a call of `Tc::Deserialize` ends, on two objects at once: a fault, the
same for both; the return value 0 after the size test, with the cleared address vector
and the ansn read stored in each object; or the return value `messageSize`, with the same
body for both. -/
theorem Tc_Deserialize_pair (p q : Tc) (buf : List Nat) (L : Nat) :
    (∃ e, p.Deserialize buf L = Outcome.fail e ∧ q.Deserialize buf L = Outcome.fail e)
      ∨ (∃ ansn r,
          p.Deserialize buf L
              = Outcome.ok ({ p with neighborAddresses := [], ansn := ansn }, 0, r)
            ∧ q.Deserialize buf L
              = Outcome.ok ({ q with neighborAddresses := [], ansn := ansn }, 0, r))
      ∨ (∃ t r, 4 ≤ L ∧ p.Deserialize buf L = Outcome.ok (t, L, r)
            ∧ q.Deserialize buf L = Outcome.ok (t, L, r)) := by
  unfold Tc.Deserialize
  by_cases hge : L ≥ 4
  · have hd : decide (L ≥ 4) = true := decide_eq_true hge
    simp only [hd, NS_ASSERT_true, bind_ok]
    cases h1 : ReadNtohU16 buf with
    | fail e => exact Or.inl ⟨e, by simp only [bind_fail], by simp only [bind_fail]⟩
    | ok p1 =>
      obtain ⟨ansn, i1⟩ := p1
      simp only [bind_ok]
      cases h2 : ReadNtohU16 i1 with
      | fail e => exact Or.inl ⟨e, by simp only [bind_fail], by simp only [bind_fail]⟩
      | ok p2 =>
        obtain ⟨rsv, i2⟩ := p2
        simp only [bind_ok, Tc_cleared_size]
        by_cases hs : sub32 L 36 % 4 ≠ 0
        · simp only [if_pos hs, pure_eq_ok]
          exact Or.inr (Or.inl ⟨ansn, i2, rfl, rfl⟩)
        · simp only [if_neg hs]
          cases h3 : readAddresses (sub32 L 36 / 4) [] i2 with
          | fail e => exact Or.inl ⟨e, by simp only [bind_fail], by simp only [bind_fail]⟩
          | ok p3 =>
            obtain ⟨v, i3⟩ := p3
            simp only [bind_ok]
            cases h4 : ReadU64 i3 with
            | fail e => exact Or.inl ⟨e, by simp only [bind_fail], by simp only [bind_fail]⟩
            | ok p4 =>
              obtain ⟨px, i4⟩ := p4
              simp only [bind_ok]
              cases h5 : ReadU64 i4 with
              | fail e => exact Or.inl ⟨e, by simp only [bind_fail], by simp only [bind_fail]⟩
              | ok p5 =>
                obtain ⟨py, i5⟩ := p5
                simp only [bind_ok]
                cases h6 : ReadU64 i5 with
                | fail e =>
                  exact Or.inl ⟨e, by simp only [bind_fail], by simp only [bind_fail]⟩
                | ok p6 =>
                  obtain ⟨pz, i6⟩ := p6
                  simp only [bind_ok]
                  cases h7 : ReadU64 i6 with
                  | fail e =>
                    exact Or.inl ⟨e, by simp only [bind_fail], by simp only [bind_fail]⟩
                  | ok p7 =>
                    obtain ⟨hi, i7⟩ := p7
                    simp only [bind_ok, pure_eq_ok]
                    exact Or.inr (Or.inr ⟨_, i7, hge, rfl, rfl⟩)
  · have hd : decide (L ≥ 4) = false := decide_eq_false hge
    simp only [hd, NS_ASSERT_false, bind_fail]
    exact Or.inl ⟨Fault.assertion, rfl, rfl⟩

/-- C33, as stated, fails for `Tc`. Two TC objects that differ in position and
helloInterval decode the same 37 zero bytes with the same declared length 37: the
neighbor-address region of one byte fails the size test, both calls return 0 with the
ansn 0 and no address, and each object still holds the position and helloInterval it held
before the call, so the two bodies differ. -/
theorem tc_failed_decode_depends_on_prior :
    tcNoNeighbors.Deserialize (List.replicate 37 0) 37
        = Outcome.ok (⟨[], 0, ⟨double_1, double_2, double_3⟩, double_2⟩, 0,
            List.replicate 33 0)
      ∧ freshMessage.m_message.tc.Deserialize (List.replicate 37 0) 37
          = Outcome.ok (⟨[], 0, ⟨0, 0, 0⟩, 0⟩, 0, List.replicate 33 0)
      ∧ tcNoNeighbors.Deserialize (List.replicate 37 0) 37
          ≠ freshMessage.m_message.tc.Deserialize (List.replicate 37 0) 37 := by
  decide

/-- C33, amended. For `Mid`, `Hello` and `Hna` and every two objects `p`, `q` with arbitrary
prior contents, decoding the same bytes with the same declared length has the same
outcome: the same decoded fields, the same return value, the same iterator.  For `Tc` a
fault is the same fault, the return value and the iterator are the same, the decoded
`ansn` and `neighborAddresses` are the same, and whenever the return value is not the
failure value 0 the whole body (ansn, neighborAddresses, position, helloInterval) is the
same; neighbor addresses and ansn held before the call never change the outcome. -/
theorem decode_depends_on_bytes_only (buf : List Nat) (L : Nat) :
    (∀ p q : Mid, p.Deserialize buf L = q.Deserialize buf L)
      ∧ (∀ p q : Hello, p.Deserialize buf L = q.Deserialize buf L)
      ∧ (∀ p q : Hna, p.Deserialize buf L = q.Deserialize buf L)
      ∧ (∀ (p : Tc) (addrs : List Nat) (ansn : Nat),
          Tc.Deserialize { p with neighborAddresses := addrs, ansn := ansn } buf L
            = p.Deserialize buf L)
      ∧ (∀ (p q : Tc) (e : Fault),
          p.Deserialize buf L = Outcome.fail e → q.Deserialize buf L = Outcome.fail e)
      ∧ (∀ (p q : Tc) (t : Tc) (n : Nat) (r : List Nat),
          p.Deserialize buf L = Outcome.ok (t, n, r) →
            ∃ u, q.Deserialize buf L = Outcome.ok (u, n, r)
              ∧ u.ansn = t.ansn ∧ u.neighborAddresses = t.neighborAddresses
              ∧ (n ≠ 0 → u = t)) := by
  refine ⟨fun _ _ => rfl, fun _ _ => rfl, fun _ _ => rfl, fun _ _ _ => rfl, ?_, ?_⟩
  · intro p q e h
    rcases Tc_Deserialize_pair p q buf L with ⟨e', h1, h2⟩ | ⟨a, r, h1, _⟩ | ⟨t, r, _, h1, _⟩
    · rw [h1] at h
      rw [h2, ← Outcome.fail.inj h]
    · rw [h1] at h; cases h
    · rw [h1] at h; cases h
  · intro p q t n r h
    rcases Tc_Deserialize_pair p q buf L with ⟨e', h1, _⟩ | ⟨a, r', h1, h2⟩ | ⟨t', r', h4, h1, h2⟩
    · rw [h1] at h; cases h
    · rw [h1] at h
      have hinj := Outcome.ok.inj h
      simp only [Prod.mk.injEq] at hinj
      obtain ⟨ht, hn, hr⟩ := hinj
      subst ht; subst hn; subst hr
      exact ⟨_, h2, rfl, rfl, fun hc => absurd rfl hc⟩
    · rw [h1] at h
      have hinj := Outcome.ok.inj h
      simp only [Prod.mk.injEq] at hinj
      obtain ⟨ht, hn, hr⟩ := hinj
      subst ht; subst hn; subst hr
      exact ⟨_, h2, rfl, rfl, fun _ => rfl⟩

/-! ## The time codec on its own codes -/

/-- A code returned by `SecondsToEmf` is a byte. -/
theorem SecondsToEmf_lt_256 (s : ℚ) (c : Nat) (h : SecondsToEmf s = Outcome.ok c) :
    c < 256 := by
  rw [SecondsToEmf_eq_nibbles] at h
  cases hn : SecondsToEmf.nibbles s with
  | fail e => rw [hn, bind_fail] at h; cases h
  | ok r =>
    rw [hn, bind_ok] at h
    cases hb1 : (decide (r.1 ≥ 0) && decide (r.1 < 16)) with
    | false => rw [hb1, NS_ASSERT_false, bind_fail] at h; cases h
    | true =>
      rw [hb1, NS_ASSERT_true, bind_ok] at h
      cases hb2 : decide (r.2 < 16) with
      | false => rw [hb2, NS_ASSERT_false, bind_fail] at h; cases h
      | true =>
        rw [hb2, NS_ASSERT_true, bind_ok] at h
        have hc := Outcome.ok.inj h
        rw [← hc]
        exact Nat.mod_lt _ (by decide)

/-- Encoding the value of the code with mantissa `a` and exponent `b` gives the code
back. -/
theorem SecondsToEmf_EmfToSeconds_nibbles (a b : Nat) (ha : a < 16) (hb : b < 16) :
    SecondsToEmf (EmfToSeconds (a * 16 + b)) = Outcome.ok (a * 16 + b) := by
  have hC : OLSR_C = 1 / 16 := rfl
  have h1 : (a * 16 + b) / 16 = a := by omega
  have h2 : (a * 16 + b) % 16 = b := by omega
  have hE : EmfToSeconds (a * 16 + b) = OLSR_C * (1 + (a : ℚ) / 16) * 2 ^ b := by
    rw [EmfToSeconds_eq, h1, h2]
  rw [hE]
  have ha0 : (0 : ℚ) ≤ (a : ℚ) := Nat.cast_nonneg a
  have ha16 : (a : ℚ) < 16 := by exact_mod_cast ha
  have hp : (0 : ℚ) < 2 ^ b := by positivity
  have hq : OLSR_C * (1 + (a : ℚ) / 16) * 2 ^ b / OLSR_C = (1 + (a : ℚ) / 16) * 2 ^ b := by
    rw [hC]; field_simp; ring
  have hs : ¬ OLSR_C * (1 + (a : ℚ) / 16) * 2 ^ b < OLSR_C := by
    rw [hC, not_lt]
    have h1p : (1 : ℚ) ≤ 2 ^ b := one_le_pow₀ (by norm_num)
    have : (1 : ℚ) ≤ (1 + (a : ℚ) / 16) * 2 ^ b := by nlinarith
    nlinarith
  have hlo : (2 : ℚ) ^ b ≤ OLSR_C * (1 + (a : ℚ) / 16) * 2 ^ b / OLSR_C := by
    rw [hq]; nlinarith
  have hhi : OLSR_C * (1 + (a : ℚ) / 16) * 2 ^ b / OLSR_C < 2 ^ (b + 1) := by
    rw [hq, pow_succ]; nlinarith
  have hx : 16 * (OLSR_C * (1 + (a : ℚ) / 16) * 2 ^ b / (OLSR_C * (((2 : Int) ^ b : Int) : ℚ)) - 1)
      = (a : ℚ) := by
    push_cast
    rw [hC]
    field_simp
    ring
  have hm : SecondsToEmf.mantissa (OLSR_C * (1 + (a : ℚ) / 16) * 2 ^ b) b = (a : Int) := by
    unfold SecondsToEmf.mantissa
    rw [hx, Int.ceil_eq_iff]
    push_cast
    constructor <;> linarith
  have hne : SecondsToEmf.mantissa (OLSR_C * (1 + (a : ℚ) / 16) * 2 ^ b) b ≠ 16 := by
    rw [hm]; omega
  rw [SecondsToEmf_no_carry _ b hs (by omega) hlo hhi hne, hm, Int.toNat_ofNat]

/-- C31. Every code is a fixed point of the time codec: for every byte `c` in `0..255`,
`SecondsToEmf(EmfToSeconds(c))` returns, all its assertions holding, and returns `c`;
consequently for every `s` on which `SecondsToEmf` returns a code, encoding the decoded
value of that code returns the same code. -/
theorem emf_codes_fixed :
    (∀ c : Nat, c < 256 → SecondsToEmf (EmfToSeconds c) = Outcome.ok c)
      ∧ (∀ (s : ℚ) (c : Nat), SecondsToEmf s = Outcome.ok c →
          SecondsToEmf (EmfToSeconds c) = SecondsToEmf s) := by
  have hfix : ∀ c : Nat, c < 256 → SecondsToEmf (EmfToSeconds c) = Outcome.ok c := by
    intro c hc
    have h := SecondsToEmf_EmfToSeconds_nibbles (c / 16) (c % 16) (by omega) (by omega)
    have he : c / 16 * 16 + c % 16 = c := by omega
    rw [he] at h
    exact h
  refine ⟨hfix, ?_⟩
  intro s c h
  rw [h]
  exact hfix c (SecondsToEmf_lt_256 s c h)

/-! ## Monotonicity of the time encoding -/

/-- The value of the code returned for `s ≥ OLSR_C`, from the exponent and the mantissa
before the carry. -/
theorem decoded_value (s : ℚ) (k c : Nat) (hs : ¬ s < OLSR_C)
    (hlo : (2 : ℚ) ^ k ≤ s / OLSR_C) (hhi : s / OLSR_C < 2 ^ (k + 1))
    (hc : SecondsToEmf s = Outcome.ok c) :
    EmfToSeconds c
      = OLSR_C * 2 ^ k * (1 + ((SecondsToEmf.mantissa s k : Int) : ℚ) / 16) := by
  obtain ⟨_, _, hm0, _⟩ := mantissa_spec s k hlo hhi
  rw [EmfToSeconds_eq]
  by_cases hk30 : 30 ≤ k
  · have hf := SecondsToEmf_fail_shift s hs (le_trans
      (pow_le_pow_right₀ (by norm_num) hk30) hlo)
    rw [hf] at hc; cases hc
  by_cases ha : SecondsToEmf.mantissa s k = 16
  · by_cases hk14 : k ≤ 14
    · rw [SecondsToEmf_carry s k hs hk14 hlo hhi ha] at hc
      have hck : c = k + 1 := (Outcome.ok.inj hc).symm
      have h1 : c / 16 = 0 := by omega
      have h2 : c % 16 = k + 1 := by omega
      rw [h1, h2, ha]
      push_cast
      ring
    · have hf := SecondsToEmf_fail_exponent s k hs (by omega) hlo hhi
        (Or.inr ⟨ha, by omega⟩)
      rw [hf] at hc; cases hc
  · by_cases hk15 : k ≤ 15
    · rw [SecondsToEmf_no_carry s k hs hk15 hlo hhi ha] at hc
      have hck : c = (SecondsToEmf.mantissa s k).toNat * 16 + k := (Outcome.ok.inj hc).symm
      have h1 : c / 16 = (SecondsToEmf.mantissa s k).toNat := by omega
      have h2 : c % 16 = k := by omega
      have hcast : (((SecondsToEmf.mantissa s k).toNat : Nat) : ℚ)
          = ((SecondsToEmf.mantissa s k : Int) : ℚ) := by
        have := Int.toNat_of_nonneg hm0
        exact_mod_cast congrArg (Int.cast : Int → ℚ) this
      rw [h1, h2, hcast]
      ring
    · have hf := SecondsToEmf_fail_exponent s k hs (by omega) hlo hhi
        (Or.inl ⟨ha, by omega⟩)
      rw [hf] at hc; cases hc

/-- Monotonicity on seconds that are at least `OLSR_C`. -/
theorem emf_monotone_of_ge (s1 s2 : ℚ) (c1 c2 : Nat) (hs1 : ¬ s1 < OLSR_C)
    (hs2 : ¬ s2 < OLSR_C) (h : s1 ≤ s2) (h1 : SecondsToEmf s1 = Outcome.ok c1)
    (h2 : SecondsToEmf s2 = Outcome.ok c2) : EmfToSeconds c1 ≤ EmfToSeconds c2 := by
  have hC : OLSR_C = 1 / 16 := rfl
  have hCpos : (0 : ℚ) < OLSR_C := by rw [hC]; norm_num
  have hx1 : 1 ≤ s1 / OLSR_C := by rw [hC] at hs1 ⊢; have := not_lt.mp hs1; linarith
  have hx2 : 1 ≤ s2 / OLSR_C := by rw [hC] at hs2 ⊢; have := not_lt.mp hs2; linarith
  have hx : s1 / OLSR_C ≤ s2 / OLSR_C := div_le_div_of_nonneg_right h hCpos.le
  obtain ⟨k1, hlo1, hhi1⟩ := exists_exponent (s1 / OLSR_C) hx1
  obtain ⟨k2, hlo2, hhi2⟩ := exists_exponent (s2 / OLSR_C) hx2
  obtain ⟨_, _, hm10, hm116⟩ := mantissa_spec s1 k1 hlo1 hhi1
  obtain ⟨_, _, hm20, _⟩ := mantissa_spec s2 k2 hlo2 hhi2
  rw [decoded_value s1 k1 c1 hs1 hlo1 hhi1 h1, decoded_value s2 k2 c2 hs2 hlo2 hhi2 h2]
  have hk : k1 ≤ k2 := by
    by_contra hc
    have hp : (2 : ℚ) ^ (k2 + 1) ≤ 2 ^ k1 := pow_le_pow_right₀ (by norm_num) (by omega)
    linarith
  have hq1 : (0 : ℚ) ≤ ((SecondsToEmf.mantissa s1 k1 : Int) : ℚ) := by exact_mod_cast hm10
  have hq16 : ((SecondsToEmf.mantissa s1 k1 : Int) : ℚ) ≤ 16 := by exact_mod_cast hm116
  have hq2 : (0 : ℚ) ≤ ((SecondsToEmf.mantissa s2 k2 : Int) : ℚ) := by exact_mod_cast hm20
  have hP1 : (0 : ℚ) < OLSR_C * 2 ^ k1 := by positivity
  have hP2 : (0 : ℚ) < OLSR_C * 2 ^ k2 := by positivity
  rcases Nat.lt_or_eq_of_le hk with hlt | heq
  · have hstep : OLSR_C * (2 : ℚ) ^ k1 * 2 ≤ OLSR_C * 2 ^ k2 := by
      have hp : (2 : ℚ) ^ (k1 + 1) ≤ 2 ^ k2 := pow_le_pow_right₀ (by norm_num) (by omega)
      rw [pow_succ] at hp
      nlinarith
    calc OLSR_C * 2 ^ k1 * (1 + ((SecondsToEmf.mantissa s1 k1 : Int) : ℚ) / 16)
        ≤ OLSR_C * 2 ^ k1 * 2 := mul_le_mul_of_nonneg_left (by linarith) hP1.le
      _ ≤ OLSR_C * 2 ^ k2 := hstep
      _ = OLSR_C * 2 ^ k2 * 1 := (mul_one _).symm
      _ ≤ OLSR_C * 2 ^ k2 * (1 + ((SecondsToEmf.mantissa s2 k2 : Int) : ℚ) / 16) :=
          mul_le_mul_of_nonneg_left (by linarith) hP2.le
  · subst heq
    have hpp : (0 : ℚ) < OLSR_C * (((2 : Int) ^ k1 : Int) : ℚ) := by
      push_cast; exact hP1
    have hmono : SecondsToEmf.mantissa s1 k1 ≤ SecondsToEmf.mantissa s2 k1 := by
      unfold SecondsToEmf.mantissa
      apply Int.ceil_mono
      have := div_le_div_of_nonneg_right h hpp.le
      linarith
    have hmq : ((SecondsToEmf.mantissa s1 k1 : Int) : ℚ)
        ≤ ((SecondsToEmf.mantissa s2 k1 : Int) : ℚ) := by exact_mod_cast hmono
    exact mul_le_mul_of_nonneg_left (by linarith) hP1.le

/-- C32. Time encoding is monotone: for every `s1 ≤ s2` on which `SecondsToEmf` returns a
code, the value of the code of `s1` is at most the value of the code of `s2`. -/
theorem emf_monotone (s1 s2 : ℚ) (c1 c2 : Nat) (h : s1 ≤ s2)
    (h1 : SecondsToEmf s1 = Outcome.ok c1) (h2 : SecondsToEmf s2 = Outcome.ok c2) :
    EmfToSeconds c1 ≤ EmfToSeconds c2 := by
  obtain ⟨hs1, he1, _⟩ := clamp_facts s1
  obtain ⟨hs2, he2, _⟩ := clamp_facts s2
  rw [he1] at h1
  rw [he2] at h2
  have hle : (if s1 < OLSR_C then OLSR_C else s1) ≤ (if s2 < OLSR_C then OLSR_C else s2) := by
    by_cases a1 : s1 < OLSR_C
    · by_cases a2 : s2 < OLSR_C
      · rw [if_pos a1, if_pos a2]
      · rw [if_pos a1, if_neg a2]; exact not_lt.mp a2
    · by_cases a2 : s2 < OLSR_C
      · exact absurd (lt_of_le_of_lt h a2) a1
      · rw [if_neg a1, if_neg a2]; exact h
  exact emf_monotone_of_ge _ _ c1 c2 hs1 hs2 hle h1 h2

/-- Witness of `emf_monotone`: two and three seconds, with the codes `0x05` and `0x85`. -/
theorem emf_monotone_witness :
    (2 : ℚ) ≤ 3 ∧ SecondsToEmf 2 = Outcome.ok 5 ∧ SecondsToEmf 3 = Outcome.ok 133
      ∧ EmfToSeconds 5 ≤ EmfToSeconds 133 :=
  ⟨by norm_num, SecondsToEmf_two, SecondsToEmf_three,
   emf_monotone 2 3 5 133 (by norm_num) SecondsToEmf_two SecondsToEmf_three⟩

end Olsr
